import Mathlib

/-!
# vt_memory: fixed-size block pools

A shallow embedding of the two allocators of the repository:

* `src/vblock/vblock.c` (the inline-indexed pool, namespace `VBlock`);
* `src/vector_block_pool/vt_block_pool.c` (the node-list pool, namespace `VtBlockPool`).

Conventions of the embedding.

* Pointers and machine integers are natural numbers.  `uint32_t` arithmetic is reduced modulo
  `U32 = 2 ^ 32`, `uintptr_t` / `size_t` arithmetic modulo `PTR W = 2 ^ (8 * W)`, where `W` is
  `sizeof(void *)` of the target.  `NULL` is the address `0`.
* Memory is a map from addresses to pointer-sized words.  Every access of the code is a whole
  word at `memory_ptr + W * i`, so words never overlap partially.
* Behaviour that C leaves undefined and that the code can run into (reading through `NULL`,
  dividing by zero, calling a null function pointer) makes the embedded function return `none`.
* The build modelled is the default one of `vblock.h`: `CONFIG_VBLOCK_PERF = 1`,
  `CONFIG_VBLOCK_THREAD = 1`, `CONFIG_VBLOCK_TIMEOUT = 100`, and `CONFIG_VLOCK_DEBUG` undefined,
  so that every `_VBLOCK_CHECK` expands to `((void)0)`.
-/

namespace VBlock

/-! ## Machine arithmetic -/

/-- Number of values of a `uint32_t`. -/
def U32 : Nat := 2 ^ 32

/-- Number of values of a `uintptr_t` (and of a `size_t`) when `sizeof(void *) = W`. -/
def PTR (W : Nat) : Nat := 2 ^ (8 * W)

/-- Difference `(uintptr_t)a - (uintptr_t)b`, computed modulo `PTR W`. -/
def subPtr (W a b : Nat) : Nat := (a % PTR W + PTR W - b % PTR W) % PTR W

/-- Complement `~x` of a `uint32_t`. -/
def not32 (x : Nat) : Nat := U32 - 1 - x % U32

/-- Word-granular memory: the pointer-sized word stored at each address. -/
abbrev Mem := Nat → Nat

/-- The store `*(void **)a = val`. -/
def store (mem : Mem) (a val : Nat) : Mem := fun x => if x = a then val else mem x

/-! ## Constants of `vblock.h` -/

def CONFIG_VBLOCK_TIMEOUT : Nat := 100

def VBLOCK_PARAM_ALIGN_1 : Nat := 0
def VBLOCK_PARAM_ALIGN_8 : Nat := 3
def VBLOCK_PARAM_ALIGN_128 : Nat := 7

def VBLOCK_RET_SUCCESS : Int := 0
def VBLOCK_RET_NOBLOCK : Int := -1
def VBLOCK_RET_OTHERS : Int := -2
def VBLOCK_RET_OCCUPANCY : Int := -3
def VBLOCK_RET_TIMEOUT : Int := -4

/-! ## The pool descriptor -/

/-- The struct `vblock_t`.  A hook is a nullable function pointer; the world the hooks act on
(the host's mutex and semaphore) is a value of type `E`, threaded through every call.  A `get`
hook receives the wait budget and returns its `int` result. -/
structure vblock_t (E : Type) where
  list : Nat
  node : Nat
  area : Nat
  mtx_get : Option (Nat → E → Int × E)
  mtx_put : Option (E → E)
  sem_get : Option (Nat → E → Int × E)
  sem_put : Option (E → E)
  size : Nat
  total : Nat
  free : Nat
  perf_alloc : Nat
  perf_free : Nat
  perf_timeout : Nat

variable {E : Type}

/-! ## `vblock_create` -/

/-- The loop `for (i = 0; i < count; i++) ((void **)memory_ptr)[i] = &((void **)memory_ptr)[i + 1];`
of `vblock_create` (lines 120-123), run for `i = 0 .. count - 1` in this order. -/
def build_list (W memory_ptr : Nat) : Nat → Mem → Mem
  | 0, mem => mem
  | i + 1, mem =>
    store (build_list W memory_ptr i mem)
      ((memory_ptr + W * i) % PTR W) ((memory_ptr + W * (i + 1)) % PTR W)

/-- The statement pair `if (address & bitmask) address = (address & (~bitmask)) + (0x1 << align);`
of `vblock_create` (lines 92-95 and 113-116).  `bitmask` is a `uint32_t`, so `~bitmask` is a
32-bit value that is zero-extended before the `&` with the `uintptr_t` address. -/
def align_address (W align bitmask address : Nat) : Nat :=
  if address &&& bitmask ≠ 0 then ((address &&& not32 bitmask) + 2 ^ align) % PTR W else address

/-- The function `vblock_create` (lines 56-160).  It returns the `int` result, the descriptor and
the memory; `none` is the division by zero of line 80.  The checks of lines 64-69 are compiled
out, so `memory_ptr != NULL`, `size > 0` and `VBLOCK_PARAM_ALIGN_1 <= align <=
VBLOCK_PARAM_ALIGN_128` are obligations of the caller; the shift `0x1 << align` is `2 ^ align`
for every such `align`. -/
def vblock_create (W : Nat) (v : vblock_t E) (size align memory_ptr memory_size : Nat)
    (mem : Mem) : Option (Int × vblock_t E × Mem) :=
  let bitmask := (2 ^ align - 1) % U32
  let size1 := if size &&& bitmask ≠ 0 then ((size &&& not32 bitmask) + 2 ^ align) % U32 else size
  let d := (W + size1) % PTR W
  if d = 0 then none
  else
    let count := (memory_size / d) % U32
    if count = 0 then some (VBLOCK_RET_NOBLOCK, v, mem)
    else
      let address := align_address W align bitmask ((memory_ptr + (W * count) % PTR W) % PTR W)
      let over := (address + (count * size1) % U32) % PTR W > (memory_ptr + memory_size) % PTR W
      let count1 := if over then count - 1 else count
      let address1 := if over then
          align_address W align bitmask ((memory_ptr + (W * count1) % PTR W) % PTR W)
        else address
      if count1 = 0 then some (VBLOCK_RET_NOBLOCK, v, mem)
      else
        let mem1 := build_list W memory_ptr count1 mem
        let mem2 := store mem1 ((memory_ptr + W * (count1 - 1)) % PTR W) 0
        some (VBLOCK_RET_SUCCESS,
          { list := memory_ptr
            node := memory_ptr
            area := address1
            mtx_get := none
            mtx_put := none
            sem_get := none
            sem_put := none
            size := size1
            total := count1
            free := count1
            perf_alloc := 0
            perf_free := 0
            perf_timeout := 0 },
          mem2)

/-! ## `vblock_delete`, `vblock_add_mtx`, `vblock_add_sem` -/

/-- The function `vblock_delete` (lines 167-201). -/
def vblock_delete (v : vblock_t E) : Int × vblock_t E :=
  if v.total ≠ v.free then (VBLOCK_RET_OCCUPANCY, v)
  else
    (VBLOCK_RET_SUCCESS,
      { list := 0
        node := 0
        area := 0
        mtx_get := none
        mtx_put := none
        sem_get := none
        sem_put := none
        size := 0
        total := 0
        free := 0
        perf_alloc := 0
        perf_free := 0
        perf_timeout := 0 })

/-- The function `vblock_add_mtx` (lines 211-228). -/
def vblock_add_mtx (v : vblock_t E) (get : Option (Nat → E → Int × E)) (put : Option (E → E)) :
    Int × vblock_t E :=
  if get.isNone || put.isNone then
    (VBLOCK_RET_SUCCESS, { v with mtx_get := none, mtx_put := none })
  else
    (VBLOCK_RET_SUCCESS, { v with mtx_get := get, mtx_put := put })

/-- The function `vblock_add_sem` (lines 239-256). -/
def vblock_add_sem (v : vblock_t E) (get : Option (Nat → E → Int × E)) (put : Option (E → E)) :
    Int × vblock_t E :=
  if get.isNone || put.isNone then
    (VBLOCK_RET_SUCCESS, { v with sem_get := none, sem_put := none })
  else
    (VBLOCK_RET_SUCCESS, { v with sem_get := get, sem_put := put })

/-! ## `vblock_alloc` and `vblock_free` -/

/-- Result of calling a `get` hook that may be absent: an absent hook is skipped, which the
control flow cannot tell from a hook that returned `0`. -/
def call_get (hook : Option (Nat → E → Int × E)) (wait : Nat) (env : E) : Int × E :=
  match hook with
  | some get => get wait env
  | none => (0, env)

/-- The statement `if (hook) hook();` for a `put` hook. -/
def call_put (hook : Option (E → E)) (env : E) : E :=
  match hook with
  | some put => put env
  | none => env

/-- The function `vblock_alloc` (lines 266-337).  The second component is the value stored to
`*addr`, if the call stored one.  `none` is the call `vblock->sem_put()` of line 302 through a
null pointer, or the read `*((void **)node)` of line 317 through `NULL`.  The function never
writes to the pool memory. -/
def vblock_alloc (W : Nat) (v : vblock_t E) (mem : Mem) (env : E) (wait : Nat) :
    Option (Int × Option Nat × vblock_t E × E) :=
  let v1 := { v with perf_alloc := (v.perf_alloc + 1) % U32 }
  let semr := call_get v1.sem_get wait env
  if semr.1 ≠ 0 then some (VBLOCK_RET_NOBLOCK, none, v1, semr.2)
  else if v1.free = 0 then some (VBLOCK_RET_NOBLOCK, none, v1, semr.2)
  else
    let mtxr := call_get v1.mtx_get CONFIG_VBLOCK_TIMEOUT semr.2
    if mtxr.1 ≠ 0 then
      match v1.sem_put with
      | none => none
      | some put =>
        some (VBLOCK_RET_TIMEOUT, none,
          { v1 with perf_timeout := (v1.perf_timeout + 1) % U32 }, put mtxr.2)
    else if v1.list = 0 then none
    else
      let node := v1.list
      let index := (subPtr W node v1.node / W) % U32
      let addr := (v1.area + (index * v1.size) % U32) % PTR W
      some (VBLOCK_RET_SUCCESS, some addr,
        { v1 with list := mem node, free := v1.free - 1 },
        call_put v1.mtx_put mtxr.2)

/-- The function `vblock_free` (lines 345-412).  `none` is the division by `vblock->size = 0` of
line 379.  The two early error returns (lines 370 and 384) leave without calling `mtx_put`. -/
def vblock_free (W : Nat) (v : vblock_t E) (mem : Mem) (env : E) (addr : Nat) :
    Option (Int × vblock_t E × Mem × E) :=
  let mtxr := call_get v.mtx_get CONFIG_VBLOCK_TIMEOUT env
  if mtxr.1 ≠ 0 then
    some (VBLOCK_RET_TIMEOUT, { v with perf_timeout := (v.perf_timeout + 1) % U32 }, mem, mtxr.2)
  else if v.total = v.free then some (VBLOCK_RET_OTHERS, v, mem, mtxr.2)
  else
    let v1 := { v with perf_free := (v.perf_free + 1) % U32 }
    if v1.size = 0 then none
    else
      let index := (subPtr W addr v1.area / v1.size) % U32
      if index > v1.total then some (-1, v1, mem, mtxr.2)
      else
        let node := (v1.node + (index * W) % PTR W) % PTR W
        some (VBLOCK_RET_SUCCESS,
          { v1 with list := node, free := (v1.free + 1) % U32 },
          store mem node v1.list,
          call_put v1.sem_put (call_put v1.mtx_put mtxr.2))

/-- The function `vblock_get_info` (lines 420-434): the pair `(total, free)`. -/
def vblock_get_info (v : vblock_t E) : Nat × Nat := (v.total, v.free)

/-! ## Calls in sequence -/

/-- A pool under use: the descriptor, the memory, the world of the hooks, and (ghost state kept
for the statements only) the addresses of the outstanding blocks, that is, the addresses stored
by a successful `vblock_alloc` and not yet handed to a successful `vblock_free`. -/
structure Sys (E : Type) where
  v : vblock_t E
  mem : Mem
  env : E
  out : List Nat

/-- One call of the API on a pool. -/
inductive Op (E : Type) where
  | alloc (wait : Nat)
  | free (addr : Nat)
  | add_mtx (get : Option (Nat → E → Int × E)) (put : Option (E → E))
  | add_sem (get : Option (Nat → E → Int × E)) (put : Option (E → E))

/-- The call is a `vblock_alloc` or a `vblock_free`. -/
def Op.is_call : Op E → Bool
  | .alloc _ => true
  | .free _ => true
  | _ => false

/-- A valid call on a pool without hooks: any `vblock_alloc`, or a `vblock_free` of a block that
is outstanding. -/
def Op.valid (s : Sys E) : Op E → Bool
  | .alloc _ => true
  | .free addr => decide (addr ∈ s.out)
  | _ => false

/-- Effect of one call: its `int` result and the pool after it; `none` when the call runs into
undefined behaviour. -/
def Sys.call (W : Nat) (s : Sys E) : Op E → Option (Int × Sys E)
  | .alloc wait =>
    match vblock_alloc W s.v s.mem s.env wait with
    | none => none
    | some (ret, some a, v1, env1) =>
      some (ret, { v := v1, mem := s.mem, env := env1, out := a :: s.out })
    | some (ret, none, v1, env1) =>
      some (ret, { v := v1, mem := s.mem, env := env1, out := s.out })
  | .free addr =>
    match vblock_free W s.v s.mem s.env addr with
    | none => none
    | some (ret, v1, mem1, env1) =>
      some (ret, { v := v1, mem := mem1, env := env1,
                   out := if ret = VBLOCK_RET_SUCCESS then s.out.erase addr else s.out })
  | .add_mtx get put =>
    some ((vblock_add_mtx s.v get put).1, { s with v := (vblock_add_mtx s.v get put).2 })
  | .add_sem get put =>
    some ((vblock_add_sem s.v get put).1, { s with v := (vblock_add_sem s.v get put).2 })

/-- A sequence of arbitrary calls: the results of the calls, in order, and the final pool. -/
def Sys.run (W : Nat) (s : Sys E) : List (Op E) → Option (List Int × Sys E)
  | [] => some ([], s)
  | op :: ops =>
    match s.call W op with
    | none => none
    | some (ret, s1) =>
      match Sys.run W s1 ops with
      | none => none
      | some (rets, s2) => some (ret :: rets, s2)

/-- A sequence of valid calls (see `Op.valid`): the final pool, or `none` when a call of the
sequence is not valid or runs into undefined behaviour. -/
def Sys.run_valid (W : Nat) (s : Sys E) : List (Op E) → Option (Sys E)
  | [] => some s
  | op :: ops =>
    if op.valid s then
      match s.call W op with
      | none => none
      | some (_, s1) => Sys.run_valid W s1 ops
    else none

/-- The pool right after a `vblock_create` that returned `VBLOCK_RET_SUCCESS`; `none` when
`vblock_create` did not. -/
def created (W : Nat) (v : vblock_t E) (size align memory_ptr memory_size : Nat) (mem : Mem)
    (env : E) : Option (Sys E) :=
  match vblock_create W v size align memory_ptr memory_size mem with
  | some (ret, v1, mem1) =>
    if ret = VBLOCK_RET_SUCCESS then some { v := v1, mem := mem1, env := env, out := [] }
    else none
  | none => none

/-! ## A host for the hooks: a counting semaphore and a mutex that times out -/

/-- The counting semaphore of the host: the permits available and its capacity. -/
structure SemEnv where
  permits : Nat
  capacity : Nat

/-- Hook `sem_get` of a counting semaphore: takes a permit, fails when none is available. -/
def sem_get_permit (_wait : Nat) (e : SemEnv) : Int × SemEnv :=
  if e.permits = 0 then (-1, e) else (0, { e with permits := e.permits - 1 })

/-- Hook `sem_put` of a counting semaphore: gives a permit back, up to the capacity. -/
def sem_put_permit (e : SemEnv) : SemEnv :=
  if e.permits < e.capacity then { e with permits := e.permits + 1 } else e

/-- Hook `mtx_get` of a mutex whose acquire always reports a timeout. -/
def mtx_get_timeout (_wait : Nat) (e : SemEnv) : Int × SemEnv := (1, e)

/-- Hook `mtx_put` of that mutex. -/
def mtx_put_idle (e : SemEnv) : SemEnv := e

/-- The pool after a successful `vblock_create`, followed by `vblock_add_sem` with a counting
semaphore of capacity `total`, all permits available, and by `vblock_add_mtx` with a mutex that
always times out. -/
def created_timeout (W : Nat) (v : vblock_t SemEnv) (size align memory_ptr memory_size : Nat)
    (mem : Mem) : Option (Sys SemEnv) :=
  match vblock_create W v size align memory_ptr memory_size mem with
  | some (ret, v1, mem1) =>
    if ret = VBLOCK_RET_SUCCESS then
      some { v := (vblock_add_mtx (vblock_add_sem v1 (some sem_get_permit)
                    (some sem_put_permit)).2 (some mtx_get_timeout) (some mtx_put_idle)).2
             mem := mem1
             env := { permits := v1.total, capacity := v1.total }
             out := [] }
    else none
  | none => none

/-! ## A host with a mutex that is held or not -/

/-- The mutex of the host: whether it is held, and the number of `mtx_put` calls so far. -/
structure LockEnv where
  held : Bool
  puts : Nat

/-- Hook `mtx_get` of a mutex with a held flag: acquires the mutex when it is not held, reports a
timeout when it is. -/
def mtx_get_lock (_wait : Nat) (e : LockEnv) : Int × LockEnv :=
  if e.held then (1, e) else (0, { e with held := true })

/-- Hook `mtx_put` of that mutex: releases it. -/
def mtx_put_lock (e : LockEnv) : LockEnv := { held := false, puts := e.puts + 1 }

/-- The pool after a successful `vblock_create`, followed by `vblock_add_mtx` with the mutex of
`LockEnv`, not held. -/
def created_lock (W : Nat) (v : vblock_t LockEnv) (size align memory_ptr memory_size : Nat)
    (mem : Mem) : Option (Sys LockEnv) :=
  match vblock_create W v size align memory_ptr memory_size mem with
  | some (ret, v1, mem1) =>
    if ret = VBLOCK_RET_SUCCESS then
      some { v := (vblock_add_mtx v1 (some mtx_get_lock) (some mtx_put_lock)).2
             mem := mem1
             env := { held := false, puts := 0 }
             out := [] }
    else none
  | none => none

/-! ## A host with a counting semaphore next to any mutex -/

variable {M : Type}

/-- Hook `sem_get` of the counting semaphore of a host whose mutex has its state in `M`. -/
def sem_get_host (wait : Nat) (e : SemEnv × M) : Int × (SemEnv × M) :=
  ((sem_get_permit wait e.1).1, ((sem_get_permit wait e.1).2, e.2))

/-- Hook `sem_put` of the counting semaphore of that host. -/
def sem_put_host (e : SemEnv × M) : SemEnv × M := (sem_put_permit e.1, e.2)

/-- Hook `mtx_get` of that host, for any acquire function `get` of the mutex. -/
def mtx_get_host (get : Nat → M → Int × M) (wait : Nat) (e : SemEnv × M) : Int × (SemEnv × M) :=
  ((get wait e.2).1, (e.1, (get wait e.2).2))

/-- Hook `mtx_put` of that host, for any release function `put` of the mutex. -/
def mtx_put_host (put : M → M) (e : SemEnv × M) : SemEnv × M := (e.1, put e.2)

/-- The pool after a successful `vblock_create`, followed by `vblock_add_sem` with a counting
semaphore of `total` permits, all available, and by `vblock_add_mtx` with the given functions of
a mutex (none at all is a pool without mutex). -/
def created_sem (W : Nat) (v : vblock_t (SemEnv × M)) (size align memory_ptr memory_size : Nat)
    (mem : Mem) (get : Option (Nat → M → Int × M)) (put : Option (M → M)) (m0 : M) :
    Option (Sys (SemEnv × M)) :=
  match vblock_create W v size align memory_ptr memory_size mem with
  | some (ret, v1, mem1) =>
    if ret = VBLOCK_RET_SUCCESS then
      some { v := (vblock_add_mtx (vblock_add_sem v1 (some sem_get_host) (some sem_put_host)).2
                    (get.map mtx_get_host) (put.map mtx_put_host)).2
             mem := mem1
             env := ({ permits := v1.total, capacity := v1.total }, m0)
             out := [] }
    else none
  | none => none

/-- Acquire function of a mutex whose coming outcomes are listed: `true` is an acquire, `false`
a timeout; past the end of the list every acquire succeeds. -/
def mtx_get_script (_wait : Nat) (l : List Bool) : Int × List Bool :=
  match l with
  | [] => (0, [])
  | b :: t => (if b then 0 else 1, t)

/-- Release function of that mutex. -/
def mtx_put_script (l : List Bool) : List Bool := l

/-- Acquire function of a mutex that always reports a timeout. -/
def mtx_get_busy (_wait : Nat) (l : List Bool) : Int × List Bool := (1, l)

/-! ## Concrete inputs -/

/-- A zero-filled descriptor, for a host without hooks. -/
def zero_pool : vblock_t Unit :=
  { list := 0, node := 0, area := 0, mtx_get := none, mtx_put := none, sem_get := none,
    sem_put := none, size := 0, total := 0, free := 0, perf_alloc := 0, perf_free := 0,
    perf_timeout := 0 }

/-- A zero-filled descriptor, for the host of `SemEnv`. -/
def zero_pool_sem : vblock_t SemEnv :=
  { list := 0, node := 0, area := 0, mtx_get := none, mtx_put := none, sem_get := none,
    sem_put := none, size := 0, total := 0, free := 0, perf_alloc := 0, perf_free := 0,
    perf_timeout := 0 }

/-- A zero-filled descriptor, for the host of `LockEnv`. -/
def zero_pool_lock : vblock_t LockEnv :=
  { list := 0, node := 0, area := 0, mtx_get := none, mtx_put := none, sem_get := none,
    sem_put := none, size := 0, total := 0, free := 0, perf_alloc := 0, perf_free := 0,
    perf_timeout := 0 }

/-- A zero-filled descriptor, for the host of a counting semaphore next to a scripted mutex. -/
def zero_pool_host : vblock_t (SemEnv × List Bool) :=
  { list := 0, node := 0, area := 0, mtx_get := none, mtx_put := none, sem_get := none,
    sem_put := none, size := 0, total := 0, free := 0, perf_alloc := 0, perf_free := 0,
    perf_timeout := 0 }

/-- A zero-filled memory. -/
def zero_mem : Mem := fun _ => 0

/-! ## The layout stated for `vblock_create`

The block count and the block area as the specification words them, with exact arithmetic, to
be compared with what `vblock_create` computes. -/

/-- The least multiple of `2 ^ align` that is at least `x`. -/
def claimed_round_up (x align : Nat) : Nat := (x + (2 ^ align - 1)) / 2 ^ align * 2 ^ align

/-- The start `start(k)` of the block region for `k` blocks: `memory_ptr + W * k` rounded up to
a multiple of `2 ^ align`. -/
def claimed_start (W memory_ptr align k : Nat) : Nat := claimed_round_up (memory_ptr + W * k) align

/-- The pair `(total, area)` stated for the aligned block size `s`, or `none` where
`VBLOCK_RET_NOBLOCK` is stated: `c = memory_size / (W + s)`; nothing when `c = 0`; `total = c`
if `start(c) + c * s <= memory_ptr + memory_size`, else `total = c - 1`, nothing when
`c - 1 = 0`; `area = start(total)`. -/
def claimed_layout (W s align memory_ptr memory_size : Nat) : Option (Nat × Nat) :=
  let c := memory_size / (W + s)
  if c = 0 then none
  else if claimed_start W memory_ptr align c + c * s ≤ memory_ptr + memory_size then
    some (c, claimed_start W memory_ptr align c)
  else if c - 1 = 0 then none
  else some (c - 1, claimed_start W memory_ptr align (c - 1))

/-! ## Invariants of a pool without hooks -/

/-- The free list seen from `head` runs through the index slots `ptr + W * i` for `i` in the
list of indices, in this order, and ends with `NULL`. -/
def Chain (W ptr : Nat) (mem : Mem) : Nat → List Nat → Prop
  | head, [] => head = 0
  | head, i :: t => head = ptr + W * i ∧ Chain W ptr mem (mem head) t

/-- The descriptor and the free list of a pool without hooks that lives in the buffer
`[ptr, ptr + ms)`: `fl` lists the indices of the free slots in list order. -/
structure FreeListOK (W ptr ms : Nat) (v : vblock_t E) (mem : Mem) (fl : List Nat) : Prop where
  hW : 4 ≤ W
  hptr : 0 < ptr
  hbuf : ptr + ms < PTR W
  hms : ms < U32
  hnode : v.node = ptr
  hfit : v.total * (W + v.size) ≤ ms
  harea : v.area < PTR W
  hchain : Chain W ptr mem v.list fl
  hlen : fl.length = v.free
  hnd : fl.Nodup
  hlt : ∀ i ∈ fl, i < v.total
  hsg : v.sem_get = none
  hsp : v.sem_put = none
  hmg : v.mtx_get = none
  hmp : v.mtx_put = none

/-- The invariant of a pool with a non-zero block size under valid calls: every outstanding
address is the block of an index that is not on the free list, no address is outstanding twice,
and the free and outstanding blocks together are all the blocks. -/
structure Inv (W ptr ms : Nat) (s : Sys E) (fl : List Nat) : Prop where
  base : FreeListOK W ptr ms s.v s.mem fl
  hsize : 0 < s.v.size
  hout_nd : s.out.Nodup
  hout : ∀ a ∈ s.out, ∃ i, i < s.v.total ∧ i ∉ fl ∧ a = (s.v.area + i * s.v.size) % PTR W
  hcons : fl.length + s.out.length = s.v.total

/-- The invariant of a pool whose semaphore was attached with capacity `total` and whose mutex
always times out: the hooks stay attached, all permits are available and no block is out. -/
structure TimeoutInv (s : Sys SemEnv) : Prop where
  hsg : s.v.sem_get = some sem_get_permit
  hsp : s.v.sem_put = some sem_put_permit
  hmg : s.v.mtx_get = some mtx_get_timeout
  hperm : s.env.permits = s.env.capacity
  hcap : s.env.capacity = s.v.total
  hfree : s.v.free = s.v.total

/-- The invariant of a pool whose counting semaphore was attached with `total` permits: the
semaphore hooks stay attached, the mutex hooks leave the semaphore alone, and the permits
available are as many as the free blocks. -/
structure PermitInv (s : Sys (SemEnv × M)) : Prop where
  hsg : s.v.sem_get = some sem_get_host
  hsp : s.v.sem_put = some sem_put_host
  hmg : ∀ w e, (call_get s.v.mtx_get w e).2.1 = e.1
  hmp : ∀ e, (call_put s.v.mtx_put e).1 = e.1
  hperm : s.env.1.permits = s.v.free
  hcap : s.env.1.capacity = s.v.total
  hle : s.v.free ≤ s.v.total
  htot : s.v.total < U32

/-- The first `free` nodes of the free list are not `NULL`, every index slot up to the slot
past the end has a non-null address, and the block size is not zero. -/
structure LiveInv (W ptr : Nat) (s : Sys E) : Prop where
  hptr : 0 < ptr
  hnode : s.v.node = ptr
  hslots : ptr + W * s.v.total < PTR W
  hsize : s.v.size ≠ 0
  hheads : ∀ k, k < s.v.free → Nat.iterate s.mem k s.v.list ≠ 0

end VBlock

/-!
# The node-list pool (`vt_block_pool.c`)

The build modelled is the unsynchronized one: `CONFIG_VT_BLOCK_POOL_MULTITHREAD` and
`CONFIG_VT_BLOCK_POOL_DEBUG` undefined.  A node is addressed by its address in the caller's node
array; `sizeof(vt_block_pool_node_t)` is two pointers.
-/

namespace VtBlockPool

open VBlock (U32 PTR)

/-- The struct `vt_block_pool_node_t`. -/
structure vt_block_pool_node_t where
  next : Nat
  pool : Nat

/-- The struct `vt_block_pool_t` of the unsynchronized build. -/
structure vt_block_pool_t where
  free_list : Nat
  busy_list : Nat

/-- The node stored at each address of the node array. -/
abbrev NodeMem := Nat → vt_block_pool_node_t

/-- The address `&nodes[i]`. -/
def node_addr (W nodes i : Nat) : Nat := (nodes + (2 * W * i) % PTR W) % PTR W

/-- The address `&pool_ptr[blk_size * i]` of line 89; the product is a `uint32_t` product. -/
def blk_addr (W pool_ptr blk_size i : Nat) : Nat := (pool_ptr + (blk_size * i) % U32) % PTR W

/-- The store `a->next = x`. -/
def set_next (m : NodeMem) (a x : Nat) : NodeMem :=
  fun p => if p = a then { m a with next := x } else m p

/-- The store `a->pool = x`. -/
def set_pool (m : NodeMem) (a x : Nat) : NodeMem :=
  fun p => if p = a then { m a with pool := x } else m p

/-- The loop of `vt_block_pool_create` (lines 87-90), run for `i = 0 .. blk_count - 1`. -/
def init_nodes (W nodes pool_ptr blk_size : Nat) : Nat → NodeMem → NodeMem
  | 0, m => m
  | i + 1, m =>
    set_pool
      (set_next (init_nodes W nodes pool_ptr blk_size i m) (node_addr W nodes i)
        (node_addr W nodes ((i + 1) % U32)))
      (node_addr W nodes i) (blk_addr W pool_ptr blk_size i)

/-- The function `vt_block_pool_create` (lines 65-95). -/
def vt_block_pool_create (W : Nat) (_heap : vt_block_pool_t) (nodes pool_ptr blk_count
    blk_size : Nat) (m : NodeMem) : Int × vt_block_pool_t × NodeMem :=
  (0, { busy_list := 0, free_list := node_addr W nodes 0 },
    set_next (init_nodes W nodes pool_ptr blk_size blk_count m)
      (node_addr W nodes ((blk_count + U32 - 1) % U32)) 0)

/-- The function `vt_block_pool_alloc_wait` (lines 130-168).  The second component is the value
stored to `*blk_ptr`, if the call stored one. -/
def vt_block_pool_alloc_wait (heap : vt_block_pool_t) (m : NodeMem) (_wait : Nat) :
    Int × Option Nat × vt_block_pool_t × NodeMem :=
  if heap.free_list = 0 then (-1, none, heap, m)
  else
    let node := heap.free_list
    let m1 := set_next m node heap.busy_list
    (0, some (m1 node).pool, { free_list := (m node).next, busy_list := node }, m1)

/-- The function `vt_block_pool_alloc` (lines 176-179). -/
def vt_block_pool_alloc (heap : vt_block_pool_t) (m : NodeMem) :
    Int × Option Nat × vt_block_pool_t × NodeMem :=
  vt_block_pool_alloc_wait heap m 0

/-- The loop `while (next != NULL)` of `vt_block_pool_free` (lines 223-239), entered with the
variables `node` and `next`; the result is the flag with the pool after the loop.  The loop of
the code has no bound: `fuel` bounds the number of tests of the loop condition, and `none` means
that the bound was reached. -/
def free_scan : Nat → vt_block_pool_t → NodeMem → Nat → Nat → Nat →
    Option (Bool × vt_block_pool_t × NodeMem)
  | 0, _, _, _, _, _ => none
  | fuel + 1, heap, m, node, next, blk_ptr =>
    if next = 0 then some (false, heap, m)
    else if (m next).pool = blk_ptr then
      some (true, { heap with free_list := next },
        set_next (set_next m node (m next).next) next heap.free_list)
    else free_scan fuel heap m next (m next).next blk_ptr

/-- The function `vt_block_pool_free` (lines 187-257); `none` when the loop did not end within
`fuel` tests. -/
def vt_block_pool_free (fuel : Nat) (heap : vt_block_pool_t) (m : NodeMem) (blk_ptr : Nat) :
    Option (Int × vt_block_pool_t × NodeMem) :=
  if heap.busy_list = 0 then some (-1, heap, m)
  else
    let node := heap.busy_list
    let next := (m node).next
    if (m node).pool = blk_ptr then
      some (0, { busy_list := next, free_list := node }, set_next m node heap.free_list)
    else
      match free_scan fuel heap m node next blk_ptr with
      | none => none
      | some (flag, heap1, m1) => some (if flag then 0 else -1, heap1, m1)

/-- A node pool under use. -/
structure Pool where
  heap : vt_block_pool_t
  nmem : NodeMem

/-- One call of the API on a node pool. -/
inductive Call where
  | alloc
  | free (blk_ptr : Nat)

/-- Effect of one call: its `int` result and the pool after it. -/
def Pool.call (fuel : Nat) (p : Pool) : Call → Option (Int × Pool)
  | .alloc =>
    let r := vt_block_pool_alloc p.heap p.nmem
    some (r.1, { heap := r.2.2.1, nmem := r.2.2.2 })
  | .free blk_ptr =>
    match vt_block_pool_free fuel p.heap p.nmem blk_ptr with
    | none => none
    | some (ret, heap1, m1) => some (ret, { heap := heap1, nmem := m1 })

/-- A sequence of calls: the results of the calls, in order, and the final pool. -/
def Pool.run (fuel : Nat) (p : Pool) : List Call → Option (List Int × Pool)
  | [] => some ([], p)
  | c :: cs =>
    match p.call fuel c with
    | none => none
    | some (ret, p1) =>
      match Pool.run fuel p1 cs with
      | none => none
      | some (rets, p2) => some (ret :: rets, p2)

/-- The pool right after `vt_block_pool_create`. -/
def created (W : Nat) (heap : vt_block_pool_t) (nodes pool_ptr blk_count blk_size : Nat)
    (m : NodeMem) : Pool :=
  { heap := (vt_block_pool_create W heap nodes pool_ptr blk_count blk_size m).2.1
    nmem := (vt_block_pool_create W heap nodes pool_ptr blk_count blk_size m).2.2 }

/-! ## `vt_block_pool_get_info` -/

/-- A loop `while (node != NULL) { node = node->next; *count += 1; }` of
`vt_block_pool_get_info` (lines 284-287 and 293-296), entered with the node and the count so
far; the count is a `uint32_t`.  The loop of the code has no bound: `fuel` bounds the number of
tests of the loop condition, and `none` means that the bound was reached. -/
def count_nodes : Nat → NodeMem → Nat → Nat → Option Nat
  | 0, _, _, _ => none
  | fuel + 1, m, node, count =>
    if node = 0 then some count else count_nodes fuel m (m node).next ((count + 1) % U32)

/-- The function `vt_block_pool_get_info` (lines 266-303) of the unsynchronized build: the `int`
result with the values stored to `*busy_blk` and `*free_blk`.  It writes neither to the
descriptor nor to the nodes. -/
def vt_block_pool_get_info (fuel : Nat) (heap : vt_block_pool_t) (m : NodeMem) :
    Option (Int × Nat × Nat) :=
  match count_nodes fuel m heap.busy_list 0 with
  | none => none
  | some busy_blk =>
    match count_nodes fuel m heap.free_list 0 with
    | none => none
    | some free_blk => some (0, busy_blk, free_blk)

/-- The number of outstanding blocks after a sequence of calls with the given results: the
successful allocs minus the successful frees. -/
def outstanding : List Call → List Int → Int
  | Call.alloc :: cs, r :: rs => (if r = 0 then 1 else 0) + outstanding cs rs
  | Call.free _ :: cs, r :: rs => (if r = 0 then -1 else 0) + outstanding cs rs
  | _, _ => 0

/-! ## The synchronized build

With `CONFIG_VT_BLOCK_POOL_MULTITHREAD` defined the pool owns a counting semaphore and a mutex of
the host, reached through the port functions of `vt_block_pool_port_freertos.c`. -/

def CONFIG_VT_BLOCK_POOL_MUTEX_TIMEOUT : Nat := 1000

/-- The host seen through the port: whether the mutex of the pool is held, and the permits and
the capacity of its counting semaphore. -/
structure PortEnv where
  mtx_held : Bool
  permits : Nat
  capacity : Nat

/-- The two handles of a pool. -/
inductive Handle where
  | sem
  | mtx

/-- Modelled from the spec: the FreeRTOS call `xSemaphoreTake`, which is not part of the
repository; `true` stands for `pdTRUE`.  The mutex is taken when it is not held, a permit is
taken when one is available. -/
def xSemaphoreTake (h : Handle) (_wait : Nat) (e : PortEnv) : Bool × PortEnv :=
  match h with
  | .mtx => if e.mtx_held then (false, e) else (true, { e with mtx_held := true })
  | .sem => if e.permits = 0 then (false, e) else (true, { e with permits := e.permits - 1 })

/-- Modelled from the spec: the FreeRTOS call `xSemaphoreGive`, which is not part of the
repository; `true` stands for `pdTRUE`.  A held mutex is released, a permit is given back up to
the capacity. -/
def xSemaphoreGive (h : Handle) (e : PortEnv) : Bool × PortEnv :=
  match h with
  | .mtx => if e.mtx_held then (true, { e with mtx_held := false }) else (false, e)
  | .sem =>
    if e.permits < e.capacity then (true, { e with permits := e.permits + 1 }) else (false, e)

/-- The port function `vt_block_pool_semaphore_put`. -/
def vt_block_pool_semaphore_put (e : PortEnv) : Int × PortEnv :=
  if (xSemaphoreGive Handle.sem e).1 then (0, (xSemaphoreGive Handle.sem e).2)
  else (-1, (xSemaphoreGive Handle.sem e).2)

/-- The port function `vt_block_pool_mutex_get`. -/
def vt_block_pool_mutex_get (wait : Nat) (e : PortEnv) : Int × PortEnv :=
  if (xSemaphoreTake Handle.mtx wait e).1 then (0, (xSemaphoreTake Handle.mtx wait e).2)
  else (-1, (xSemaphoreTake Handle.mtx wait e).2)

/-- The port function `vt_block_pool_mutex_put`. -/
def vt_block_pool_mutex_put (e : PortEnv) : Int × PortEnv :=
  if (xSemaphoreGive Handle.mtx e).1 then (0, (xSemaphoreGive Handle.mtx e).2)
  else (-1, (xSemaphoreGive Handle.mtx e).2)

/-- The function `vt_block_pool_free` (lines 187-257) of the synchronized build.  The test
`heap->busy_list == NULL` of line 201 is not compiled in this build, so that `none` is the read
`heap->busy_list->next` of line 210 through `NULL`, or the loop not ending within `fuel`
tests. -/
def vt_block_pool_free_multithread (fuel : Nat) (heap : vt_block_pool_t) (m : NodeMem)
    (e : PortEnv) (blk_ptr : Nat) : Option (Int × vt_block_pool_t × NodeMem × PortEnv) :=
  let got := vt_block_pool_mutex_get CONFIG_VT_BLOCK_POOL_MUTEX_TIMEOUT e
  if got.1 ≠ 0 then some (-1, heap, m, got.2)
  else if heap.busy_list = 0 then none
  else
    let node := heap.busy_list
    let next := (m node).next
    if (m node).pool = blk_ptr then
      some (0, { busy_list := next, free_list := node }, set_next m node heap.free_list,
        (vt_block_pool_semaphore_put (vt_block_pool_mutex_put got.2).2).2)
    else
      match free_scan fuel heap m node next blk_ptr with
      | none => none
      | some (flag, heap1, m1) =>
        if flag then
          some (0, heap1, m1, (vt_block_pool_semaphore_put (vt_block_pool_mutex_put got.2).2).2)
        else some (-1, heap1, m1, (vt_block_pool_mutex_put got.2).2)

/-! ## Invariants of the node pool -/

/-- The list that starts at `head` runs through the nodes of the list of addresses, in this
order, and ends with `NULL`: it is `NULL`-terminated, hence has no cycle. -/
def ListAt (m : NodeMem) : Nat → List Nat → Prop
  | head, [] => head = 0
  | head, a :: t => head = a ∧ a ≠ 0 ∧ ListAt m (m a).next t

/-- The invariant of a node pool over the node array at `nodes`: `fl` and `bl` are the free and
the busy list, together they hold every node of the array once, and every node keeps the block
address given by `vt_block_pool_create`. -/
structure PoolInv (W nodes pool_ptr blk_count blk_size : Nat) (p : Pool) (fl bl : List Nat) :
    Prop where
  hfree : ListAt p.nmem p.heap.free_list fl
  hbusy : ListAt p.nmem p.heap.busy_list bl
  hperm : (fl ++ bl).Perm ((List.range blk_count).map (node_addr W nodes))
  hnd : (fl ++ bl).Nodup
  hpool : ∀ i, i < blk_count →
    (p.nmem (node_addr W nodes i)).pool = blk_addr W pool_ptr blk_size i

/-- A zero-filled node array and descriptor. -/
def zero_nodes : NodeMem := fun _ => { next := 0, pool := 0 }

/-- A zero-filled descriptor. -/
def zero_heap : vt_block_pool_t := { free_list := 0, busy_list := 0 }

/-- A pool of three nodes at `8192`, `8208`, `8224` for blocks at `12288`, `12320`, `12352`: the
first node is free, the third and the second are busy, in this order. -/
def sample_nodes : NodeMem := fun p =>
  if p = 8192 then { next := 0, pool := 12288 }
  else if p = 8224 then { next := 8208, pool := 12352 }
  else { next := 0, pool := 12320 }

/-- The descriptor of the pool of `sample_nodes`. -/
def sample_heap : vt_block_pool_t := { free_list := 8192, busy_list := 8224 }

end VtBlockPool

namespace VBlock
variable {E : Type}

/-! ## Arithmetic of addresses -/

theorem U32_pos : 0 < U32 := by norm_num [U32]

theorem PTR_pos (W : Nat) : 0 < PTR W := by
  unfold PTR
  positivity

theorem U32_le_PTR {W : Nat} (hW : 4 ≤ W) : U32 ≤ PTR W := by
  unfold U32 PTR
  exact Nat.pow_le_pow_right (by norm_num) (by omega)

theorem add_mod_cases (P x : Nat) (hx : x < 2 * P) :
    (x < P ∧ x % P = x) ∨ (P ≤ x ∧ x % P = x - P) := by
  rcases Nat.lt_or_ge x P with h | h
  · exact Or.inl ⟨h, Nat.mod_eq_of_lt h⟩
  · refine Or.inr ⟨h, ?_⟩
    rw [Nat.mod_eq_sub_mod h]
    exact Nat.mod_eq_of_lt (by omega)

theorem subPtr_add (W a t : Nat) (ha : a < PTR W) (ht : t < PTR W) :
    subPtr W ((a + t) % PTR W) a = t := by
  unfold subPtr
  rw [Nat.mod_mod, Nat.mod_eq_of_lt ha]
  rcases add_mod_cases (PTR W) (a + t) (by omega) with ⟨_, h2⟩ | ⟨h1, h2⟩
  · rw [h2]
    have e : a + t + PTR W - a = t + PTR W := by omega
    rw [e, Nat.add_mod_right, Nat.mod_eq_of_lt ht]
  · rw [h2]
    have e : a + t - PTR W + PTR W - a = t := by omega
    rw [e, Nat.mod_eq_of_lt ht]

theorem subPtr_slot (W ptr t : Nat) (h : ptr + t < PTR W) : subPtr W (ptr + t) ptr = t := by
  have h1 := subPtr_add W ptr t (by omega) (by omega)
  rwa [Nat.mod_eq_of_lt h] at h1

theorem block_sep (P a t1 t2 sz : Nat) (ha : a < P) (h12 : t1 + sz ≤ t2) (h2 : t2 + sz ≤ P) :
    (a + t1) % P + sz ≤ (a + t2) % P ∨ (a + t2) % P + sz ≤ (a + t1) % P := by
  rcases add_mod_cases P (a + t1) (by omega) with ⟨_, e1⟩ | ⟨_, e1⟩ <;>
  rcases add_mod_cases P (a + t2) (by omega) with ⟨_, e2⟩ | ⟨_, e2⟩ <;>
  rw [e1, e2] <;> omega

theorem store_same (mem : Mem) (a val : Nat) : store mem a val a = val := by
  simp [store]

theorem store_other (mem : Mem) {a x : Nat} (val : Nat) (h : x ≠ a) :
    store mem a val x = mem x := by
  simp [store, h]

theorem build_list_at (W ptr : Nat) (mem : Mem) (hW : 0 < W) (n : Nat)
    (hn : ptr + W * n < PTR W) (i : Nat) (hi : i < n) :
    build_list W ptr n mem (ptr + W * i) = ptr + W * (i + 1) := by
  induction n with
  | zero => omega
  | succ n ih =>
    have hle : W * n ≤ W * (n + 1) := Nat.mul_le_mul_left W (by omega)
    have e1 : (ptr + W * n) % PTR W = ptr + W * n := Nat.mod_eq_of_lt (by omega)
    have e2 : (ptr + W * (n + 1)) % PTR W = ptr + W * (n + 1) := Nat.mod_eq_of_lt hn
    simp only [build_list, e1, e2]
    rcases Nat.lt_or_ge i n with h | h
    · have hne : ptr + W * i ≠ ptr + W * n := by
        intro h'
        have : W * i = W * n := by omega
        have := Nat.eq_of_mul_eq_mul_left hW this
        omega
      rw [store_other _ _ hne]
      exact ih (by omega) h
    · have : i = n := by omega
      subst this
      rw [store_same]

theorem chain_created_aux (W ptr : Nat) (mem : Mem) (hW : 0 < W) (n : Nat)
    (hn : ptr + W * n < PTR W) (m k : Nat) (hk : k + m + 1 = n) :
    Chain W ptr (store (build_list W ptr n mem) ((ptr + W * (n - 1)) % PTR W) 0)
      (ptr + W * k) (List.range' k (m + 1)) := by
  have hle : W * (n - 1) ≤ W * n := Nat.mul_le_mul_left W (by omega)
  have e1 : (ptr + W * (n - 1)) % PTR W = ptr + W * (n - 1) := Nat.mod_eq_of_lt (by omega)
  rw [e1]
  induction m generalizing k with
  | zero =>
    have : k = n - 1 := by omega
    subst this
    simp [List.range', Chain, store_same]
  | succ m ih =>
    rw [List.range'_succ]
    refine ⟨rfl, ?_⟩
    have hne : ptr + W * k ≠ ptr + W * (n - 1) := by
      intro h'
      have : W * k = W * (n - 1) := by omega
      have := Nat.eq_of_mul_eq_mul_left hW this
      omega
    rw [store_other _ _ hne, build_list_at W ptr mem hW n hn k (by omega)]
    exact ih (k + 1) (by omega)

theorem chain_created (W ptr : Nat) (mem : Mem) (hW : 0 < W) (n : Nat) (hpos : 0 < n)
    (hn : ptr + W * n < PTR W) :
    Chain W ptr (store (build_list W ptr n mem) ((ptr + W * (n - 1)) % PTR W) 0)
      ptr (List.range n) := by
  have h := chain_created_aux W ptr mem hW n hn (n - 1) 0 (by omega)
  rw [List.range_eq_range']
  have e : n - 1 + 1 = n := by omega
  rw [e] at h
  simpa using h

theorem align_address_lt (W align bitmask address : Nat) (h : address < PTR W) :
    align_address W align bitmask address < PTR W := by
  unfold align_address
  split
  · exact Nat.mod_lt _ (PTR_pos W)
  · exact h

theorem created_ok (W ptr ms sz n area : Nat) (mem : Mem) (hW : 4 ≤ W) (hptr : 0 < ptr)
    (hbuf : ptr + ms < PTR W) (hms : ms < U32) (hn : 0 < n) (hfit : n * (W + sz) ≤ ms)
    (harea : area < PTR W) :
    FreeListOK W ptr ms
      ({ list := ptr, node := ptr, area := area, mtx_get := none, mtx_put := none,
         sem_get := none, sem_put := none, size := sz, total := n, free := n, perf_alloc := 0,
         perf_free := 0, perf_timeout := 0 } : vblock_t E)
      (store (build_list W ptr n mem) ((ptr + W * (n - 1)) % PTR W) 0) (List.range n) := by
  have h1 : W * n ≤ ms := by
    have : n * W ≤ n * (W + sz) := Nat.mul_le_mul_left n (by omega)
    rw [Nat.mul_comm] at this
    omega
  exact
    { hW := hW, hptr := hptr, hbuf := hbuf, hms := hms, hnode := rfl, hfit := hfit,
      harea := harea,
      hchain := chain_created W ptr mem (by omega) n hn (by omega),
      hlen := List.length_range n, hnd := List.nodup_range n,
      hlt := fun i hi => List.mem_range.mp hi,
      hsg := rfl, hsp := rfl, hmg := rfl, hmp := rfl }

theorem create_facts (W : Nat) (v : vblock_t E) (size align ptr ms : Nat) (mem : Mem)
    (v1 : vblock_t E) (mem1 : Mem) (hW : 4 ≤ W) (hptr : 0 < ptr) (hbuf : ptr + ms < PTR W)
    (hms : ms < U32)
    (h : vblock_create W v size align ptr ms mem = some (VBLOCK_RET_SUCCESS, v1, mem1))
    (hword : W + v1.size < PTR W) :
    FreeListOK W ptr ms v1 mem1 (List.range v1.total) ∧ v1.free = v1.total ∧ 0 < v1.total := by
  unfold vblock_create at h
  simp only [] at h
  generalize hsz : (if size &&& (2 ^ align - 1) % U32 ≠ 0
      then ((size &&& not32 ((2 ^ align - 1) % U32)) + 2 ^ align) % U32 else size) = sz at h
  by_cases hd : (W + sz) % PTR W = 0
  · simp [hd] at h
  rw [if_neg hd] at h
  have hcnt : ms / ((W + sz) % PTR W) % U32 = ms / ((W + sz) % PTR W) :=
    Nat.mod_eq_of_lt (lt_of_le_of_lt (Nat.div_le_self _ _) hms)
  rw [hcnt] at h
  generalize hc : ms / ((W + sz) % PTR W) = count at h
  by_cases hc0 : count = 0
  · simp [hc0, VBLOCK_RET_NOBLOCK, VBLOCK_RET_SUCCESS] at h
  rw [if_neg hc0] at h
  have hfit : W + sz < PTR W → count * (W + sz) ≤ ms := by
    intro hw
    rw [Nat.mod_eq_of_lt hw] at hc
    rw [← hc]
    exact Nat.div_mul_le_self ms (W + sz)
  have ha : ∀ x, align_address W align ((2 ^ align - 1) % U32) (x % PTR W) < PTR W :=
    fun x => align_address_lt _ _ _ _ (Nat.mod_lt _ (PTR_pos W))
  split_ifs at h with hov hc1
  · simp [VBLOCK_RET_NOBLOCK, VBLOCK_RET_SUCCESS] at h
  · simp only [Option.some.injEq, Prod.mk.injEq, true_and] at h
    obtain ⟨rfl, rfl⟩ := h
    simp only at hword
    have h2 : (count - 1) * (W + sz) ≤ count * (W + sz) := Nat.mul_le_mul_right _ (by omega)
    exact ⟨created_ok W ptr ms sz (count - 1) _ mem hW hptr hbuf hms (by omega)
      (le_trans h2 (hfit hword)) (ha _), rfl, by simp only; omega⟩
  · simp only [Option.some.injEq, Prod.mk.injEq, true_and] at h
    obtain ⟨rfl, rfl⟩ := h
    simp only at hword
    exact ⟨created_ok W ptr ms sz count _ mem hW hptr hbuf hms (by omega) (hfit hword) (ha _),
      rfl, by simp only; omega⟩

/-! ## One call on a pool without hooks -/

theorem FreeListOK.total_lt {W ptr ms : Nat} {v : vblock_t E} {mem : Mem} {fl : List Nat}
    (h : FreeListOK W ptr ms v mem fl) : v.total < U32 := by
  have h1 : v.total * 1 ≤ v.total * (W + v.size) := Nat.mul_le_mul_left _ (by have := h.hW; omega)
  have := h.hfit
  have := h.hms
  omega

theorem FreeListOK.slot_le {W ptr ms : Nat} {v : vblock_t E} {mem : Mem} {fl : List Nat}
    (h : FreeListOK W ptr ms v mem fl) {i : Nat} (hi : i < v.total) :
    W * i + W + (i * v.size + v.size) ≤ ms := by
  have h1 : (i + 1) * (W + v.size) ≤ v.total * (W + v.size) := Nat.mul_le_mul_right _ (by omega)
  have h2 : (i + 1) * (W + v.size) = W * i + W + (i * v.size + v.size) := by ring
  have := h.hfit
  omega

theorem FreeListOK.length_le {W ptr ms : Nat} {v : vblock_t E} {mem : Mem} {fl : List Nat}
    (h : FreeListOK W ptr ms v mem fl) : fl.length ≤ v.total := by
  have hsub : fl ⊆ List.range v.total := fun i hi => List.mem_range.mpr (h.hlt i hi)
  have := (List.subperm_of_subset h.hnd hsub).length_le
  simpa using this

theorem FreeListOK.length_lt {W ptr ms : Nat} {v : vblock_t E} {mem : Mem} {fl : List Nat}
    (h : FreeListOK W ptr ms v mem fl) {i : Nat} (hi : i < v.total) (hnot : i ∉ fl) :
    fl.length < v.total := by
  have hnd : (i :: fl).Nodup := List.nodup_cons.mpr ⟨hnot, h.hnd⟩
  have hsub : (i :: fl) ⊆ List.range v.total := by
    intro j hj
    rcases List.mem_cons.mp hj with rfl | hj
    · exact List.mem_range.mpr hi
    · exact List.mem_range.mpr (h.hlt j hj)
  have := (List.subperm_of_subset hnd hsub).length_le
  simp at this
  omega

theorem alloc_empty {W ptr ms : Nat} {v : vblock_t E} {mem : Mem}
    (h : FreeListOK W ptr ms v mem []) (env : E) (wait : Nat) :
    vblock_alloc W v mem env wait
      = some (VBLOCK_RET_NOBLOCK, none, { v with perf_alloc := (v.perf_alloc + 1) % U32 }, env) := by
  have hf : v.free = 0 := by simpa using h.hlen.symm
  simp [vblock_alloc, call_get, h.hsg, hf]

theorem alloc_cons {W ptr ms : Nat} {v : vblock_t E} {mem : Mem} {i : Nat} {t : List Nat}
    (h : FreeListOK W ptr ms v mem (i :: t)) (env : E) (wait : Nat) :
    vblock_alloc W v mem env wait
      = some (VBLOCK_RET_SUCCESS, some ((v.area + i * v.size) % PTR W),
          { v with perf_alloc := (v.perf_alloc + 1) % U32, list := mem v.list,
                   free := v.free - 1 }, env) := by
  have hf : v.free ≠ 0 := by
    have := h.hlen
    simp at this
    omega
  have hi : i < v.total := h.hlt i (List.mem_cons_self _ _)
  have hsl := h.slot_le hi
  have hl : v.list = ptr + W * i := h.hchain.1
  have hl0 : ptr + W * i ≠ 0 := by have := h.hptr; omega
  have hidx : subPtr W (ptr + W * i) ptr / W % U32 = i := by
    rw [subPtr_slot W ptr (W * i) (by have := h.hbuf; omega),
      Nat.mul_div_cancel_left i (by have := h.hW; omega)]
    exact Nat.mod_eq_of_lt (by have := h.total_lt; omega)
  have hmul : i * v.size % U32 = i * v.size := Nat.mod_eq_of_lt (by have := h.hms; omega)
  simp [vblock_alloc, call_get, call_put, h.hsg, h.hmg, h.hmp, hf, hl, hl0, h.hnode, hidx, hmul]

theorem alloc_cons_ok {W ptr ms : Nat} {v : vblock_t E} {mem : Mem} {i : Nat} {t : List Nat}
    (h : FreeListOK W ptr ms v mem (i :: t)) :
    FreeListOK W ptr ms
      { v with perf_alloc := (v.perf_alloc + 1) % U32, list := mem v.list, free := v.free - 1 }
      mem t :=
  { hW := h.hW, hptr := h.hptr, hbuf := h.hbuf, hms := h.hms, hnode := h.hnode, hfit := h.hfit,
    harea := h.harea, hchain := h.hchain.2,
    hlen := by
      have := h.hlen
      simp at this
      simp only
      omega
    hnd := (List.nodup_cons.mp h.hnd).2,
    hlt := fun j hj => h.hlt j (List.mem_cons_of_mem _ hj),
    hsg := h.hsg, hsp := h.hsp, hmg := h.hmg, hmp := h.hmp }

theorem chain_store {W ptr : Nat} {mem : Mem} (hW : 0 < W) (i val : Nat) :
    ∀ (fl : List Nat) (head : Nat), i ∉ fl → Chain W ptr mem head fl →
      Chain W ptr (store mem (ptr + W * i) val) head fl
  | [], _, _, h => h
  | j :: t, head, hn, h => by
    have hji : j ≠ i := fun e => hn (e ▸ List.mem_cons_self _ _)
    have hne : head ≠ ptr + W * i := by
      rw [h.1]
      intro e
      have : W * j = W * i := by omega
      exact hji (Nat.eq_of_mul_eq_mul_left hW this)
    refine ⟨h.1, ?_⟩
    rw [store_other _ _ hne]
    exact chain_store hW i val t _ (fun hm => hn (List.mem_cons_of_mem _ hm)) h.2

theorem free_block {W ptr ms : Nat} {v : vblock_t E} {mem : Mem} {fl : List Nat}
    (h : FreeListOK W ptr ms v mem fl) (hsize : 0 < v.size) {i : Nat} (hi : i < v.total)
    (hnot : i ∉ fl) (env : E) :
    vblock_free W v mem env ((v.area + i * v.size) % PTR W)
      = some (VBLOCK_RET_SUCCESS,
          { v with perf_free := (v.perf_free + 1) % U32, list := ptr + W * i,
                   free := v.free + 1 },
          store mem (ptr + W * i) v.list, env) := by
  have hlt := h.length_lt hi hnot
  have hne : v.total ≠ v.free := by have := h.hlen; omega
  have hsl := h.slot_le hi
  have hP := U32_le_PTR h.hW
  have hidx : subPtr W ((v.area + i * v.size) % PTR W) v.area / v.size % U32 = i := by
    rw [subPtr_add W v.area (i * v.size) h.harea (by have := h.hms; omega),
      Nat.mul_div_cancel i hsize]
    exact Nat.mod_eq_of_lt (by have := h.total_lt; omega)
  have hiW : i * W % PTR W = W * i := by
    rw [Nat.mul_comm]
    exact Nat.mod_eq_of_lt (by have := h.hms; omega)
  have hnode : (ptr + W * i) % PTR W = ptr + W * i :=
    Nat.mod_eq_of_lt (by have := h.hbuf; omega)
  have hfree : (v.free + 1) % U32 = v.free + 1 :=
    Nat.mod_eq_of_lt (by have := h.total_lt; have := h.hlen; omega)
  have hsz : v.size ≠ 0 := by omega
  have hgt : ¬ i > v.total := by omega
  simp [vblock_free, call_get, call_put, h.hsp, h.hmg, h.hmp, hne, hidx, hiW, hnode, hfree, hsz,
    hgt, h.hnode, VBLOCK_RET_SUCCESS]

theorem free_block_ok {W ptr ms : Nat} {v : vblock_t E} {mem : Mem} {fl : List Nat}
    (h : FreeListOK W ptr ms v mem fl) {i : Nat} (hi : i < v.total) (hnot : i ∉ fl) :
    FreeListOK W ptr ms
      { v with perf_free := (v.perf_free + 1) % U32, list := ptr + W * i, free := v.free + 1 }
      (store mem (ptr + W * i) v.list) (i :: fl) :=
  { hW := h.hW, hptr := h.hptr, hbuf := h.hbuf, hms := h.hms, hnode := h.hnode, hfit := h.hfit,
    harea := h.harea,
    hchain := by
      refine ⟨rfl, ?_⟩
      simp only [store_same]
      exact chain_store (by have := h.hW; omega) i v.list fl v.list hnot h.hchain
    hlen := by
      have := h.hlen
      simp only [List.length_cons]
      omega
    hnd := List.nodup_cons.mpr ⟨hnot, h.hnd⟩,
    hlt := by
      intro j hj
      rcases List.mem_cons.mp hj with rfl | hj
      · exact hi
      · exact h.hlt j hj
    hsg := h.hsg, hsp := h.hsp, hmg := h.hmg, hmp := h.hmp }

/-! ## Counters under arbitrary calls -/

theorem alloc_cases {W : Nat} {v v1 : vblock_t E} {mem : Mem} {env env1 : E} {wait : Nat}
    {ret : Int} {a : Option Nat}
    (h : vblock_alloc W v mem env wait = some (ret, a, v1, env1)) :
    v1.total = v.total ∧
      ((a = none ∧ ret ≠ VBLOCK_RET_SUCCESS ∧ v1.free = v.free) ∨
       (∃ x, a = some x ∧ ret = VBLOCK_RET_SUCCESS ∧ v.free ≠ 0 ∧ v1.free = v.free - 1)) := by
  unfold vblock_alloc at h
  simp only [] at h
  split_ifs at h with h1 h2 h3 h4
  · simp only [Option.some.injEq, Prod.mk.injEq] at h
    obtain ⟨rfl, rfl, rfl, _⟩ := h
    exact ⟨rfl, Or.inl ⟨rfl, by decide, rfl⟩⟩
  · simp only [Option.some.injEq, Prod.mk.injEq] at h
    obtain ⟨rfl, rfl, rfl, _⟩ := h
    exact ⟨rfl, Or.inl ⟨rfl, by decide, rfl⟩⟩
  · split at h
    · exact absurd h (by simp)
    · simp only [Option.some.injEq, Prod.mk.injEq] at h
      obtain ⟨rfl, rfl, rfl, _⟩ := h
      exact ⟨rfl, Or.inl ⟨rfl, by decide, rfl⟩⟩
  · simp only [Option.some.injEq, Prod.mk.injEq] at h
    obtain ⟨rfl, rfl, rfl, _⟩ := h
    exact ⟨rfl, Or.inr ⟨_, rfl, rfl, h2, rfl⟩⟩

theorem free_cases {W : Nat} {v v1 : vblock_t E} {mem mem1 : Mem} {env env1 : E} {addr : Nat}
    {ret : Int}
    (h : vblock_free W v mem env addr = some (ret, v1, mem1, env1)) :
    v1.total = v.total ∧
      ((ret ≠ VBLOCK_RET_SUCCESS ∧ v1.free = v.free) ∨
       (ret = VBLOCK_RET_SUCCESS ∧ v.total ≠ v.free ∧ v1.free = (v.free + 1) % U32)) := by
  unfold vblock_free at h
  simp only [] at h
  split_ifs at h with h1 h2 h3 h4
  · simp only [Option.some.injEq, Prod.mk.injEq] at h
    obtain ⟨rfl, rfl, _, _⟩ := h
    exact ⟨rfl, Or.inl ⟨by decide, rfl⟩⟩
  · simp only [Option.some.injEq, Prod.mk.injEq] at h
    obtain ⟨rfl, rfl, _, _⟩ := h
    exact ⟨rfl, Or.inl ⟨by decide, rfl⟩⟩
  · simp only [Option.some.injEq, Prod.mk.injEq] at h
    obtain ⟨rfl, rfl, _, _⟩ := h
    exact ⟨rfl, Or.inl ⟨by decide, rfl⟩⟩
  · simp only [Option.some.injEq, Prod.mk.injEq] at h
    obtain ⟨rfl, rfl, _, _⟩ := h
    exact ⟨rfl, Or.inr ⟨rfl, h2, rfl⟩⟩

theorem create_counters {W : Nat} {v v1 : vblock_t E} {size align ptr ms : Nat} {mem mem1 : Mem}
    (h : vblock_create W v size align ptr ms mem = some (VBLOCK_RET_SUCCESS, v1, mem1)) :
    v1.free = v1.total ∧ 0 < v1.total ∧ v1.total < U32 := by
  unfold vblock_create at h
  simp only [] at h
  generalize (if size &&& (2 ^ align - 1) % U32 ≠ 0
      then ((size &&& not32 ((2 ^ align - 1) % U32)) + 2 ^ align) % U32 else size) = sz at h
  have hlt : ms / ((W + sz) % PTR W) % U32 < U32 := Nat.mod_lt _ U32_pos
  generalize ms / ((W + sz) % PTR W) % U32 = count at h hlt
  split_ifs at h with h1 h2 h3 h4
  · simp [VBLOCK_RET_NOBLOCK, VBLOCK_RET_SUCCESS] at h
  · simp [VBLOCK_RET_NOBLOCK, VBLOCK_RET_SUCCESS] at h
  · simp only [Option.some.injEq, Prod.mk.injEq, true_and] at h
    obtain ⟨rfl, rfl⟩ := h
    exact ⟨rfl, by simp only; omega, by simp only; omega⟩
  · simp only [Option.some.injEq, Prod.mk.injEq, true_and] at h
    obtain ⟨rfl, rfl⟩ := h
    exact ⟨rfl, by simp only; omega, by simp only; omega⟩

theorem created_eq {W : Nat} {v : vblock_t E} {size align ptr ms : Nat} {mem : Mem} {env : E}
    {s0 : Sys E} (h : created W v size align ptr ms mem env = some s0) :
    vblock_create W v size align ptr ms mem = some (VBLOCK_RET_SUCCESS, s0.v, s0.mem) ∧
      s0.env = env ∧ s0.out = [] := by
  unfold created at h
  split at h
  · split_ifs at h with hr
    simp only [Option.some.injEq] at h
    subst h
    subst hr
    rename_i heq
    exact ⟨heq, rfl, rfl⟩
  · exact absurd h (by simp)

theorem call_counters {W : Nat} {s s1 : Sys E} {op : Op E} {ret : Int}
    (h : s.call W op = some (ret, s1)) :
    s1.v.total = s.v.total ∧
      ((s1.v.free = s.v.free ∧ s1.out = s.out) ∨
       (∃ a, s.v.free ≠ 0 ∧ s1.v.free = s.v.free - 1 ∧ s1.out = a :: s.out) ∨
       (∃ addr, op = Op.free addr ∧ s.v.total ≠ s.v.free ∧ s1.v.free = (s.v.free + 1) % U32 ∧
          s1.out = s.out.erase addr)) := by
  cases op with
  | alloc wait =>
    simp only [Sys.call] at h
    split at h
    · exact absurd h (by simp)
    · rename_i r a v1 env1 heq
      simp only [Option.some.injEq, Prod.mk.injEq] at h
      obtain ⟨rfl, rfl⟩ := h
      obtain ⟨ht, hc | ⟨x, hx, _, h0, hf⟩⟩ := alloc_cases heq
      · exact absurd hc.1 (by simp)
      · exact ⟨ht, Or.inr (Or.inl ⟨a, h0, hf, rfl⟩)⟩
    · rename_i r v1 env1 heq
      simp only [Option.some.injEq, Prod.mk.injEq] at h
      obtain ⟨rfl, rfl⟩ := h
      obtain ⟨ht, hc | ⟨x, hx, _⟩⟩ := alloc_cases heq
      · exact ⟨ht, Or.inl ⟨hc.2.2, rfl⟩⟩
      · exact absurd hx (by simp)
  | free addr =>
    simp only [Sys.call] at h
    split at h
    · exact absurd h (by simp)
    · rename_i r v1 mem1 env1 heq
      simp only [Option.some.injEq, Prod.mk.injEq] at h
      obtain ⟨rfl, rfl⟩ := h
      obtain ⟨ht, ⟨hr, hf⟩ | ⟨hr, hne, hf⟩⟩ := free_cases heq
      · exact ⟨ht, Or.inl ⟨hf, by simp [hr]⟩⟩
      · exact ⟨ht, Or.inr (Or.inr ⟨addr, rfl, hne, hf, by simp [hr]⟩)⟩
  | add_mtx get put =>
    simp only [Sys.call, Option.some.injEq, Prod.mk.injEq] at h
    obtain ⟨_, rfl⟩ := h
    refine ⟨?_, Or.inl ⟨?_, rfl⟩⟩ <;> (unfold vblock_add_mtx; split <;> rfl)
  | add_sem get put =>
    simp only [Sys.call, Option.some.injEq, Prod.mk.injEq] at h
    obtain ⟨_, rfl⟩ := h
    refine ⟨?_, Or.inl ⟨?_, rfl⟩⟩ <;> (unfold vblock_add_sem; split <;> rfl)

theorem run_valid_cons {W : Nat} {s s2 : Sys E} {op : Op E} {ops : List (Op E)}
    (h : Sys.run_valid W s (op :: ops) = some s2) :
    op.valid s = true ∧ ∃ ret s1, s.call W op = some (ret, s1) ∧
      Sys.run_valid W s1 ops = some s2 := by
  simp only [Sys.run_valid] at h
  split_ifs at h with hv
  split at h
  · exact absurd h (by simp)
  · rename_i ret s1 heq
    exact ⟨hv, ret, s1, heq, h⟩

theorem run_cons {W : Nat} {s s2 : Sys E} {op : Op E} {ops : List (Op E)} {rets : List Int}
    (h : Sys.run W s (op :: ops) = some (rets, s2)) :
    ∃ ret s1 rest, s.call W op = some (ret, s1) ∧ Sys.run W s1 ops = some (rest, s2) ∧
      rets = ret :: rest := by
  simp only [Sys.run] at h
  split at h
  · exact absurd h (by simp)
  · rename_i ret s1 heq
    split at h
    · exact absurd h (by simp)
    · rename_i rest s3 heq2
      simp only [Option.some.injEq, Prod.mk.injEq] at h
      obtain ⟨rfl, rfl⟩ := h
      exact ⟨ret, s1, rest, heq, heq2, rfl⟩

theorem conservation_run {W : Nat} :
    ∀ (ops : List (Op E)) (s s2 : Sys E), s.v.free + s.out.length = s.v.total →
      s.v.total < U32 → Sys.run_valid W s ops = some s2 →
      s2.v.free + s2.out.length = s2.v.total
  | [], s, s2, h, _, hr => by
    simp only [Sys.run_valid, Option.some.injEq] at hr
    subst hr
    exact h
  | op :: ops, s, s2, h, hlt, hr => by
    obtain ⟨hv, ret, s1, hcall, hrest⟩ := run_valid_cons hr
    obtain ⟨ht, ⟨hf, ho⟩ | ⟨a, h0, hf, ho⟩ | ⟨addr, hop, hne, hf, ho⟩⟩ := call_counters hcall
    · exact conservation_run ops s1 s2 (by rw [ht, hf, ho]; exact h) (by rw [ht]; exact hlt) hrest
    · refine conservation_run ops s1 s2 ?_ (by rw [ht]; exact hlt) hrest
      rw [ht, hf, ho, List.length_cons]
      omega
    · refine conservation_run ops s1 s2 ?_ (by rw [ht]; exact hlt) hrest
      subst hop
      have hmem : addr ∈ s.out := by simpa [Op.valid] using hv
      have hpos : 0 < s.out.length := List.length_pos_of_mem hmem
      rw [ht, hf, ho, List.length_erase_of_mem hmem, Nat.mod_eq_of_lt (by omega)]
      omega

theorem bounds_run {W : Nat} :
    ∀ (ops : List (Op E)) (s s2 : Sys E) (rets : List Int), s.v.free ≤ s.v.total →
      Sys.run W s ops = some (rets, s2) → s2.v.free ≤ s2.v.total ∧ s2.v.total = s.v.total
  | [], s, s2, rets, h, hr => by
    simp only [Sys.run, Option.some.injEq, Prod.mk.injEq] at hr
    obtain ⟨_, rfl⟩ := hr
    exact ⟨h, rfl⟩
  | op :: ops, s, s2, rets, h, hr => by
    obtain ⟨ret, s1, rest, hcall, hrest, _⟩ := run_cons hr
    obtain ⟨ht, ⟨hf, _⟩ | ⟨a, h0, hf, _⟩ | ⟨addr, _, hne, hf, _⟩⟩ := call_counters hcall
    · have := bounds_run ops s1 s2 rest (by rw [ht, hf]; exact h) hrest
      exact ⟨this.1, this.2.trans ht⟩
    · have := bounds_run ops s1 s2 rest (by rw [ht, hf]; omega) hrest
      exact ⟨this.1, this.2.trans ht⟩
    · have hle : (s.v.free + 1) % U32 ≤ s.v.free + 1 := Nat.mod_le _ _
      have := bounds_run ops s1 s2 rest (by rw [ht, hf]; omega) hrest
      exact ⟨this.1, this.2.trans ht⟩

/-! ## The invariant under valid calls -/

theorem FreeListOK.with_perf_alloc {W ptr ms : Nat} {v : vblock_t E} {mem : Mem} {fl : List Nat}
    (h : FreeListOK W ptr ms v mem fl) (x : Nat) :
    FreeListOK W ptr ms { v with perf_alloc := x } mem fl :=
  { hW := h.hW, hptr := h.hptr, hbuf := h.hbuf, hms := h.hms, hnode := h.hnode, hfit := h.hfit,
    harea := h.harea, hchain := h.hchain, hlen := h.hlen, hnd := h.hnd, hlt := h.hlt,
    hsg := h.hsg, hsp := h.hsp, hmg := h.hmg, hmp := h.hmp }

theorem FreeListOK.blocks_apart {W ptr ms : Nat} {v : vblock_t E} {mem : Mem} {fl : List Nat}
    (h : FreeListOK W ptr ms v mem fl) {i j : Nat} (hi : i < v.total) (hj : j < v.total)
    (hij : i ≠ j) :
    (v.area + i * v.size) % PTR W + v.size ≤ (v.area + j * v.size) % PTR W ∨
    (v.area + j * v.size) % PTR W + v.size ≤ (v.area + i * v.size) % PTR W := by
  have hP := U32_le_PTR h.hW
  have hms := h.hms
  have hsi := h.slot_le hi
  have hsj := h.slot_le hj
  rcases Nat.lt_or_gt_of_ne hij with hlt | hlt
  · have h1 : (i + 1) * v.size ≤ j * v.size := Nat.mul_le_mul_right _ hlt
    rw [Nat.succ_mul] at h1
    exact VBlock.block_sep (PTR W) v.area (i * v.size) (j * v.size) v.size h.harea h1 (by omega)
  · have h1 : (j + 1) * v.size ≤ i * v.size := Nat.mul_le_mul_right _ hlt
    rw [Nat.succ_mul] at h1
    exact (VBlock.block_sep (PTR W) v.area (j * v.size) (i * v.size) v.size h.harea h1
      (by omega)).symm

theorem FreeListOK.block_inj {W ptr ms : Nat} {v : vblock_t E} {mem : Mem} {fl : List Nat}
    (h : FreeListOK W ptr ms v mem fl) (hsize : 0 < v.size) {i j : Nat} (hi : i < v.total)
    (hj : j < v.total)
    (he : (v.area + i * v.size) % PTR W = (v.area + j * v.size) % PTR W) : i = j := by
  by_contra hij
  have := h.blocks_apart hi hj hij
  omega

theorem inv_call {W ptr ms : Nat} {s : Sys E} {fl : List Nat} {op : Op E}
    (hinv : Inv W ptr ms s fl) (hv : op.valid s = true) :
    ∃ ret s1 fl1, s.call W op = some (ret, s1) ∧ Inv W ptr ms s1 fl1 := by
  cases op with
  | alloc wait =>
    cases fl with
    | nil =>
      refine ⟨_, _, [], by simp only [Sys.call, alloc_empty hinv.base]; rfl, ?_⟩
      exact
        { base := hinv.base.with_perf_alloc _, hsize := hinv.hsize, hout_nd := hinv.hout_nd,
          hout := hinv.hout, hcons := hinv.hcons }
    | cons i t =>
      refine ⟨_, _, t, by simp only [Sys.call, alloc_cons hinv.base]; rfl, ?_⟩
      have hi : i < s.v.total := hinv.base.hlt i (List.mem_cons_self _ _)
      have hnd := List.nodup_cons.mp hinv.base.hnd
      exact
        { base := alloc_cons_ok hinv.base, hsize := hinv.hsize,
          hout_nd := by
            refine List.nodup_cons.mpr ⟨?_, hinv.hout_nd⟩
            intro hm
            obtain ⟨j, hj, hjn, he⟩ := hinv.hout _ hm
            have := hinv.base.block_inj hinv.hsize hi hj he
            exact hjn (this ▸ List.mem_cons_self _ _)
          hout := by
            intro a ha
            rcases List.mem_cons.mp ha with rfl | ha
            · exact ⟨i, hi, hnd.1, rfl⟩
            · obtain ⟨j, hj, hjn, he⟩ := hinv.hout a ha
              exact ⟨j, hj, fun hm => hjn (List.mem_cons_of_mem _ hm), he⟩
          hcons := by
            have := hinv.hcons
            simp only [List.length_cons] at this ⊢
            omega }
  | free addr =>
    have hmem : addr ∈ s.out := by simpa [Op.valid] using hv
    obtain ⟨i, hi, hin, he⟩ := hinv.hout addr hmem
    subst he
    refine ⟨_, _, i :: fl, by simp only [Sys.call, free_block hinv.base hinv.hsize hi hin]; rfl, ?_⟩
    exact
      { base := free_block_ok hinv.base hi hin, hsize := hinv.hsize,
        hout_nd := by
          simp only [if_true]
          exact hinv.hout_nd.erase _
        hout := by
          simp only [if_true]
          intro a ha
          have ha2 := (hinv.hout_nd.mem_erase_iff).mp ha
          obtain ⟨j, hj, hjn, hej⟩ := hinv.hout a ha2.2
          refine ⟨j, hj, ?_, hej⟩
          intro hm
          rcases List.mem_cons.mp hm with rfl | hm
          · exact ha2.1 hej
          · exact hjn hm
        hcons := by
          have := hinv.hcons
          have hpos : 0 < s.out.length := List.length_pos_of_mem hmem
          simp only [if_true, List.length_cons, List.length_erase_of_mem hmem]
          omega }
  | add_mtx get put => simp [Op.valid] at hv
  | add_sem get put => simp [Op.valid] at hv

theorem inv_run_valid {W ptr ms : Nat} :
    ∀ (ops : List (Op E)) (s s2 : Sys E) (fl : List Nat), Inv W ptr ms s fl →
      Sys.run_valid W s ops = some s2 → ∃ fl2, Inv W ptr ms s2 fl2
  | [], s, s2, fl, h, hr => by
    simp only [Sys.run_valid, Option.some.injEq] at hr
    subst hr
    exact ⟨fl, h⟩
  | op :: ops, s, s2, fl, h, hr => by
    obtain ⟨hv, ret, s1, hcall, hrest⟩ := run_valid_cons hr
    obtain ⟨ret1, s1a, fl1, hcall1, hinv1⟩ := inv_call h hv
    rw [hcall] at hcall1
    simp only [Option.some.injEq, Prod.mk.injEq] at hcall1
    obtain ⟨_, rfl⟩ := hcall1
    exact inv_run_valid ops s1 s2 fl1 hinv1 hrest

theorem inv_created {W : Nat} {v : vblock_t E} {size align ptr ms : Nat} {mem : Mem} {env : E}
    {s0 : Sys E} (hW : 4 ≤ W) (hptr : 0 < ptr) (hbuf : ptr + ms < PTR W) (hms : ms < U32)
    (hc : created W v size align ptr ms mem env = some s0) (hsize : 0 < s0.v.size)
    (hword : W + s0.v.size < PTR W) :
    Inv W ptr ms s0 (List.range s0.v.total) := by
  obtain ⟨hcr, _, ho⟩ := created_eq hc
  obtain ⟨hok, _, _⟩ := create_facts W v size align ptr ms mem s0.v s0.mem hW hptr hbuf hms hcr hword
  exact
    { base := hok, hsize := hsize, hout_nd := by rw [ho]; exact List.nodup_nil,
      hout := by rw [ho]; intro a ha; simp at ha,
      hcons := by rw [ho]; simp }

/-! ## Claims on the inline pool -/

theorem allocs_run {W ptr ms : Nat} :
    ∀ (fl : List Nat) (s : Sys E) (ws : List Nat), FreeListOK W ptr ms s.v s.mem fl →
      ws.length = fl.length →
      ∃ s1, Sys.run W s (ws.map Op.alloc)
            = some (List.replicate fl.length VBLOCK_RET_SUCCESS, s1) ∧
        FreeListOK W ptr ms s1.v s1.mem [] ∧ s1.mem = s.mem ∧ s1.env = s.env
  | [], s, ws, h, hl => by
    have : ws = [] := List.length_eq_zero.mp hl
    subst this
    exact ⟨s, rfl, h, rfl, rfl⟩
  | i :: t, s, ws, h, hl => by
    cases ws with
    | nil => simp at hl
    | cons w ws =>
      have hl2 : ws.length = t.length := by simpa using hl
      obtain ⟨s1, hrun, hok, hm, he⟩ :=
        allocs_run t
          { v := { s.v with perf_alloc := (s.v.perf_alloc + 1) % U32, list := s.mem s.v.list,
                            free := s.v.free - 1 },
            mem := s.mem, env := s.env,
            out := ((s.v.area + i * s.v.size) % PTR W) :: s.out }
          ws (alloc_cons_ok h) hl2
      refine ⟨s1, ?_, hok, hm, he⟩
      simp only [List.map_cons, Sys.run, Sys.call, alloc_cons h, hrun, List.length_cons,
        List.replicate_succ]

/-- C1 (conservation).  In every pool reached from a `vblock_create` that returned
`VBLOCK_RET_SUCCESS` by `vblock_alloc` calls and `vblock_free` calls on outstanding blocks, the
free count plus the number of outstanding blocks (the successful allocs not yet freed) is the
total.  No assumption on the arguments of `vblock_create` is needed. -/
theorem conservation (W : Nat) (v : vblock_t E) (size align memory_ptr memory_size : Nat)
    (mem : Mem) (env : E) (s0 s : Sys E) (ops : List (Op E))
    (hc : created W v size align memory_ptr memory_size mem env = some s0)
    (hr : Sys.run_valid W s0 ops = some s) :
    s.v.free + s.out.length = s.v.total := by
  obtain ⟨hcr, _, ho⟩ := created_eq hc
  obtain ⟨hf, _, hlt⟩ := create_counters hcr
  exact conservation_run ops s0 s (by rw [ho, hf]; rfl) hlt hr

/-- Witness of C1: the sizing-example pool after two allocs, the free of the first block and a third alloc. -/
theorem conservation_witness :
    ∃ s0 s, created 8 zero_pool 16 3 4096 128 zero_mem () = some s0 ∧
      Sys.run_valid 8 s0 [Op.alloc 0, Op.alloc 0, Op.free 4136, Op.alloc 0] = some s ∧
      s.v.free + s.out.length = s.v.total := by
  have h : ((created 8 zero_pool 16 3 4096 128 zero_mem ()).bind (fun s0 =>
      Sys.run_valid 8 s0 [Op.alloc 0, Op.alloc 0, Op.free 4136, Op.alloc 0])).isSome = true := by
    decide
  obtain ⟨s, hs⟩ := Option.isSome_iff_exists.mp h
  obtain ⟨s0, h0, h1⟩ := Option.bind_eq_some.mp hs
  exact ⟨s0, s, h0, h1, conservation 8 zero_pool 16 3 4096 128 zero_mem () s0 s _ h0 h1⟩

/-- C2 as stated fails, in two ways.  With 8-byte pointers the request `size = 0xFFFFFFFF`,
`align = 3` satisfies `size > 0` and `align ≤ 7`, the rounding of lines 75-78 wraps the block
size to `0`, `vblock_create` returns `VBLOCK_RET_SUCCESS` with two blocks, and two `vblock_alloc`
calls in a row (no free in between) both store the address `4112`.  With 4-byte pointers the
request `size = 0xFFFFFFFF`, `align = 0` on a buffer of 30 bytes makes `sizeof(void *) + size`
wrap to `3`: `vblock_create` returns `VBLOCK_RET_SUCCESS` with ten blocks of `0xFFFFFFFF` bytes,
and two `vblock_alloc` calls store `4136` and `4135`, whose byte ranges overlap. -/
theorem no_double_issue_fails_for_wrapped_size :
    (0 < 0xFFFFFFFF ∧ 3 ≤ 7 ∧ 0 ≤ 7) ∧
    ((created 8 zero_pool 0xFFFFFFFF 3 4096 16 zero_mem ()).map fun s0 =>
        (s0.v.size, s0.v.total,
          (Sys.run_valid 8 s0 [Op.alloc 0, Op.alloc 0]).map fun s => s.out))
      = some (0, 2, some [4112, 4112]) ∧
    ((created 4 zero_pool 0xFFFFFFFF 0 4096 30 zero_mem ()).bind fun s0 =>
        (Sys.run_valid 4 s0 [Op.alloc 0, Op.alloc 0]).map fun s =>
          (s0.v.size, s0.v.total, s.out))
      = some (0xFFFFFFFF, 10, [4135, 4136]) ∧
    ¬ (4135 + 0xFFFFFFFF ≤ 4136 ∨ 4136 + 0xFFFFFFFF ≤ 4135) := by
  decide

/-- C2, amended (no double issue).  When the block size stored by `vblock_create` is positive
(the rounding of the size did not wrap to `0`) and `sizeof(void *) + size` does not wrap, then in
every pool reached by `vblock_alloc` calls and `vblock_free` calls on outstanding blocks: the byte
ranges `[a, a + size)` of any two outstanding blocks are disjoint, no address is outstanding
twice, and an address stored by a further `vblock_alloc` is not outstanding. -/
theorem no_double_issue (W : Nat) (v : vblock_t E) (size align memory_ptr memory_size : Nat)
    (mem : Mem) (env : E) (s0 s : Sys E) (ops : List (Op E))
    (hW : 4 ≤ W) (hptr : 0 < memory_ptr) (hbuf : memory_ptr + memory_size < PTR W)
    (hms : memory_size < U32)
    (hc : created W v size align memory_ptr memory_size mem env = some s0)
    (hsize : 0 < s0.v.size) (hword : W + s0.v.size < PTR W)
    (hr : Sys.run_valid W s0 ops = some s) :
    s.out.Pairwise (fun a b => a + s.v.size ≤ b ∨ b + s.v.size ≤ a) ∧ s.out.Nodup ∧
    ∀ (wait : Nat) (ret : Int) (a : Nat) (v1 : vblock_t E) (env1 : E),
      vblock_alloc W s.v s.mem s.env wait = some (ret, some a, v1, env1) → a ∉ s.out := by
  obtain ⟨fl, hinv⟩ := inv_run_valid ops s0 s _ (inv_created hW hptr hbuf hms hc hsize hword) hr
  refine ⟨?_, hinv.hout_nd, ?_⟩
  · refine List.Pairwise.imp_of_mem ?_ hinv.hout_nd
    intro a b ha hb hab
    obtain ⟨i, hi, _, rfl⟩ := hinv.hout a ha
    obtain ⟨j, hj, _, rfl⟩ := hinv.hout b hb
    exact hinv.base.blocks_apart hi hj (fun e => hab (by rw [e]))
  · intro wait ret a v1 env1 h hm
    cases fl with
    | nil =>
      rw [alloc_empty hinv.base] at h
      simp at h
    | cons i t =>
      rw [alloc_cons hinv.base] at h
      simp only [Option.some.injEq, Prod.mk.injEq] at h
      obtain ⟨_, rfl, _, _⟩ := h
      obtain ⟨j, hj, hjn, he⟩ := hinv.hout _ hm
      have hi : i < s.v.total := hinv.base.hlt i (List.mem_cons_self _ _)
      have := hinv.base.block_inj hinv.hsize hi hj he
      exact hjn (this ▸ List.mem_cons_self _ _)

theorem created_eval {α : Type} {W : Nat} {v : vblock_t E} {size align ptr ms : Nat} {mem : Mem}
    {env : E} {s0 : Sys E} (f : Sys E → α) {x : α}
    (h0 : created W v size align ptr ms mem env = some s0)
    (h : (created W v size align ptr ms mem env).map f = some x) : f s0 = x := by
  rw [h0] at h
  simpa using h

/-- Witness of C2 (amended): the sizing-example pool, stored block size 16, after a run of valid calls. -/
theorem no_double_issue_witness :
    ∃ s0 s, created 8 zero_pool 16 3 4096 128 zero_mem () = some s0 ∧
      Sys.run_valid 8 s0 [Op.alloc 0, Op.alloc 0, Op.free 4136, Op.alloc 0] = some s ∧
      (s.out.Pairwise (fun a b => a + s.v.size ≤ b ∨ b + s.v.size ≤ a) ∧ s.out.Nodup ∧
        ∀ (wait : Nat) (ret : Int) (a : Nat) (v1 : vblock_t Unit) (env1 : Unit),
          vblock_alloc 8 s.v s.mem s.env wait = some (ret, some a, v1, env1) → a ∉ s.out) := by
  have h : ((created 8 zero_pool 16 3 4096 128 zero_mem ()).bind (fun s0 =>
      Sys.run_valid 8 s0 [Op.alloc 0, Op.alloc 0, Op.free 4136, Op.alloc 0])).isSome = true := by
    decide
  obtain ⟨s, hs⟩ := Option.isSome_iff_exists.mp h
  obtain ⟨s0, h0, h1⟩ := Option.bind_eq_some.mp hs
  have hsz : s0.v.size = 16 := created_eval (fun s => s.v.size) h0 (by decide)
  exact ⟨s0, s, h0, h1, no_double_issue 8 zero_pool 16 3 4096 128 zero_mem () s0 s _
    (by decide) (by decide) (by decide) (by decide) h0 (by rw [hsz]; decide)
    (by rw [hsz]; decide) h1⟩

/-- C3 (exhaustion).  After a `vblock_create` that returned `VBLOCK_RET_SUCCESS` with
`total = n` (buffer valid, `sizeof(void *) + size` not wrapping), `n` consecutive `vblock_alloc`
calls all return `VBLOCK_RET_SUCCESS`; then `free = 0` and the next `vblock_alloc` returns
`VBLOCK_RET_NOBLOCK`, advancing `perf_alloc` and changing nothing else: `free` stays `0`, the list
head and the memory are as before the call. -/
theorem exhaustion (W : Nat) (v : vblock_t E) (size align memory_ptr memory_size : Nat)
    (mem : Mem) (env : E) (s0 : Sys E) (ws : List Nat) (wait : Nat)
    (hW : 4 ≤ W) (hptr : 0 < memory_ptr) (hbuf : memory_ptr + memory_size < PTR W)
    (hms : memory_size < U32)
    (hc : created W v size align memory_ptr memory_size mem env = some s0)
    (hword : W + s0.v.size < PTR W) (hn : ws.length = s0.v.total) :
    ∃ s, Sys.run W s0 (ws.map Op.alloc)
          = some (List.replicate s0.v.total VBLOCK_RET_SUCCESS, s) ∧
      s.v.free = 0 ∧
      vblock_alloc W s.v s.mem s.env wait
        = some (VBLOCK_RET_NOBLOCK, none,
            { s.v with perf_alloc := (s.v.perf_alloc + 1) % U32 }, s.env) := by
  obtain ⟨hcr, _, _⟩ := created_eq hc
  obtain ⟨hok, _, _⟩ :=
    create_facts W v size align memory_ptr memory_size mem s0.v s0.mem hW hptr hbuf hms hcr hword
  obtain ⟨s, hrun, hs, _, _⟩ := allocs_run _ s0 ws hok (by simpa using hn)
  rw [List.length_range] at hrun
  exact ⟨s, hrun, by simpa using hs.hlen.symm, alloc_empty hs s.env wait⟩

/-- Witness of C3: the five blocks of the sizing-example pool are handed out, the sixth call fails. -/
theorem exhaustion_witness :
    ∃ s0 s, created 8 zero_pool 16 3 4096 128 zero_mem () = some s0 ∧
      Sys.run 8 s0 ([0, 0, 0, 0, 0].map Op.alloc)
          = some (List.replicate s0.v.total VBLOCK_RET_SUCCESS, s) ∧
      s.v.free = 0 ∧
      vblock_alloc 8 s.v s.mem s.env 0
        = some (VBLOCK_RET_NOBLOCK, none,
            { s.v with perf_alloc := (s.v.perf_alloc + 1) % U32 }, s.env) := by
  obtain ⟨s0, h0⟩ := Option.isSome_iff_exists.mp
    (show (created 8 zero_pool 16 3 4096 128 zero_mem ()).isSome = true by decide)
  have hsz : s0.v.size = 16 := created_eval (fun s => s.v.size) h0 (by decide)
  have ht : s0.v.total = 5 := created_eval (fun s => s.v.total) h0 (by decide)
  obtain ⟨s, hs⟩ := exhaustion 8 zero_pool 16 3 4096 128 zero_mem () s0 [0, 0, 0, 0, 0] 0
    (by decide) (by decide) (by decide) (by decide) h0 (by rw [hsz]; decide) (by rw [ht]; rfl)
  exact ⟨s0, s, h0, hs⟩

theorem store_self (mem : Mem) (a : Nat) : store mem a (mem a) = mem := by
  funext x
  unfold store
  split
  · rename_i h
    rw [h]
  · rfl

/-- C4 as stated fails, in two ways.  With 8-byte pointers, after `vblock_create` with
`size = 0xFFFFFFFF`, `align = 3` (stored block size `0`, `free = 2`), `vblock_alloc` returns
`VBLOCK_RET_SUCCESS` with the address `4112`, and `vblock_free` of that address does not
succeed: line 379 divides by `vblock->size = 0`.  With 4-byte pointers, after `vblock_create`
with `size = 0xFFFFFFFF`, `align = 0` on a buffer of 30 bytes (`sizeof(void *) + size` wraps to
`3`, the stored size is `0xFFFFFFFF`), the third `vblock_alloc` returns `4134`, `vblock_free`
of `4134` returns `VBLOCK_RET_SUCCESS`, and the next `vblock_alloc` returns `4136`, the block
of the first alloc, which is still outstanding. -/
theorem alloc_free_roundtrip_fails_for_wrapped_size :
    ((created 8 zero_pool 0xFFFFFFFF 3 4096 16 zero_mem ()).map fun s0 =>
        (s0.v.free,
          (vblock_alloc 8 s0.v s0.mem s0.env 0).map fun r =>
            (r.1, r.2.1, r.2.1.map fun a => (vblock_free 8 r.2.2.1 s0.mem r.2.2.2 a).isSome)))
      = some (2, some (VBLOCK_RET_SUCCESS, some 4112, some false)) ∧
    ((created 4 zero_pool 0xFFFFFFFF 0 4096 30 zero_mem ()).bind fun s0 =>
        (Sys.run 4 s0 [Op.alloc 0, Op.alloc 0, Op.alloc 0]).bind fun r1 =>
          (Sys.run 4 r1.2 [Op.free 4134, Op.alloc 0]).map fun r2 =>
            (s0.v.size, r1.1, r1.2.out, r2.1, r2.2.out))
      = some (0xFFFFFFFF, [0, 0, 0], [4134, 4135, 4136], [0, 0], [4136, 4135, 4136]) :=
  ⟨by decide, by decide!⟩

/-- C4, amended (round trip and LIFO reuse).  When the block size stored by `vblock_create` is
positive and `sizeof(void *) + size` does not wrap, then in every pool reached by valid calls
that has `free > 0`: `vblock_alloc` returns `VBLOCK_RET_SUCCESS` with an address `a`;
`vblock_free(a)` returns `VBLOCK_RET_SUCCESS` and leaves the memory (every index slot) and every
field of the descriptor as before the alloc, except the counters `perf_alloc` and `perf_free`
that advanced by one; and the next `vblock_alloc` returns `VBLOCK_RET_SUCCESS` with the same
address `a`. -/
theorem alloc_free_roundtrip (W : Nat) (v : vblock_t E) (size align memory_ptr memory_size : Nat)
    (mem : Mem) (env : E) (s0 s : Sys E) (ops : List (Op E)) (wait wait2 : Nat)
    (hW : 4 ≤ W) (hptr : 0 < memory_ptr) (hbuf : memory_ptr + memory_size < PTR W)
    (hms : memory_size < U32)
    (hc : created W v size align memory_ptr memory_size mem env = some s0)
    (hsize : 0 < s0.v.size) (hword : W + s0.v.size < PTR W)
    (hr : Sys.run_valid W s0 ops = some s) (hfree : 0 < s.v.free) :
    ∃ (a : Nat) (v1 v3 : vblock_t E),
      vblock_alloc W s.v s.mem s.env wait = some (VBLOCK_RET_SUCCESS, some a, v1, s.env) ∧
      vblock_free W v1 s.mem s.env a
        = some (VBLOCK_RET_SUCCESS,
            { s.v with perf_alloc := (s.v.perf_alloc + 1) % U32,
                       perf_free := (s.v.perf_free + 1) % U32 },
            s.mem, s.env) ∧
      vblock_alloc W
          { s.v with perf_alloc := (s.v.perf_alloc + 1) % U32,
                     perf_free := (s.v.perf_free + 1) % U32 }
          s.mem s.env wait2
        = some (VBLOCK_RET_SUCCESS, some a, v3, s.env) := by
  obtain ⟨fl, hinv⟩ := inv_run_valid ops s0 s _ (inv_created hW hptr hbuf hms hc hsize hword) hr
  cases fl with
  | nil =>
    have := hinv.base.hlen
    simp at this
    omega
  | cons i t =>
    have hb := hinv.base
    have hi : i < s.v.total := hb.hlt i (List.mem_cons_self _ _)
    have hnd := List.nodup_cons.mp hb.hnd
    have hl : s.v.list = memory_ptr + W * i := hb.hchain.1
    have hf1 : s.v.free - 1 + 1 = s.v.free := by omega
    have hb1 := alloc_cons_ok hb
    have hfr := free_block hb1 hinv.hsize hi hnd.1 s.env
    have hb2 := free_block_ok hb1 hi hnd.1
    simp only [hf1, ← hl, store_self] at hfr hb2
    exact ⟨_, _, _, alloc_cons hb s.env wait, hfr, alloc_cons hb2 s.env wait2⟩

/-- Witness of C4 (amended): the sizing-example pool with one block outstanding and four free. -/
theorem alloc_free_roundtrip_witness :
    ∃ s0 s, created 8 zero_pool 16 3 4096 128 zero_mem () = some s0 ∧
      Sys.run_valid 8 s0 [Op.alloc 0, Op.alloc 0, Op.free 4136] = some s ∧
      ∃ (a : Nat) (v1 v3 : vblock_t Unit),
        vblock_alloc 8 s.v s.mem s.env 0 = some (VBLOCK_RET_SUCCESS, some a, v1, s.env) ∧
        vblock_free 8 v1 s.mem s.env a
          = some (VBLOCK_RET_SUCCESS,
              { s.v with perf_alloc := (s.v.perf_alloc + 1) % U32,
                         perf_free := (s.v.perf_free + 1) % U32 },
              s.mem, s.env) ∧
        vblock_alloc 8
            { s.v with perf_alloc := (s.v.perf_alloc + 1) % U32,
                       perf_free := (s.v.perf_free + 1) % U32 }
            s.mem s.env 7
          = some (VBLOCK_RET_SUCCESS, some a, v3, s.env) := by
  have h : ((created 8 zero_pool 16 3 4096 128 zero_mem ()).bind (fun s0 =>
      Sys.run_valid 8 s0 [Op.alloc 0, Op.alloc 0, Op.free 4136])).isSome = true := by
    decide
  obtain ⟨s, hs⟩ := Option.isSome_iff_exists.mp h
  obtain ⟨s0, h0, h1⟩ := Option.bind_eq_some.mp hs
  have hsz : s0.v.size = 16 := created_eval (fun s => s.v.size) h0 (by decide)
  have hfr : s.v.free = 4 := by
    have h2 : ((created 8 zero_pool 16 3 4096 128 zero_mem ()).bind (fun s0 =>
        Sys.run_valid 8 s0 [Op.alloc 0, Op.alloc 0, Op.free 4136])).map (fun s => s.v.free)
        = some 4 := by decide
    rw [hs] at h2
    simpa using h2
  exact ⟨s0, s, h0, h1, alloc_free_roundtrip 8 zero_pool 16 3 4096 128 zero_mem () s0 s _ 0 7
    (by decide) (by decide) (by decide) (by decide) h0 (by rw [hsz]; decide)
    (by rw [hsz]; decide) h1 (by rw [hfr]; decide)⟩

/-- C5 fails on the code (off-by-one in the range check of `vblock_free`).  In the pool of the
sizing example (5 blocks of 16 bytes, `area = 4136`) with one block outstanding, `vblock_free` is
called with `area + total * size = 4216`, the first address past the block region.  The check
`index > total` of line 382 lets `index = 5 = total` through: the call returns
`VBLOCK_RET_SUCCESS`, raises `free` from `4` to `5` and makes the list head the word at
`node + 5 * 8 = 4136`, which is the first word of block 0. -/
theorem free_past_end_accepted :
    ((created 8 zero_pool 16 3 4096 128 zero_mem ()).bind fun s0 =>
        (Sys.run 8 s0 [Op.alloc 0]).bind fun r1 =>
          (vblock_free 8 r1.2.v r1.2.mem r1.2.env (s0.v.area + s0.v.total * s0.v.size)).map
            fun r2 =>
              (s0.v.area + s0.v.total * s0.v.size, r1.2.v.free, r1.2.out, r2.1, r2.2.1.free,
                r2.2.1.list))
      = some (4216, 4, [4136], VBLOCK_RET_SUCCESS, 5, 4136) := by
  decide

theorem and_seven (x : Nat) : x &&& 7 = x % 8 := Nat.and_pow_two_sub_one_eq_mod x 3

/-- C6 (delete guard).  `vblock_delete` returns `VBLOCK_RET_SUCCESS` when `total = free` and
`VBLOCK_RET_OCCUPANCY` otherwise (two different values); in the first case every field of the
descriptor is cleared (pointers and hooks null, sizes and counters zero), in the second the
descriptor is returned unchanged. -/
theorem vblock_delete_guard (v : vblock_t E) :
    (vblock_delete v).1
      = (if v.total = v.free then VBLOCK_RET_SUCCESS else VBLOCK_RET_OCCUPANCY) ∧
    (vblock_delete v).2 =
      (if v.total = v.free then
        { list := 0, node := 0, area := 0, mtx_get := none, mtx_put := none, sem_get := none,
          sem_put := none, size := 0, total := 0, free := 0, perf_alloc := 0, perf_free := 0,
          perf_timeout := 0 }
      else v) ∧
    VBLOCK_RET_SUCCESS ≠ VBLOCK_RET_OCCUPANCY := by
  unfold vblock_delete
  by_cases h : v.total = v.free
  · simp [h, VBLOCK_RET_SUCCESS, VBLOCK_RET_OCCUPANCY]
  · simp [h, VBLOCK_RET_SUCCESS, VBLOCK_RET_OCCUPANCY]

/-! ### C7: a mutex that always times out -/

theorem timeout_alloc {W : Nat} {s : Sys SemEnv} (h : TimeoutInv s) (hfree : 0 < s.v.free)
    (wait : Nat) :
    vblock_alloc W s.v s.mem s.env wait
      = some (VBLOCK_RET_TIMEOUT, none,
          { s.v with perf_alloc := (s.v.perf_alloc + 1) % U32,
                     perf_timeout := (s.v.perf_timeout + 1) % U32 }, s.env) := by
  have hp : s.env.permits ≠ 0 := by
    have := h.hperm
    have := h.hcap
    have := h.hfree
    omega
  have hf : s.v.free ≠ 0 := by omega
  have hlt : s.env.permits - 1 < s.env.capacity := by have := h.hperm; omega
  have he : ({ permits := s.env.permits - 1 + 1, capacity := s.env.capacity } : SemEnv) = s.env := by
    have e : s.env.permits - 1 + 1 = s.env.permits := by omega
    rw [e]
  simp [vblock_alloc, call_get, h.hsg, h.hsp, h.hmg, sem_get_permit, sem_put_permit,
    mtx_get_timeout, hp, hf, hlt, he]

theorem timeout_alloc_idle {W : Nat} {s : Sys SemEnv} (h : TimeoutInv s) (hfree : s.v.free = 0)
    (wait : Nat) :
    vblock_alloc W s.v s.mem s.env wait
      = some (VBLOCK_RET_NOBLOCK, none,
          { s.v with perf_alloc := (s.v.perf_alloc + 1) % U32 }, s.env) := by
  have hp : s.env.permits = 0 := by
    have := h.hperm
    have := h.hcap
    have := h.hfree
    omega
  simp [vblock_alloc, call_get, h.hsg, sem_get_permit, hp]

theorem timeout_free {W : Nat} {s : Sys SemEnv} (h : TimeoutInv s) (addr : Nat) :
    vblock_free W s.v s.mem s.env addr
      = some (VBLOCK_RET_TIMEOUT,
          { s.v with perf_timeout := (s.v.perf_timeout + 1) % U32 }, s.mem, s.env) := by
  simp [vblock_free, call_get, h.hmg, mtx_get_timeout]

theorem timeout_call {W : Nat} {s s1 : Sys SemEnv} {op : Op SemEnv} {ret : Int}
    (h : TimeoutInv s) (hop : op.is_call = true) (hc : s.call W op = some (ret, s1)) :
    TimeoutInv s1 := by
  cases op with
  | alloc wait =>
    rcases Nat.eq_zero_or_pos s.v.free with hf | hf
    · simp only [Sys.call, timeout_alloc_idle h hf, Option.some.injEq, Prod.mk.injEq] at hc
      obtain ⟨_, rfl⟩ := hc
      exact ⟨h.hsg, h.hsp, h.hmg, h.hperm, h.hcap, h.hfree⟩
    · simp only [Sys.call, timeout_alloc h hf, Option.some.injEq, Prod.mk.injEq] at hc
      obtain ⟨_, rfl⟩ := hc
      exact ⟨h.hsg, h.hsp, h.hmg, h.hperm, h.hcap, h.hfree⟩
  | free addr =>
    simp only [Sys.call, timeout_free h, Option.some.injEq, Prod.mk.injEq] at hc
    obtain ⟨hr, rfl⟩ := hc
    exact ⟨h.hsg, h.hsp, h.hmg, h.hperm, h.hcap, h.hfree⟩
  | add_mtx get put => simp [Op.is_call] at hop
  | add_sem get put => simp [Op.is_call] at hop

theorem timeout_run {W : Nat} :
    ∀ (ops : List (Op SemEnv)) (s s2 : Sys SemEnv) (rets : List Int), TimeoutInv s →
      (∀ op ∈ ops, op.is_call = true) → Sys.run W s ops = some (rets, s2) → TimeoutInv s2
  | [], s, s2, rets, h, _, hr => by
    simp only [Sys.run, Option.some.injEq, Prod.mk.injEq] at hr
    obtain ⟨_, rfl⟩ := hr
    exact h
  | op :: ops, s, s2, rets, h, hops, hr => by
    obtain ⟨ret, s1, rest, hcall, hrest, _⟩ := run_cons hr
    exact timeout_run ops s1 s2 rest
      (timeout_call h (hops op (List.mem_cons_self _ _)) hcall)
      (fun o ho => hops o (List.mem_cons_of_mem _ ho)) hrest

theorem timeout_created {W : Nat} {v : vblock_t SemEnv} {size align ptr ms : Nat} {mem : Mem}
    {s0 : Sys SemEnv} (hc : created_timeout W v size align ptr ms mem = some s0) :
    TimeoutInv s0 := by
  unfold created_timeout at hc
  split at hc
  · split_ifs at hc with hr
    simp only [Option.some.injEq] at hc
    subst hc
    subst hr
    rename_i v1 mem1 heq
    obtain ⟨hf, _, _⟩ := create_counters heq
    exact ⟨rfl, rfl, rfl, rfl, rfl, hf⟩
  · exact absurd hc (by simp)

/-- The pool whose mutex times out from the start stays idle, and its `vblock_alloc` returns
`VBLOCK_RET_TIMEOUT` with the permits as before. -/
theorem timeout_rollback_idle (W : Nat) (v : vblock_t SemEnv)
    (size align memory_ptr memory_size : Nat)
    (mem : Mem) (s0 s : Sys SemEnv) (ops : List (Op SemEnv)) (rets : List Int) (wait : Nat)
    (hc : created_timeout W v size align memory_ptr memory_size mem = some s0)
    (hops : ∀ op ∈ ops, op.is_call = true)
    (hr : Sys.run W s0 ops = some (rets, s)) (hfree : 0 < s.v.free) :
    vblock_alloc W s.v s.mem s.env wait
      = some (VBLOCK_RET_TIMEOUT, none,
          { s.v with perf_alloc := (s.v.perf_alloc + 1) % U32,
                     perf_timeout := (s.v.perf_timeout + 1) % U32 }, s.env) :=
  timeout_alloc (timeout_run ops s0 s rets (timeout_created hc) hops hr) hfree wait

/-- C8 (sizing example).  With 8-byte pointers, a word-aligned buffer of 128 bytes at `buf`,
requested block size 16 and alignment class `VBLOCK_PARAM_ALIGN_8`, `vblock_create` returns
`VBLOCK_RET_SUCCESS` with `total = free = 5`, `size = 16` and `area = buf + 40`; the block region
ends at `buf + 120` and the last 8 bytes of the buffer are unused. -/
theorem sizing_example (v : vblock_t E) (buf : Nat) (mem : Mem) (hal : buf % 8 = 0)
    (hfit : buf + 128 < PTR 8) :
    ∃ v1 mem1, vblock_create 8 v 16 VBLOCK_PARAM_ALIGN_8 buf 128 mem
        = some (VBLOCK_RET_SUCCESS, v1, mem1) ∧
      v1.total = 5 ∧ v1.free = 5 ∧ v1.size = 16 ∧ v1.area = buf + 40 ∧
      v1.area + v1.total * v1.size = buf + 120 ∧
      (buf + 128) - (v1.area + v1.total * v1.size) = 8 := by
  have hP : PTR 8 = 18446744073709551616 := by norm_num [PTR]
  rw [hP] at hfit
  have h1 : (buf + 40) % 18446744073709551616 = buf + 40 := by omega
  have h2 : (buf + 128) % 18446744073709551616 = buf + 128 := by omega
  have h3 : (buf + 120) % 18446744073709551616 = buf + 120 := by omega
  have h4 : (buf + 40) % 8 = 0 := by omega
  simp [vblock_create, VBLOCK_PARAM_ALIGN_8, U32, hP, align_address, and_seven, h1, h2, h3, h4]

/-- Witness of C8: the buffer at address 4096. -/
theorem sizing_example_witness :
    (4096 % 8 = 0 ∧ 4096 + 128 < PTR 8) ∧
    ∃ v1 mem1, vblock_create 8 zero_pool 16 VBLOCK_PARAM_ALIGN_8 4096 128 zero_mem
        = some (VBLOCK_RET_SUCCESS, v1, mem1) ∧
      v1.total = 5 ∧ v1.free = 5 ∧ v1.size = 16 ∧ v1.area = 4096 + 40 ∧
      v1.area + v1.total * v1.size = 4096 + 120 ∧
      (4096 + 128) - (v1.area + v1.total * v1.size) = 8 :=
  ⟨by decide, sizing_example zero_pool 4096 zero_mem (by decide) (by decide)⟩

/-- C10 (bounds of the free count).  After a `vblock_create` that returned
`VBLOCK_RET_SUCCESS` and any sequence of `vblock_alloc`, `vblock_free`, `vblock_add_mtx` and
`vblock_add_sem` calls, with arbitrary addresses, arbitrary hooks and arbitrary hook results,
`free ≤ total` holds and `total` is the value set by `vblock_create`. -/
theorem free_le_total (W : Nat) (v : vblock_t E) (size align memory_ptr memory_size : Nat)
    (mem : Mem) (env : E) (s0 s : Sys E) (ops : List (Op E)) (rets : List Int)
    (hc : created W v size align memory_ptr memory_size mem env = some s0)
    (hr : Sys.run W s0 ops = some (rets, s)) :
    s.v.free ≤ s.v.total ∧ s.v.total = s0.v.total := by
  obtain ⟨hcr, _, _⟩ := created_eq hc
  obtain ⟨hf, _, _⟩ := create_counters hcr
  exact bounds_run ops s0 s rets (by omega) hr

/-- Witness of C10: a run with a free on the idle pool, a double free, an unowned address, and hooks attached midway, one of them a mutex that times out. -/
theorem free_le_total_witness :
    ∃ s0 rets s,
      created 8 zero_pool_sem 16 3 4096 128 zero_mem { permits := 1, capacity := 5 } = some s0 ∧
      Sys.run 8 s0
        [Op.free 4136, Op.alloc 0, Op.alloc 0, Op.free 4136, Op.free 4136, Op.free 12345,
         Op.add_sem (some sem_get_permit) (some sem_put_permit), Op.alloc 0, Op.alloc 0,
         Op.add_mtx (some mtx_get_timeout) (some mtx_put_idle), Op.free 4152, Op.alloc 0]
        = some (rets, s) ∧
      s.v.free ≤ s.v.total ∧ s.v.total = s0.v.total := by
  have h : ((created 8 zero_pool_sem 16 3 4096 128 zero_mem { permits := 1, capacity := 5 }).bind
      (fun s0 => Sys.run 8 s0
        [Op.free 4136, Op.alloc 0, Op.alloc 0, Op.free 4136, Op.free 4136, Op.free 12345,
         Op.add_sem (some sem_get_permit) (some sem_put_permit), Op.alloc 0, Op.alloc 0,
         Op.add_mtx (some mtx_get_timeout) (some mtx_put_idle), Op.free 4152, Op.alloc 0])).isSome
      = true := by
    decide
  obtain ⟨⟨rets, s⟩, hs⟩ := Option.isSome_iff_exists.mp h
  obtain ⟨s0, h0, h1⟩ := Option.bind_eq_some.mp hs
  exact ⟨s0, rets, s, h0, h1,
    free_le_total 8 zero_pool_sem 16 3 4096 128 zero_mem _ s0 s _ rets h0 h1⟩

/-! ## The masks of `vblock_create` -/

theorem not32_mask (a : Nat) (ha : a ≤ 32) :
    not32 ((2 ^ a - 1) % U32) = 2 ^ a * (2 ^ (32 - a) - 1) := by
  have hpow : 2 ^ a * 2 ^ (32 - a) = 2 ^ 32 := by
    rw [← Nat.pow_add]
    congr 1
    omega
  have h1 : 0 < 2 ^ a := Nat.two_pow_pos a
  have h2 : 0 < 2 ^ (32 - a) := Nat.two_pow_pos _
  have h3 : 2 ^ a ≤ 2 ^ 32 := Nat.pow_le_pow_right (by norm_num) ha
  have hlt : 2 ^ a - 1 < U32 := by unfold U32; omega
  unfold not32
  rw [Nat.mod_mod, Nat.mod_eq_of_lt hlt, Nat.mul_sub, Nat.mul_one, hpow]
  unfold U32
  omega

theorem and_not32_mask (x a : Nat) (ha : a ≤ 32) :
    x &&& not32 ((2 ^ a - 1) % U32) = x % U32 - x % 2 ^ a := by
  have hdvd : 2 ^ a ∣ 2 ^ 32 := Nat.pow_dvd_pow 2 ha
  have hmm : x % 2 ^ 32 % 2 ^ a = x % 2 ^ a := Nat.mod_mod_of_dvd x hdvd
  have hrhs : x % U32 - x % 2 ^ a = 2 ^ a * (x % 2 ^ 32 / 2 ^ a) := by
    have := Nat.div_add_mod (x % 2 ^ 32) (2 ^ a)
    unfold U32
    omega
  rw [not32_mask a ha, hrhs]
  apply Nat.eq_of_testBit_eq
  intro i
  rw [Nat.testBit_and, Nat.testBit_mul_pow_two, Nat.testBit_mul_pow_two,
    Nat.testBit_two_pow_sub_one, ← Nat.shiftRight_eq_div_pow, Nat.testBit_shiftRight,
    Nat.testBit_mod_two_pow]
  by_cases h1 : i ≥ a
  · have e : a + (i - a) = i := by omega
    rw [e]
    by_cases h2 : i < 32
    · have h3 : i - a < 32 - a := by omega
      simp [h1, h2, h3]
    · have h3 : ¬ i - a < 32 - a := by omega
      simp [h1, h2, h3]
  · simp [h1]

theorem and_mask (x a : Nat) (ha : a ≤ 32) : x &&& (2 ^ a - 1) % U32 = x % 2 ^ a := by
  have h3 : 2 ^ a ≤ 2 ^ 32 := Nat.pow_le_pow_right (by norm_num) ha
  have h1 : 0 < 2 ^ a := Nat.two_pow_pos a
  have hlt : 2 ^ a - 1 < U32 := by unfold U32; omega
  rw [Nat.mod_eq_of_lt hlt, Nat.and_pow_two_sub_one_eq_mod]

theorem create_size {W : Nat} {v v1 : vblock_t E} {size align ptr ms : Nat} {mem mem1 : Mem}
    (h : vblock_create W v size align ptr ms mem = some (VBLOCK_RET_SUCCESS, v1, mem1)) :
    v1.size = (if size &&& (2 ^ align - 1) % U32 ≠ 0
      then ((size &&& not32 ((2 ^ align - 1) % U32)) + 2 ^ align) % U32 else size) := by
  unfold vblock_create at h
  simp only [] at h
  generalize (if size &&& (2 ^ align - 1) % U32 ≠ 0
      then ((size &&& not32 ((2 ^ align - 1) % U32)) + 2 ^ align) % U32 else size) = sz at h ⊢
  split_ifs at h with h1 h2 h3 h4
  · simp [VBLOCK_RET_NOBLOCK, VBLOCK_RET_SUCCESS] at h
  · simp [VBLOCK_RET_NOBLOCK, VBLOCK_RET_SUCCESS] at h
  · simp only [Option.some.injEq, Prod.mk.injEq, true_and] at h
    obtain ⟨rfl, rfl⟩ := h
    rfl
  · simp only [Option.some.injEq, Prod.mk.injEq, true_and] at h
    obtain ⟨rfl, rfl⟩ := h
    rfl

/-- C13 (block-size rounding).  For a 32-bit `size` and `align` in `0..7`, the block size stored
by a successful `vblock_create` is `(size + mask) & ~mask` in `uint32_t` arithmetic, with
`mask = 2 ^ align - 1`; when `size + mask` does not exceed `2 ^ 32 - 1` it is the least multiple
of `2 ^ align` that is at least `size`; and it is `size` when `size` is a multiple already. -/
theorem size_rounding (W : Nat) (v v1 : vblock_t E) (size align memory_ptr memory_size : Nat)
    (mem mem1 : Mem) (hsz : size < U32) (hal : align ≤ 7)
    (h : vblock_create W v size align memory_ptr memory_size mem
      = some (VBLOCK_RET_SUCCESS, v1, mem1)) :
    v1.size = ((size + (2 ^ align - 1)) % U32) &&& not32 (2 ^ align - 1) ∧
    (size + (2 ^ align - 1) < U32 →
      v1.size % 2 ^ align = 0 ∧ size ≤ v1.size ∧
        ∀ m, m % 2 ^ align = 0 → size ≤ m → v1.size ≤ m) ∧
    (size % 2 ^ align = 0 → v1.size = size) := by
  have h32 : align ≤ 32 := by omega
  have hm : (2 ^ align - 1) % U32 = 2 ^ align - 1 := by
    have : 2 ^ align ≤ 2 ^ 32 := Nat.pow_le_pow_right (by norm_num) h32
    have := Nat.two_pow_pos align
    exact Nat.mod_eq_of_lt (by unfold U32; omega)
  have hn := and_not32_mask ((size + (2 ^ align - 1)) % U32) align h32
  rw [hm] at hn
  rw [create_size h, and_mask size align h32, and_not32_mask size align h32, hn, Nat.mod_mod]
  have hmm : (size + (2 ^ align - 1)) % U32 % 2 ^ align = (size + (2 ^ align - 1)) % 2 ^ align :=
    Nat.mod_mod_of_dvd _ (Nat.pow_dvd_pow 2 h32)
  rw [hmm]
  clear hn hmm hm h
  unfold U32 at hsz ⊢
  interval_cases align <;> simp only [Nat.reducePow, Nat.reduceSub, Nat.add_zero] <;>
    (split_ifs <;>
      refine ⟨?_, fun hno => ⟨?_, ?_, fun m hm1 hm2 => ?_⟩, fun hmul => ?_⟩ <;> omega)

/-! ## The index/address mapping -/

theorem alloc_from_slot {W ptr ms : Nat} {v : vblock_t E} {mem0 : Mem} {fl : List Nat}
    (h : FreeListOK W ptr ms v mem0 fl) {i : Nat} (hi : i < v.total) {f : Nat} (hf : f ≠ 0)
    (mem : Mem) (env : E) (wait : Nat) :
    vblock_alloc W { v with list := ptr + W * i, free := f } mem env wait
      = some (VBLOCK_RET_SUCCESS, some ((v.area + i * v.size) % PTR W),
          { v with perf_alloc := (v.perf_alloc + 1) % U32, list := mem (ptr + W * i),
                   free := f - 1 }, env) := by
  have hsl := h.slot_le hi
  have hl0 : ptr + W * i ≠ 0 := by have := h.hptr; omega
  have hidx : subPtr W (ptr + W * i) ptr / W % U32 = i := by
    rw [subPtr_slot W ptr (W * i) (by have := h.hbuf; omega),
      Nat.mul_div_cancel_left i (by have := h.hW; omega)]
    exact Nat.mod_eq_of_lt (by have := h.total_lt; omega)
  have hmul : i * v.size % U32 = i * v.size := Nat.mod_eq_of_lt (by have := h.hms; omega)
  simp [vblock_alloc, call_get, call_put, h.hsg, h.hmg, h.hmp, hf, hl0, h.hnode, hidx, hmul]

theorem free_index_eq {W ptr ms : Nat} {v : vblock_t E} {mem0 : Mem} {fl : List Nat}
    (h : FreeListOK W ptr ms v mem0 fl) (hsize : 0 < v.size) {i : Nat} (hi : i < v.total) :
    subPtr W ((v.area + i * v.size) % PTR W) v.area / v.size % U32 = i := by
  have hsl := h.slot_le hi
  have hP := U32_le_PTR h.hW
  rw [subPtr_add W v.area (i * v.size) h.harea (by have := h.hms; omega),
    Nat.mul_div_cancel i hsize]
  exact Nat.mod_eq_of_lt (by have := h.total_lt; omega)

theorem free_to_slot {W ptr ms : Nat} {v : vblock_t E} {mem0 : Mem} {fl : List Nat}
    (h : FreeListOK W ptr ms v mem0 fl) (hsize : 0 < v.size) {i : Nat} (hi : i < v.total)
    {f : Nat} (hf : f < v.total) (l : Nat) (mem : Mem) (env : E) :
    vblock_free W { v with list := l, free := f } mem env ((v.area + i * v.size) % PTR W)
      = some (VBLOCK_RET_SUCCESS,
          { v with perf_free := (v.perf_free + 1) % U32, list := ptr + W * i, free := f + 1 },
          store mem (ptr + W * i) l, env) := by
  have hne : v.total ≠ f := by omega
  have hsl := h.slot_le hi
  have hP := U32_le_PTR h.hW
  have hidx := free_index_eq h hsize hi
  have hiW : i * W % PTR W = W * i := by
    rw [Nat.mul_comm]
    exact Nat.mod_eq_of_lt (by have := h.hms; omega)
  have hnode : (ptr + W * i) % PTR W = ptr + W * i :=
    Nat.mod_eq_of_lt (by have := h.hbuf; omega)
  have hfree : (f + 1) % U32 = f + 1 := Nat.mod_eq_of_lt (by have := h.total_lt; omega)
  have hsz : v.size ≠ 0 := by omega
  have hgt : ¬ i > v.total := by omega
  simp [vblock_free, call_get, call_put, h.hsp, h.hmg, h.hmp, hne, hidx, hiW, hnode, hfree, hsz,
    hgt, h.hnode, VBLOCK_RET_SUCCESS]

/-- C14 as stated fails, in two ways.  With 8-byte pointers, after `vblock_create` with
`size = 0xFFFFFFFF`, `align = 3` the stored block size is `0` and `total = 2`: the block
addresses `area + i * size` derived by `vblock_alloc` for the distinct indices `0` and `1` (two
allocs in a row) are both `4112`.  With 4-byte pointers, after `vblock_create` with
`size = 0xFFFFFFFF`, `align = 0` on a buffer of 30 bytes (`sizeof(void *) + size` wraps to `3`)
the stored size is `0xFFFFFFFF` and `total = 10`: the index `2` has the block address `4134`,
which the computation `(addr - area) / size` of `vblock_free` maps back to the index `0`. -/
theorem index_mapping_fails_for_wrapped_size :
    ((created 8 zero_pool 0xFFFFFFFF 3 4096 16 zero_mem ()).bind fun s0 =>
        (Sys.run 8 s0 [Op.alloc 0, Op.alloc 0]).map fun r =>
          (s0.v.size, s0.v.total, r.1, r.2.out))
      = some (0, 2, [VBLOCK_RET_SUCCESS, VBLOCK_RET_SUCCESS], [4112, 4112]) ∧
    ((created 4 zero_pool 0xFFFFFFFF 0 4096 30 zero_mem ()).map fun s0 =>
        (s0.v.area, s0.v.size, s0.v.total, (s0.v.area + 2 * s0.v.size) % PTR 4,
          subPtr 4 ((s0.v.area + 2 * s0.v.size) % PTR 4) s0.v.area / s0.v.size % U32))
      = some (4136, 0xFFFFFFFF, 10, 4134, 0) := by
  decide

/-- C14, amended (index/address mapping).  For a pool made by a successful `vblock_create` whose
stored block size is positive (valid buffer, `sizeof(void *) + size` not wrapping) and indices
`i, j < total`: from the slot `node + W * i` at the head of the list, `vblock_alloc` derives the
block address `area + i * size`; the computation `(addr - area) / size` of `vblock_free` maps
that address back to the index `i`, and `vblock_free` links the slot `node + W * i`; distinct
indices have distinct block addresses and distinct slots. -/
theorem index_mapping (W : Nat) (v : vblock_t E) (size align memory_ptr memory_size : Nat)
    (mem0 : Mem) (env : E) (s0 : Sys E) (i j f l wait : Nat) (mem : Mem)
    (hW : 4 ≤ W) (hptr : 0 < memory_ptr) (hbuf : memory_ptr + memory_size < PTR W)
    (hms : memory_size < U32)
    (hc : created W v size align memory_ptr memory_size mem0 env = some s0)
    (hsize : 0 < s0.v.size) (hword : W + s0.v.size < PTR W)
    (hi : i < s0.v.total) (hj : j < s0.v.total) (hf : f < s0.v.total) :
    vblock_alloc W { s0.v with list := s0.v.node + W * i, free := f + 1 } mem env wait
      = some (VBLOCK_RET_SUCCESS, some ((s0.v.area + i * s0.v.size) % PTR W),
          { s0.v with perf_alloc := (s0.v.perf_alloc + 1) % U32,
                      list := mem (s0.v.node + W * i), free := f }, env) ∧
    subPtr W ((s0.v.area + i * s0.v.size) % PTR W) s0.v.area / s0.v.size % U32 = i ∧
    vblock_free W { s0.v with list := l, free := f } mem env
        ((s0.v.area + i * s0.v.size) % PTR W)
      = some (VBLOCK_RET_SUCCESS,
          { s0.v with perf_free := (s0.v.perf_free + 1) % U32, list := s0.v.node + W * i,
                      free := f + 1 },
          store mem (s0.v.node + W * i) l, env) ∧
    (i ≠ j →
      (s0.v.area + i * s0.v.size) % PTR W ≠ (s0.v.area + j * s0.v.size) % PTR W ∧
      s0.v.node + W * i ≠ s0.v.node + W * j) := by
  obtain ⟨hcr, _, _⟩ := created_eq hc
  obtain ⟨hok, _, _⟩ :=
    create_facts W v size align memory_ptr memory_size mem0 s0.v s0.mem hW hptr hbuf hms hcr hword
  rw [hok.hnode]
  refine ⟨alloc_from_slot hok hi (by omega) mem env wait, free_index_eq hok hsize hi,
    free_to_slot hok hsize hi hf l mem env, fun hij => ⟨?_, ?_⟩⟩
  · exact fun e => hij (hok.block_inj hsize hi hj e)
  · intro e
    have : W * i = W * j := by omega
    exact hij (Nat.eq_of_mul_eq_mul_left (by omega) this)

/-- Witness of C14 (amended): indices 1 and 3 of the sizing-example pool. -/
theorem index_mapping_witness :
    ∃ s0, created 8 zero_pool 16 3 4096 128 zero_mem () = some s0 ∧
      vblock_alloc 8 { s0.v with list := s0.v.node + 8 * 1, free := 2 + 1 } zero_mem () 0
        = some (VBLOCK_RET_SUCCESS, some ((s0.v.area + 1 * s0.v.size) % PTR 8),
            { s0.v with perf_alloc := (s0.v.perf_alloc + 1) % U32,
                        list := zero_mem (s0.v.node + 8 * 1), free := 2 }, ()) ∧
      subPtr 8 ((s0.v.area + 1 * s0.v.size) % PTR 8) s0.v.area / s0.v.size % U32 = 1 ∧
      vblock_free 8 { s0.v with list := 4120, free := 2 } zero_mem ()
          ((s0.v.area + 1 * s0.v.size) % PTR 8)
        = some (VBLOCK_RET_SUCCESS,
            { s0.v with perf_free := (s0.v.perf_free + 1) % U32, list := s0.v.node + 8 * 1,
                        free := 2 + 1 },
            store zero_mem (s0.v.node + 8 * 1) 4120, ()) ∧
      (1 ≠ 3 →
        (s0.v.area + 1 * s0.v.size) % PTR 8 ≠ (s0.v.area + 3 * s0.v.size) % PTR 8 ∧
        s0.v.node + 8 * 1 ≠ s0.v.node + 8 * 3) := by
  obtain ⟨s0, h0⟩ := Option.isSome_iff_exists.mp
    (show (created 8 zero_pool 16 3 4096 128 zero_mem ()).isSome = true by decide)
  have hsz : s0.v.size = 16 := created_eval (fun s => s.v.size) h0 (by decide)
  have ht : s0.v.total = 5 := created_eval (fun s => s.v.total) h0 (by decide)
  exact ⟨s0, h0, index_mapping 8 zero_pool 16 3 4096 128 zero_mem () s0 1 3 2 4120 0 zero_mem
    (by decide) (by decide) (by decide) (by decide) h0 (by rw [hsz]; decide)
    (by rw [hsz]; decide) (by rw [ht]; decide) (by rw [ht]; decide) (by rw [ht]; decide)⟩

/-! ## The free list under valid calls -/

theorem free_size_zero {W ptr ms : Nat} {v : vblock_t E} {mem : Mem} {fl : List Nat}
    (h : FreeListOK W ptr ms v mem fl) (hne : v.total ≠ v.free) (hsz : v.size = 0) (env : E)
    (addr : Nat) : vblock_free W v mem env addr = none := by
  simp [vblock_free, call_get, h.hmg, hne, hsz]

theorem chain_run_valid {W ptr ms : Nat} :
    ∀ (ops : List (Op E)) (s s2 : Sys E) (fl : List Nat), FreeListOK W ptr ms s.v s.mem fl →
      s.v.size = 0 → fl.length + s.out.length = s.v.total →
      Sys.run_valid W s ops = some s2 → ∃ fl2, FreeListOK W ptr ms s2.v s2.mem fl2
  | [], s, s2, fl, h, _, _, hr => by
    simp only [Sys.run_valid, Option.some.injEq] at hr
    subst hr
    exact ⟨fl, h⟩
  | op :: ops, s, s2, fl, h, hsz, hcons, hr => by
    obtain ⟨hv, ret, s1, hcall, hrest⟩ := run_valid_cons hr
    cases op with
    | alloc wait =>
      cases fl with
      | nil =>
        simp only [Sys.call, alloc_empty h, Option.some.injEq, Prod.mk.injEq] at hcall
        obtain ⟨_, rfl⟩ := hcall
        exact chain_run_valid ops
          { v := { s.v with perf_alloc := (s.v.perf_alloc + 1) % U32 }, mem := s.mem,
            env := s.env, out := s.out }
          s2 [] (h.with_perf_alloc _) hsz hcons hrest
      | cons i t =>
        simp only [Sys.call, alloc_cons h, Option.some.injEq, Prod.mk.injEq] at hcall
        obtain ⟨_, rfl⟩ := hcall
        refine chain_run_valid ops
          { v := { s.v with perf_alloc := (s.v.perf_alloc + 1) % U32, list := s.mem s.v.list,
                            free := s.v.free - 1 },
            mem := s.mem, env := s.env, out := ((s.v.area + i * s.v.size) % PTR W) :: s.out }
          s2 t (alloc_cons_ok h) hsz ?_ hrest
        simp only [List.length_cons] at hcons ⊢
        omega
    | free addr =>
      have hmem : addr ∈ s.out := by simpa [Op.valid] using hv
      have hpos : 0 < s.out.length := List.length_pos_of_mem hmem
      have hne : s.v.total ≠ s.v.free := by have := h.hlen; omega
      simp [Sys.call, free_size_zero h hne hsz] at hcall
    | add_mtx get put => simp [Op.valid] at hv
    | add_sem get put => simp [Op.valid] at hv

theorem chain_slots {W ptr : Nat} {mem : Mem} (n : Nat) :
    ∀ (fl : List Nat) (head : Nat), Chain W ptr mem head fl → (∀ i ∈ fl, i < n) →
      ∀ i ∈ fl, mem (ptr + W * i) = 0 ∨ ∃ j, j < n ∧ mem (ptr + W * i) = ptr + W * j
  | [], _, _, _, i, hi => by simp at hi
  | k :: t, head, hc, hlt, i, hi => by
    rcases List.mem_cons.mp hi with rfl | hi
    · rw [← hc.1]
      cases t with
      | nil => exact Or.inl hc.2
      | cons j t2 => exact Or.inr ⟨j, hlt j (by simp), hc.2.1⟩
    · exact chain_slots n t _ hc.2 (fun a ha => hlt a (List.mem_cons_of_mem _ ha)) i hi

theorem chain_self_loop {W ptr : Nat} {mem : Mem} {head : Nat} (hloop : mem head = head)
    (h0 : head ≠ 0) : ∀ fl : List Nat, ¬ Chain W ptr mem head fl
  | [], h => h0 h
  | _ :: t, h => chain_self_loop hloop h0 t (hloop ▸ h.2)

/-- In the sizing-example pool, after two allocs and the free of block `4136`, a second
`vblock_free(4136)` returns `VBLOCK_RET_SUCCESS` and stores the list head into the slot that is
the list head: the slot at `4096` then holds its own address. -/
theorem double_free_self_loop :
    ∃ s0 s, created 8 zero_pool 16 3 4096 128 zero_mem () = some s0 ∧
      Sys.run 8 s0 [Op.alloc 0, Op.alloc 0, Op.free 4136, Op.free 4136]
        = some ([VBLOCK_RET_SUCCESS, VBLOCK_RET_SUCCESS, VBLOCK_RET_SUCCESS,
                 VBLOCK_RET_SUCCESS], s) ∧
      s.v.list = 4096 ∧ s.mem 4096 = 4096 ∧ s.v.free = 5 ∧
      ∀ fl : List Nat, ¬ Chain 8 s.v.node s.mem s.v.list fl := by
  have h : ((created 8 zero_pool 16 3 4096 128 zero_mem ()).bind (fun s0 =>
      Sys.run 8 s0 [Op.alloc 0, Op.alloc 0, Op.free 4136, Op.free 4136])).map
        (fun r => (r.1, r.2.v.list, r.2.mem 4096, r.2.v.free))
      = some ([VBLOCK_RET_SUCCESS, VBLOCK_RET_SUCCESS, VBLOCK_RET_SUCCESS,
               VBLOCK_RET_SUCCESS], 4096, 4096, 5) := by
    decide
  obtain ⟨⟨rets, s⟩, hs, he⟩ := Option.map_eq_some'.mp h
  obtain ⟨s0, h0, h1⟩ := Option.bind_eq_some.mp hs
  simp only [Prod.mk.injEq] at he
  obtain ⟨rfl, hl, hm, hf⟩ := he
  refine ⟨s0, s, h0, h1, hl, hm, hf, ?_⟩
  rw [hl]
  exact chain_self_loop hm (by decide)

/-- C11 as stated fails, in two ways.  With 8-byte pointers `vblock_free` accepts a second free
of a block: in the sizing-example pool, after two allocs and the free of block `4136`, a second
`vblock_free(4136)` returns `VBLOCK_RET_SUCCESS` and the slot at `4096`, the list head, then
holds its own address, so the free list is a cycle and not a `NULL`-terminated chain of
`free = 5` slots.  With 4-byte pointers, after `vblock_create` with `size = 0xFFFFFFFF`,
`align = 0` on a buffer of 30 bytes (`sizeof(void *) + size` wraps to `3`), three allocs and the
frees of the outstanding blocks `4134` and `4136` (both map to the index `0`) leave the list
head `4096` holding its own address, with `free = 9`. -/
theorem free_list_cycle_after_double_free :
    (∃ s0 s, created 8 zero_pool 16 3 4096 128 zero_mem () = some s0 ∧
      Sys.run 8 s0 [Op.alloc 0, Op.alloc 0, Op.free 4136, Op.free 4136]
        = some ([VBLOCK_RET_SUCCESS, VBLOCK_RET_SUCCESS, VBLOCK_RET_SUCCESS,
                 VBLOCK_RET_SUCCESS], s) ∧
      s.v.list = 4096 ∧ s.mem 4096 = 4096 ∧ s.v.free = 5 ∧
      ∀ fl : List Nat, ¬ Chain 8 s.v.node s.mem s.v.list fl) ∧
    ((created 4 zero_pool 0xFFFFFFFF 0 4096 30 zero_mem ()).bind fun s0 =>
        (Sys.run_valid 4 s0
            [Op.alloc 0, Op.alloc 0, Op.alloc 0, Op.free 4134, Op.free 4136]).map
          fun s => (s.v.list, s.mem 4096, s.v.free))
      = some (4096, 4096, 9) :=
  ⟨double_free_self_loop, by decide!⟩

/-- C11, amended (shape of the free list).  After a successful `vblock_create` (valid buffer,
`sizeof(void *) + size` not wrapping) and any sequence of `vblock_alloc` calls and `vblock_free`
calls on outstanding blocks, the free list that starts at `list` runs through the slots
`node + W * i` of a list `fl` of distinct indices below `total` and ends with `NULL`; its length
is `free`; and every slot on it holds `NULL` or the address of one of the slots
`node[0 .. total - 1]`. -/
theorem free_list_shape (W : Nat) (v : vblock_t E) (size align memory_ptr memory_size : Nat)
    (mem : Mem) (env : E) (s0 s : Sys E) (ops : List (Op E))
    (hW : 4 ≤ W) (hptr : 0 < memory_ptr) (hbuf : memory_ptr + memory_size < PTR W)
    (hms : memory_size < U32)
    (hc : created W v size align memory_ptr memory_size mem env = some s0)
    (hword : W + s0.v.size < PTR W)
    (hr : Sys.run_valid W s0 ops = some s) :
    ∃ fl : List Nat, Chain W s.v.node s.mem s.v.list fl ∧ fl.Nodup ∧ fl.length = s.v.free ∧
      (∀ i ∈ fl, i < s.v.total) ∧
      ∀ i ∈ fl, s.mem (s.v.node + W * i) = 0 ∨
        ∃ j, j < s.v.total ∧ s.mem (s.v.node + W * i) = s.v.node + W * j := by
  obtain ⟨hcr, _, ho⟩ := created_eq hc
  obtain ⟨hok, hf, _⟩ :=
    create_facts W v size align memory_ptr memory_size mem s0.v s0.mem hW hptr hbuf hms hcr hword
  have hfl : ∃ fl, FreeListOK W memory_ptr memory_size s.v s.mem fl := by
    rcases Nat.eq_zero_or_pos s0.v.size with hz | hpos
    · exact chain_run_valid ops s0 s _ hok hz (by rw [ho, List.length_range]; rfl) hr
    · obtain ⟨fl, hinv⟩ :=
        inv_run_valid ops s0 s _ (inv_created hW hptr hbuf hms hc hpos hword) hr
      exact ⟨fl, hinv.base⟩
  obtain ⟨fl, h⟩ := hfl
  refine ⟨fl, ?_, h.hnd, h.hlen, h.hlt, ?_⟩
  · rw [h.hnode]
    exact h.hchain
  · rw [h.hnode]
    exact chain_slots s.v.total fl _ h.hchain h.hlt

/-- Witness of C11 (amended): the sizing-example pool after a run of valid calls. -/
theorem free_list_shape_witness :
    ∃ s0 s, created 8 zero_pool 16 3 4096 128 zero_mem () = some s0 ∧
      Sys.run_valid 8 s0 [Op.alloc 0, Op.alloc 0, Op.free 4136, Op.alloc 0, Op.free 4152]
        = some s ∧
      ∃ fl : List Nat, Chain 8 s.v.node s.mem s.v.list fl ∧ fl.Nodup ∧ fl.length = s.v.free ∧
        (∀ i ∈ fl, i < s.v.total) ∧
        ∀ i ∈ fl, s.mem (s.v.node + 8 * i) = 0 ∨
          ∃ j, j < s.v.total ∧ s.mem (s.v.node + 8 * i) = s.v.node + 8 * j := by
  have h : ((created 8 zero_pool 16 3 4096 128 zero_mem ()).bind (fun s0 =>
      Sys.run_valid 8 s0 [Op.alloc 0, Op.alloc 0, Op.free 4136, Op.alloc 0, Op.free 4152])).isSome
      = true := by
    decide
  obtain ⟨s, hs⟩ := Option.isSome_iff_exists.mp h
  obtain ⟨s0, h0, h1⟩ := Option.bind_eq_some.mp hs
  have hsz : s0.v.size = 16 := created_eval (fun s => s.v.size) h0 (by decide)
  exact ⟨s0, s, h0, h1, free_list_shape 8 zero_pool 16 3 4096 128 zero_mem () s0 s _
    (by decide) (by decide) (by decide) (by decide) h0 (by rw [hsz]; decide) h1⟩

/-- C12 fails on the code (the alignment step truncates the address).  With 8-byte pointers, a
200-byte buffer at `0x7fff00001008`, `size = 24` and `align = 5`, the stated layout is
`total = 4`, `area = 0x7fff00001040`: five blocks of 32 bytes after the aligned start
`0x7fff00001040` would end past the buffer.  `vblock_create` computes
`address & (~bitmask)` with the 32-bit value `~bitmask = 0xFFFFFFE0`, which clears the upper
half of the address: it returns `VBLOCK_RET_SUCCESS` with `total = 5` and `area = 0x1040`, an
address outside the buffer. -/
theorem create_area_truncated :
    ((vblock_create 8 zero_pool 24 5 0x7fff00001008 200 zero_mem).map fun r =>
        (r.1, r.2.1.size, r.2.1.total, r.2.1.area))
      = some (VBLOCK_RET_SUCCESS, 32, 5, 0x1040) ∧
    claimed_layout 8 32 5 0x7fff00001008 200 = some (4, 0x7fff00001040) := by
  decide

/-- C15 as stated fails.  In the sizing-example pool with one block outstanding,
`vblock_free(4232)` computes the index `(4232 - 4136) / 16 = 6`, which is not in `[0, 5)`, and
returns `-1`; the counter `perf_free`, `0` before the call, is `1` after it. -/
theorem free_out_of_range_counts :
    ((created 8 zero_pool 16 3 4096 128 zero_mem ()).bind fun s0 =>
        (Sys.run 8 s0 [Op.alloc 0]).bind fun r1 =>
          (vblock_free 8 r1.2.v r1.2.mem r1.2.env 4232).map fun r2 =>
            (r1.2.v.free, r1.2.v.total, subPtr 8 4232 r1.2.v.area / r1.2.v.size % U32,
              r1.2.v.perf_free, r2.1, r2.2.1.perf_free))
      = some (4, 5, 6, 0, -1, 1) := by
  decide

/-- C15, amended (out-of-range free).  On a pool that is not fully idle, with a non-zero block
size, and with no mutex hook or a mutex acquire that succeeds: for every address whose computed
index `(addr - area) / size` is greater than `total`, `vblock_free` returns `-1`, a value
different from `VBLOCK_RET_OTHERS`, and leaves the memory (every index slot) and every field of
the descriptor (`free`, the list head, `perf_alloc`, `perf_timeout`) as before the call, except
`perf_free`, which advances by one. -/
theorem free_out_of_range (W : Nat) (v : vblock_t E) (mem : Mem) (env : E) (addr : Nat)
    (hidle : v.free < v.total) (hsz : v.size ≠ 0)
    (hmtx : (call_get v.mtx_get CONFIG_VBLOCK_TIMEOUT env).1 = 0)
    (hidx : v.total < subPtr W addr v.area / v.size % U32) :
    vblock_free W v mem env addr
      = some (-1, { v with perf_free := (v.perf_free + 1) % U32 }, mem,
          (call_get v.mtx_get CONFIG_VBLOCK_TIMEOUT env).2) ∧
    (-1 : Int) ≠ VBLOCK_RET_OTHERS := by
  have hne : v.total ≠ v.free := by omega
  refine ⟨?_, by decide⟩
  simp [vblock_free, hmtx, hne, hsz, hidx]

/-- Witness of C15 (amended): the sizing-example descriptor with four free blocks and the
address `4232`. -/
theorem free_out_of_range_witness :
    vblock_free 8
        ({ list := 4104, node := 4096, area := 4136, mtx_get := none, mtx_put := none,
           sem_get := none, sem_put := none, size := 16, total := 5, free := 4,
           perf_alloc := 1, perf_free := 0, perf_timeout := 0 } : vblock_t Unit)
        zero_mem () 4232
      = some (-1,
          { list := 4104, node := 4096, area := 4136, mtx_get := none, mtx_put := none,
            sem_get := none, sem_put := none, size := 16, total := 5, free := 4,
            perf_alloc := 1, perf_free := (0 + 1) % U32, perf_timeout := 0 },
          zero_mem, ()) ∧
    (-1 : Int) ≠ VBLOCK_RET_OTHERS :=
  free_out_of_range 8
    ({ list := 4104, node := 4096, area := 4136, mtx_get := none, mtx_put := none,
       sem_get := none, sem_put := none, size := 16, total := 5, free := 4,
       perf_alloc := 1, perf_free := 0, perf_timeout := 0 } : vblock_t Unit)
    zero_mem () 4232 (by decide) (by decide) (by decide) (by decide)

/-- C16 fails on the code (unguarded `sem_put` in `vblock_alloc`).  The sizing-example pool gets
a mutex whose acquire times out and no semaphore (`sem_get`, `sem_put` null), `free = 5`.  On the
timeout `vblock_alloc` executes `vblock->sem_put()` of line 302, a call through the null
pointer: the call has no defined result. -/
theorem alloc_timeout_calls_null_sem_put :
    ((created 8 zero_pool_sem 16 3 4096 128 zero_mem { permits := 0, capacity := 0 }).bind
        fun s0 =>
          (Sys.run 8 s0 [Op.add_mtx (some mtx_get_timeout) (some mtx_put_idle)]).map fun r =>
            (r.2.v.free, r.2.v.mtx_get.isSome, r.2.v.sem_get.isSome, r.2.v.sem_put.isSome,
              (vblock_alloc 8 r.2.v r.2.mem r.2.env 0).isSome))
      = some (5, true, false, false, false) := by
  decide

/-- Witness of C13: the request `size = 13`, `align = 3` is stored as `16`. -/
theorem size_rounding_witness :
    ∃ s0, created 8 zero_pool 13 3 4096 128 zero_mem () = some s0 ∧
      s0.v.size = ((13 + (2 ^ 3 - 1)) % U32) &&& not32 (2 ^ 3 - 1) ∧
      (13 + (2 ^ 3 - 1) < U32 →
        s0.v.size % 2 ^ 3 = 0 ∧ 13 ≤ s0.v.size ∧
          ∀ m, m % 2 ^ 3 = 0 → 13 ≤ m → s0.v.size ≤ m) ∧
      (13 % 2 ^ 3 = 0 → s0.v.size = 13) := by
  obtain ⟨s0, h0⟩ := Option.isSome_iff_exists.mp
    (show (created 8 zero_pool 13 3 4096 128 zero_mem ()).isSome = true by decide)
  exact ⟨s0, h0, size_rounding 8 zero_pool s0.v 13 3 4096 128 zero_mem s0.mem (by decide)
    (by decide) (created_eq h0).1⟩

variable {M : Type}

/-! ## The block area -/

theorem align_address_eq (W align x : Nat) (hal : align ≤ 32) :
    align_address W align ((2 ^ align - 1) % U32) x
      = if x % 2 ^ align ≠ 0 then (x % U32 - x % 2 ^ align + 2 ^ align) % PTR W else x := by
  unfold align_address
  rw [and_mask x align hal, and_not32_mask x align hal]

theorem create_area {W : Nat} {v v1 : vblock_t E} {size align ptr ms : Nat} {mem mem1 : Mem}
    (h : vblock_create W v size align ptr ms mem = some (VBLOCK_RET_SUCCESS, v1, mem1)) :
    v1.area = align_address W align ((2 ^ align - 1) % U32)
      ((ptr + (W * v1.total) % PTR W) % PTR W) := by
  unfold vblock_create at h
  simp only [] at h
  generalize (if size &&& (2 ^ align - 1) % U32 ≠ 0
      then ((size &&& not32 ((2 ^ align - 1) % U32)) + 2 ^ align) % U32 else size) = sz at h
  generalize ms / ((W + sz) % PTR W) % U32 = count at h
  split_ifs at h with h1 h2 h3 h4
  · simp [VBLOCK_RET_NOBLOCK, VBLOCK_RET_SUCCESS] at h
  · simp [VBLOCK_RET_NOBLOCK, VBLOCK_RET_SUCCESS] at h
  · simp only [Option.some.injEq, Prod.mk.injEq, true_and] at h
    obtain ⟨rfl, rfl⟩ := h
    rfl
  · simp only [Option.some.injEq, Prod.mk.injEq, true_and] at h
    obtain ⟨rfl, rfl⟩ := h
    rfl

theorem PTR_dvd {W a : Nat} (hW : 4 ≤ W) (ha : a ≤ 32) : 2 ^ a ∣ PTR W :=
  Nat.pow_dvd_pow 2 (by omega)

theorem PTR_large {W : Nat} (h : U32 < PTR W) : 2 ^ 40 ≤ PTR W := by
  unfold PTR U32 at *
  have hW : 32 < 8 * W := (Nat.pow_lt_pow_iff_right (by norm_num)).mp h
  exact Nat.pow_le_pow_right (by norm_num) (by omega)

theorem align_address_dvd (W align x : Nat) (hW : 4 ≤ W) (hal : align ≤ 32) :
    align_address W align ((2 ^ align - 1) % U32) x % 2 ^ align = 0 := by
  rw [align_address_eq W align x hal]
  split_ifs with h
  · rw [Nat.mod_mod_of_dvd _ (PTR_dvd hW hal)]
    have h1 : x % U32 % 2 ^ align = x % 2 ^ align :=
      Nat.mod_mod_of_dvd x (Nat.pow_dvd_pow 2 hal)
    have h2 := Nat.div_add_mod (x % U32) (2 ^ align)
    rw [h1] at h2
    have h3 : x % U32 - x % 2 ^ align + 2 ^ align = 2 ^ align * (x % U32 / 2 ^ align + 1) := by
      rw [Nat.mul_add, Nat.mul_one]
      omega
    rw [h3]
    exact Nat.mul_mod_right _ _
  · simpa using h

theorem area_block_lt {W ptr ms total size align i : Nat} (hbuf : ptr + ms < PTR W)
    (hal : align ≤ 7) (hfit : total * (W + size) ≤ ms) (hi : i < total)
    (hmul : size % 2 ^ align = 0) (hpos : 0 < size) :
    align_address W align ((2 ^ align - 1) % U32) ((ptr + (W * total) % PTR W) % PTR W)
      + i * size < PTR W := by
  have h1 : W * total + (i * size + size) ≤ ms := by
    have h2 : (i + 1) * size ≤ total * size := Nat.mul_le_mul_right _ hi
    have h3 : total * (W + size) = W * total + total * size := by ring
    have h4 : (i + 1) * size = i * size + size := by ring
    omega
  have hx : (ptr + (W * total) % PTR W) % PTR W = ptr + W * total := by
    rw [Nat.mod_eq_of_lt (by omega : W * total < PTR W)]
    exact Nat.mod_eq_of_lt (by omega)
  rw [hx, align_address_eq W align _ (by omega)]
  have hp : 0 < 2 ^ align := Nat.two_pow_pos align
  have hp7 : 2 ^ align ≤ 128 := Nat.pow_le_pow_right (by norm_num) hal
  have hps : 2 ^ align ≤ size := Nat.le_of_dvd hpos (Nat.dvd_of_mod_eq_zero hmul)
  have hU : U32 = 4294967296 := rfl
  split_ifs with h
  · have hm1 : (ptr + W * total) % 2 ^ align ≤ ptr + W * total := Nat.mod_le _ _
    by_cases hx32 : ptr + W * total < U32
    · rw [Nat.mod_eq_of_lt hx32]
      have hle := Nat.mod_le (ptr + W * total - (ptr + W * total) % 2 ^ align + 2 ^ align)
        (PTR W)
      omega
    · have hP : 2 ^ 40 ≤ PTR W := PTR_large (by omega)
      have hle := Nat.mod_le
        ((ptr + W * total) % U32 - (ptr + W * total) % 2 ^ align + 2 ^ align) (PTR W)
      have hm2 : (ptr + W * total) % U32 < U32 := Nat.mod_lt _ U32_pos
      omega
  · omega

theorem create_size_aligned {W : Nat} {v v1 : vblock_t E} {size align ptr ms : Nat}
    {mem mem1 : Mem} (hal : align ≤ 7) (hsz : 1 ≤ size) (hround : size + (2 ^ align - 1) < U32)
    (h : vblock_create W v size align ptr ms mem = some (VBLOCK_RET_SUCCESS, v1, mem1)) :
    v1.size % 2 ^ align = 0 ∧ size ≤ v1.size := by
  rw [create_size h, and_mask size align (by omega), and_not32_mask size align (by omega)]
  clear h
  unfold U32 at hround ⊢
  interval_cases align <;> simp only [Nat.reducePow, Nat.reduceSub, Nat.add_zero] at hround ⊢ <;>
    (split_ifs <;> omega)

theorem alloc_layout {W : Nat} {v v1 : vblock_t E} {mem : Mem} {env env1 : E} {wait : Nat}
    {ret : Int} {a : Option Nat}
    (h : vblock_alloc W v mem env wait = some (ret, a, v1, env1)) :
    v1.area = v.area ∧ v1.size = v.size := by
  unfold vblock_alloc at h
  simp only [] at h
  split_ifs at h with h1 h2 h3 h4
  · simp only [Option.some.injEq, Prod.mk.injEq] at h
    obtain ⟨_, _, rfl, _⟩ := h
    exact ⟨rfl, rfl⟩
  · simp only [Option.some.injEq, Prod.mk.injEq] at h
    obtain ⟨_, _, rfl, _⟩ := h
    exact ⟨rfl, rfl⟩
  · split at h
    · exact absurd h (by simp)
    · simp only [Option.some.injEq, Prod.mk.injEq] at h
      obtain ⟨_, _, rfl, _⟩ := h
      exact ⟨rfl, rfl⟩
  · simp only [Option.some.injEq, Prod.mk.injEq] at h
    obtain ⟨_, _, rfl, _⟩ := h
    exact ⟨rfl, rfl⟩

theorem free_layout {W : Nat} {v v1 : vblock_t E} {mem mem1 : Mem} {env env1 : E} {addr : Nat}
    {ret : Int}
    (h : vblock_free W v mem env addr = some (ret, v1, mem1, env1)) :
    v1.area = v.area ∧ v1.size = v.size := by
  unfold vblock_free at h
  simp only [] at h
  split_ifs at h with h1 h2 h3 h4
  · simp only [Option.some.injEq, Prod.mk.injEq] at h
    obtain ⟨_, rfl, _, _⟩ := h
    exact ⟨rfl, rfl⟩
  · simp only [Option.some.injEq, Prod.mk.injEq] at h
    obtain ⟨_, rfl, _, _⟩ := h
    exact ⟨rfl, rfl⟩
  · simp only [Option.some.injEq, Prod.mk.injEq] at h
    obtain ⟨_, rfl, _, _⟩ := h
    exact ⟨rfl, rfl⟩
  · simp only [Option.some.injEq, Prod.mk.injEq] at h
    obtain ⟨_, rfl, _, _⟩ := h
    exact ⟨rfl, rfl⟩

theorem call_layout {W : Nat} {s s1 : Sys E} {op : Op E} {ret : Int}
    (h : s.call W op = some (ret, s1)) :
    s1.v.area = s.v.area ∧ s1.v.size = s.v.size ∧ s1.v.total = s.v.total := by
  refine ⟨?_, ?_, (call_counters h).1⟩
  all_goals
    cases op with
    | alloc wait =>
      simp only [Sys.call] at h
      split at h
      · exact absurd h (by simp)
      · rename_i r a v1 env1 heq
        simp only [Option.some.injEq, Prod.mk.injEq] at h
        obtain ⟨_, rfl⟩ := h
        first | exact (alloc_layout heq).1 | exact (alloc_layout heq).2
      · rename_i r v1 env1 heq
        simp only [Option.some.injEq, Prod.mk.injEq] at h
        obtain ⟨_, rfl⟩ := h
        first | exact (alloc_layout heq).1 | exact (alloc_layout heq).2
    | free addr =>
      simp only [Sys.call] at h
      split at h
      · exact absurd h (by simp)
      · rename_i r v1 mem1 env1 heq
        simp only [Option.some.injEq, Prod.mk.injEq] at h
        obtain ⟨_, rfl⟩ := h
        first | exact (free_layout heq).1 | exact (free_layout heq).2
    | add_mtx get put =>
      simp only [Sys.call, Option.some.injEq, Prod.mk.injEq] at h
      obtain ⟨_, rfl⟩ := h
      unfold vblock_add_mtx
      split <;> rfl
    | add_sem get put =>
      simp only [Sys.call, Option.some.injEq, Prod.mk.injEq] at h
      obtain ⟨_, rfl⟩ := h
      unfold vblock_add_sem
      split <;> rfl

theorem layout_run_valid {W : Nat} :
    ∀ (ops : List (Op E)) (s s2 : Sys E), Sys.run_valid W s ops = some s2 →
      s2.v.area = s.v.area ∧ s2.v.size = s.v.size ∧ s2.v.total = s.v.total
  | [], s, s2, hr => by
    simp only [Sys.run_valid, Option.some.injEq] at hr
    subst hr
    exact ⟨rfl, rfl, rfl⟩
  | op :: ops, s, s2, hr => by
    obtain ⟨_, ret, s1, hcall, hrest⟩ := run_valid_cons hr
    obtain ⟨h1, h2, h3⟩ := call_layout hcall
    obtain ⟨h4, h5, h6⟩ := layout_run_valid ops s1 s2 hrest
    exact ⟨h4.trans h1, h5.trans h2, h6.trans h3⟩

/-- C22 as stated fails.  With 4-byte pointers the request `size = 0xFFFFFFFF`, `align = 0`
(no rounding takes place) on a buffer of 30 bytes at `4096` makes `sizeof(void *) + size` wrap to
`3`: `vblock_create` returns `VBLOCK_RET_SUCCESS` with `total = 10` and `area = 4136`, and the
second of two `vblock_alloc` calls stores the address `4135`, which is below `area`. -/
theorem block_range_fails_for_wrapped_word :
    (1 ≤ 0xFFFFFFFF ∧ 0xFFFFFFFF + (2 ^ 0 - 1) < U32 ∧ 0 ≤ 7) ∧
    ((created 4 zero_pool 0xFFFFFFFF 0 4096 30 zero_mem ()).bind fun s0 =>
        (Sys.run_valid 4 s0 [Op.alloc 0, Op.alloc 0]).map fun s =>
          (s0.v.area, s0.v.size, s0.v.total, s.out))
      = some (4136, 0xFFFFFFFF, 10, [4135, 4136]) ∧
    ¬ (4136 ≤ 4135) := by
  decide

/-- C22, amended (alignment of the blocks).  After a successful `vblock_create` with a valid
buffer, `size >= 1` whose rounding does not overflow, `align` in `0..7`, and a stored size for
which `sizeof(void *) + size` does not wrap: `area` and the stored size are multiples of
`2 ^ align`, and in every pool reached by `vblock_alloc` calls and `vblock_free` calls on
outstanding blocks, an address stored by a further `vblock_alloc` is a multiple of `2 ^ align`
and lies in `[area, area + total * size)`. -/
theorem block_alignment (W : Nat) (v : vblock_t E) (size align memory_ptr memory_size : Nat)
    (mem : Mem) (env : E) (s0 s : Sys E) (ops : List (Op E))
    (hW : 4 ≤ W) (hptr : 0 < memory_ptr) (hbuf : memory_ptr + memory_size < PTR W)
    (hms : memory_size < U32) (hsz : 1 ≤ size) (hround : size + (2 ^ align - 1) < U32)
    (hal : align ≤ 7)
    (hc : created W v size align memory_ptr memory_size mem env = some s0)
    (hword : W + s0.v.size < PTR W)
    (hr : Sys.run_valid W s0 ops = some s) :
    2 ^ align ∣ s0.v.area ∧ 2 ^ align ∣ s0.v.size ∧
    (s.v.area = s0.v.area ∧ s.v.size = s0.v.size ∧ s.v.total = s0.v.total) ∧
    ∀ (wait : Nat) (ret : Int) (a : Nat) (v1 : vblock_t E) (env1 : E),
      vblock_alloc W s.v s.mem s.env wait = some (ret, some a, v1, env1) →
      2 ^ align ∣ a ∧ s.v.area ≤ a ∧ a < s.v.area + s.v.total * s.v.size := by
  obtain ⟨hcr, _, _⟩ := created_eq hc
  obtain ⟨hsm, hsle⟩ := create_size_aligned hal hsz hround hcr
  have hsize : 0 < s0.v.size := by omega
  have harea := create_area hcr
  have hda : 2 ^ align ∣ s0.v.area := by
    rw [harea]
    exact Nat.dvd_of_mod_eq_zero (align_address_dvd W align _ hW (by omega))
  have hds : 2 ^ align ∣ s0.v.size := Nat.dvd_of_mod_eq_zero hsm
  obtain ⟨fl, hinv⟩ := inv_run_valid ops s0 s _ (inv_created hW hptr hbuf hms hc hsize hword) hr
  obtain ⟨ha, hs, ht⟩ := layout_run_valid ops s0 s hr
  refine ⟨hda, hds, ⟨ha, hs, ht⟩, ?_⟩
  intro wait ret a v1 env1 h
  cases fl with
  | nil =>
    rw [alloc_empty hinv.base] at h
    simp at h
  | cons i t =>
    rw [alloc_cons hinv.base] at h
    simp only [Option.some.injEq, Prod.mk.injEq] at h
    obtain ⟨_, rfl, _, _⟩ := h
    have hi : i < s.v.total := hinv.base.hlt i (List.mem_cons_self _ _)
    have hfit := hinv.base.hfit
    rw [ha, hs, ht] at *
    have hlt : s0.v.area + i * s0.v.size < PTR W := by
      rw [harea]
      exact area_block_lt hbuf hal hfit hi hsm hsize
    rw [Nat.mod_eq_of_lt hlt]
    refine ⟨Nat.dvd_add hda (Dvd.dvd.mul_left hds i), Nat.le_add_right _ _, ?_⟩
    have : i * s0.v.size < s0.v.total * s0.v.size := Nat.mul_lt_mul_of_pos_right hi hsize
    omega

/-- Witness of C22 (amended): the sizing-example pool, `align = 3`, after a run of valid
calls. -/
theorem block_alignment_witness :
    ∃ s0 s, created 8 zero_pool 16 3 4096 128 zero_mem () = some s0 ∧
      Sys.run_valid 8 s0 [Op.alloc 0, Op.alloc 0, Op.free 4136, Op.alloc 0] = some s ∧
      (2 ^ 3 ∣ s0.v.area ∧ 2 ^ 3 ∣ s0.v.size ∧
        (s.v.area = s0.v.area ∧ s.v.size = s0.v.size ∧ s.v.total = s0.v.total) ∧
        ∀ (wait : Nat) (ret : Int) (a : Nat) (v1 : vblock_t Unit) (env1 : Unit),
          vblock_alloc 8 s.v s.mem s.env wait = some (ret, some a, v1, env1) →
          2 ^ 3 ∣ a ∧ s.v.area ≤ a ∧ a < s.v.area + s.v.total * s.v.size) := by
  have h : ((created 8 zero_pool 16 3 4096 128 zero_mem ()).bind (fun s0 =>
      Sys.run_valid 8 s0 [Op.alloc 0, Op.alloc 0, Op.free 4136, Op.alloc 0])).isSome = true := by
    decide
  obtain ⟨s, hs⟩ := Option.isSome_iff_exists.mp h
  obtain ⟨s0, h0, h1⟩ := Option.bind_eq_some.mp hs
  have hsz : s0.v.size = 16 := created_eval (fun s => s.v.size) h0 (by decide)
  exact ⟨s0, s, h0, h1, block_alignment 8 zero_pool 16 3 4096 128 zero_mem () s0 s _
    (by decide) (by decide) (by decide) (by decide) (by decide) (by decide) (by decide) h0
    (by rw [hsz]; decide) h1⟩

/-! ## The one-step correction of the block count -/

theorem create_total {W : Nat} {v v1 : vblock_t E} {size align ptr ms : Nat} {mem mem1 : Mem}
    (h : vblock_create W v size align ptr ms mem = some (VBLOCK_RET_SUCCESS, v1, mem1)) :
    (v1.total = ms / ((W + v1.size) % PTR W) % U32 ∧
      ¬ (v1.area + (v1.total * v1.size) % U32) % PTR W > (ptr + ms) % PTR W) ∨
    v1.total + 1 = ms / ((W + v1.size) % PTR W) % U32 := by
  unfold vblock_create at h
  simp only [] at h
  generalize (if size &&& (2 ^ align - 1) % U32 ≠ 0
      then ((size &&& not32 ((2 ^ align - 1) % U32)) + 2 ^ align) % U32 else size) = sz at h
  generalize hcount : ms / ((W + sz) % PTR W) % U32 = count at h
  split_ifs at h with h1 h2 h3 h4
  · simp [VBLOCK_RET_NOBLOCK, VBLOCK_RET_SUCCESS] at h
  · simp [VBLOCK_RET_NOBLOCK, VBLOCK_RET_SUCCESS] at h
  · simp only [Option.some.injEq, Prod.mk.injEq, true_and] at h
    obtain ⟨rfl, rfl⟩ := h
    right
    simp only [hcount]
    omega
  · simp only [Option.some.injEq, Prod.mk.injEq, true_and] at h
    obtain ⟨rfl, rfl⟩ := h
    left
    simp only [hcount, true_and]
    exact h3

theorem create_layout {W : Nat} {v v1 : vblock_t E} {size align ptr ms : Nat} {mem mem1 : Mem}
    (hW : 4 ≤ W) (hal : align ≤ 7) (hsz : 1 ≤ size) (hround : size + (2 ^ align - 1) < U32)
    (hlow : ptr + ms + 2 ^ align ≤ U32) (hword : W + v1.size < PTR W)
    (h : vblock_create W v size align ptr ms mem = some (VBLOCK_RET_SUCCESS, v1, mem1)) :
    1 ≤ v1.total ∧ ptr + W * v1.total ≤ v1.area ∧
      v1.area + v1.total * v1.size ≤ ptr + ms := by
  have hP := U32_le_PTR hW
  have hU : U32 = 4294967296 := rfl
  have hp : 0 < 2 ^ align := Nat.two_pow_pos align
  obtain ⟨hsm, hsle⟩ := create_size_aligned hal hsz hround h
  have hps : 2 ^ align ≤ v1.size := Nat.le_of_dvd (by omega) (Nat.dvd_of_mod_eq_zero hsm)
  obtain ⟨_, hpos, hlt⟩ := create_counters h
  have harea := create_area h
  have hcnt : ms / ((W + v1.size) % PTR W) % U32 = ms / (W + v1.size) := by
    rw [Nat.mod_eq_of_lt hword]
    exact Nat.mod_eq_of_lt (lt_of_le_of_lt (Nat.div_le_self _ _) (by omega))
  have hdiv : ms / (W + v1.size) * (W + v1.size) ≤ ms := Nat.div_mul_le_self _ _
  have hexp : v1.total * (W + v1.size) = W * v1.total + v1.total * v1.size := by ring
  have hx : ∀ n, W * n ≤ ms → (ptr + (W * n) % PTR W) % PTR W = ptr + W * n := by
    intro n hn
    rw [Nat.mod_eq_of_lt (by omega : W * n < PTR W)]
    exact Nat.mod_eq_of_lt (by omega)
  have hm1 : (ptr + W * v1.total) % 2 ^ align ≤ ptr + W * v1.total := Nat.mod_le _ _
  have hm2 : (ptr + W * v1.total) % 2 ^ align < 2 ^ align := Nat.mod_lt _ hp
  rcases create_total h with ⟨ht, hov⟩ | ht
  · rw [hcnt] at ht
    rw [← ht] at hdiv
    have hfit : W * v1.total + v1.total * v1.size ≤ ms := by omega
    rw [hx _ (by omega), align_address_eq W align _ (by omega)] at harea
    rw [Nat.mod_eq_of_lt (by omega : ptr + W * v1.total < U32)] at harea
    have hts : v1.total * v1.size % U32 = v1.total * v1.size := Nat.mod_eq_of_lt (by omega)
    rw [hts, Nat.mod_eq_of_lt (by omega : ptr + ms < PTR W)] at hov
    split_ifs at harea with hr
    · rw [Nat.mod_eq_of_lt (by omega)] at harea
      rw [Nat.mod_eq_of_lt (by omega)] at hov
      omega
    · rw [Nat.mod_eq_of_lt (by omega)] at hov
      omega
  · rw [hcnt] at ht
    rw [← ht] at hdiv
    have hexp2 : (v1.total + 1) * (W + v1.size)
        = W * v1.total + v1.total * v1.size + (W + v1.size) := by ring
    have hfit : W * v1.total + v1.total * v1.size + (W + v1.size) ≤ ms := by omega
    rw [hx _ (by omega), align_address_eq W align _ (by omega)] at harea
    rw [Nat.mod_eq_of_lt (by omega : ptr + W * v1.total < U32)] at harea
    split_ifs at harea with hr
    · rw [Nat.mod_eq_of_lt (by omega)] at harea
      omega
    · omega

/-- C21 fails on the code (the alignment step truncates the address; the defect of C12).  With
8-byte pointers, a word-aligned buffer of 128 bytes at `0x100000000`, `size = 16` and
`align = 4`, `vblock_create` returns `VBLOCK_RET_SUCCESS` with `total = 5` and `area = 0x30`:
the index region ends at `0x100000028`, which is not at or before `area`, and `area` is not in
the buffer. -/
theorem create_area_below_index :
    (0x100000000 % 8 = 0 ∧ 0x100000000 + 128 < PTR 8) ∧
    (vblock_create 8 zero_pool 16 4 0x100000000 128 zero_mem).map
        (fun r => (r.1, r.2.1.size, r.2.1.total, r.2.1.area))
      = some (VBLOCK_RET_SUCCESS, 16, 5, 0x30) ∧
    ¬ (0x100000000 + 8 * 5 ≤ 0x30) := by
  decide

/-- C23 fails on the code (error returns of `vblock_free` keep the mutex).  The sizing-example
pool with the mutex of `LockEnv` attached, not held.  On the idle pool `vblock_free` returns
`VBLOCK_RET_OTHERS` and the mutex is held after the call, `mtx_put` not called.  After one
`vblock_alloc` (which calls `mtx_put` once), `vblock_free` of the out-of-range address `4232`
returns `-1` and the mutex is held, `mtx_put` not called again; while `vblock_free` of the block
`4136` returns `VBLOCK_RET_SUCCESS` with the mutex released by a second `mtx_put`. -/
theorem free_error_returns_keep_mutex :
    ((created_lock 8 zero_pool_lock 16 3 4096 128 zero_mem).bind fun s0 =>
        (vblock_free 8 s0.v s0.mem s0.env 4136).map fun r =>
          (r.1, r.2.2.2.held, r.2.2.2.puts))
      = some (VBLOCK_RET_OTHERS, true, 0) ∧
    ((created_lock 8 zero_pool_lock 16 3 4096 128 zero_mem).bind fun s0 =>
        (Sys.run 8 s0 [Op.alloc 0, Op.free 4232]).map fun r =>
          (r.1, r.2.env.held, r.2.env.puts))
      = some ([VBLOCK_RET_SUCCESS, -1], true, 1) ∧
    ((created_lock 8 zero_pool_lock 16 3 4096 128 zero_mem).bind fun s0 =>
        (Sys.run 8 s0 [Op.alloc 0, Op.free 4136]).map fun r =>
          (r.1, r.2.env.held, r.2.env.puts))
      = some ([VBLOCK_RET_SUCCESS, VBLOCK_RET_SUCCESS], false, 2) := by
  decide

/-! ## Permits and free blocks -/

theorem sem_get_host_fail {wait : Nat} {e : SemEnv × M} (h : (sem_get_host wait e).1 ≠ 0) :
    (sem_get_host wait e).2 = e := by
  unfold sem_get_host sem_get_permit at h ⊢
  by_cases hp : e.1.permits = 0
  · simp [hp]
  · simp [hp] at h

theorem sem_get_host_ok {wait : Nat} {e : SemEnv × M} (h : ¬ (sem_get_host wait e).1 ≠ 0) :
    e.1.permits ≠ 0 ∧
    (sem_get_host wait e).2 = ({ permits := e.1.permits - 1, capacity := e.1.capacity }, e.2) := by
  unfold sem_get_host sem_get_permit at h ⊢
  by_cases hp : e.1.permits = 0
  · simp [hp] at h
  · simp [hp]

theorem permit_alloc {W : Nat} {v v1 : vblock_t (SemEnv × M)} {mem mem1 : Mem}
    {env env1 : SemEnv × M} {out out1 : List Nat} {wait : Nat} {ret : Int} {a : Option Nat}
    (h : PermitInv { v := v, mem := mem, env := env, out := out })
    (hc : vblock_alloc W v mem env wait = some (ret, a, v1, env1)) :
    PermitInv { v := v1, mem := mem1, env := env1, out := out1 } := by
  obtain ⟨hsg, hsp, hmg, hmp, hperm, hcap, hle, htot⟩ := h
  simp only at hsg hsp hmg hmp hperm hcap hle htot
  unfold vblock_alloc at hc
  simp only [] at hc
  have hs : call_get v.sem_get wait env = sem_get_host wait env := by rw [hsg]; rfl
  rw [hs] at hc
  have hm1 := hmg CONFIG_VBLOCK_TIMEOUT (sem_get_host wait env).2
  generalize call_get v.mtx_get CONFIG_VBLOCK_TIMEOUT (sem_get_host wait env).2 = mr at hc hm1
  split_ifs at hc with h1 h2 h3 h4
  · simp only [Option.some.injEq, Prod.mk.injEq] at hc
    obtain ⟨_, _, rfl, rfl⟩ := hc
    rw [sem_get_host_fail h1]
    exact ⟨hsg, hsp, hmg, hmp, hperm, hcap, hle, htot⟩
  · obtain ⟨hp, _⟩ := sem_get_host_ok h1
    exact absurd (hperm.trans h2) hp
  · rw [hsp] at hc
    simp only [Option.some.injEq, Prod.mk.injEq] at hc
    obtain ⟨_, _, rfl, rfl⟩ := hc
    obtain ⟨hp, he⟩ := sem_get_host_ok h1
    rw [he] at hm1
    simp only at hm1
    refine ⟨hsg, rfl, hmg, hmp, ?_, ?_, hle, htot⟩
    · simp only [sem_put_host, sem_put_permit, hm1]
      have : env.1.permits - 1 < env.1.capacity := by omega
      simp only [if_pos this]
      omega
    · simp only [sem_put_host, sem_put_permit, hm1]
      split_ifs <;> exact hcap
  · simp only [Option.some.injEq, Prod.mk.injEq] at hc
    obtain ⟨_, _, rfl, rfl⟩ := hc
    obtain ⟨hp, he⟩ := sem_get_host_ok h1
    rw [he] at hm1
    simp only at hm1
    refine ⟨hsg, hsp, hmg, hmp, ?_, ?_, ?_, htot⟩
    · simp only [hmp, hm1]
      omega
    · simp only [hmp, hm1]
      exact hcap
    · simp only
      omega

theorem permit_free {W : Nat} {v v1 : vblock_t (SemEnv × M)} {mem mem1 mem2 : Mem}
    {env env1 : SemEnv × M} {out out1 : List Nat} {addr : Nat} {ret : Int}
    (h : PermitInv { v := v, mem := mem, env := env, out := out })
    (hc : vblock_free W v mem env addr = some (ret, v1, mem1, env1)) :
    PermitInv { v := v1, mem := mem2, env := env1, out := out1 } := by
  obtain ⟨hsg, hsp, hmg, hmp, hperm, hcap, hle, htot⟩ := h
  simp only at hsg hsp hmg hmp hperm hcap hle htot
  unfold vblock_free at hc
  simp only [] at hc
  have hm1 := hmg CONFIG_VBLOCK_TIMEOUT env
  generalize call_get v.mtx_get CONFIG_VBLOCK_TIMEOUT env = mr at hc hm1
  split_ifs at hc with h1 h2 h3 h4
  · simp only [Option.some.injEq, Prod.mk.injEq] at hc
    obtain ⟨_, rfl, _, rfl⟩ := hc
    exact ⟨hsg, hsp, hmg, hmp, by simp only [hm1]; exact hperm, by simp only [hm1]; exact hcap,
      hle, htot⟩
  · simp only [Option.some.injEq, Prod.mk.injEq] at hc
    obtain ⟨_, rfl, _, rfl⟩ := hc
    exact ⟨hsg, hsp, hmg, hmp, by simp only [hm1]; exact hperm, by simp only [hm1]; exact hcap,
      hle, htot⟩
  · simp only [Option.some.injEq, Prod.mk.injEq] at hc
    obtain ⟨_, rfl, _, rfl⟩ := hc
    exact ⟨hsg, hsp, hmg, hmp, by simp only [hm1]; exact hperm, by simp only [hm1]; exact hcap,
      hle, htot⟩
  · simp only [Option.some.injEq, Prod.mk.injEq] at hc
    obtain ⟨_, rfl, _, rfl⟩ := hc
    have hlt : v.free < v.total := by omega
    have hf : (v.free + 1) % U32 = v.free + 1 := Nat.mod_eq_of_lt (by omega)
    have hput : call_put v.sem_put (call_put v.mtx_put mr.2)
        = sem_put_host (call_put v.mtx_put mr.2) := by rw [hsp]; rfl
    refine ⟨hsg, hsp, hmg, hmp, ?_, ?_, ?_, htot⟩
    · simp only [hput, sem_put_host, sem_put_permit, hmp, hm1, hf]
      have : env.1.permits < env.1.capacity := by omega
      simp only [if_pos this]
      omega
    · simp only [hput, sem_put_host, sem_put_permit, hmp, hm1]
      split_ifs <;> exact hcap
    · simp only [hf]
      omega

theorem permit_call {W : Nat} {s s1 : Sys (SemEnv × M)} {op : Op (SemEnv × M)} {ret : Int}
    (h : PermitInv s) (hop : op.is_call = true) (hc : s.call W op = some (ret, s1)) :
    PermitInv s1 := by
  cases op with
  | alloc wait =>
    simp only [Sys.call] at hc
    split at hc
    · exact absurd hc (by simp)
    · rename_i r a v1 env1 heq
      simp only [Option.some.injEq, Prod.mk.injEq] at hc
      obtain ⟨_, rfl⟩ := hc
      exact permit_alloc h heq
    · rename_i r v1 env1 heq
      simp only [Option.some.injEq, Prod.mk.injEq] at hc
      obtain ⟨_, rfl⟩ := hc
      exact permit_alloc h heq
  | free addr =>
    simp only [Sys.call] at hc
    split at hc
    · exact absurd hc (by simp)
    · rename_i r v1 mem1 env1 heq
      simp only [Option.some.injEq, Prod.mk.injEq] at hc
      obtain ⟨_, rfl⟩ := hc
      exact permit_free h heq
  | add_mtx get put => simp [Op.is_call] at hop
  | add_sem get put => simp [Op.is_call] at hop

theorem permit_run {W : Nat} :
    ∀ (ops : List (Op (SemEnv × M))) (s s2 : Sys (SemEnv × M)) (rets : List Int),
      PermitInv s → (∀ op ∈ ops, op.is_call = true) → Sys.run W s ops = some (rets, s2) →
      PermitInv s2
  | [], s, s2, rets, h, _, hr => by
    simp only [Sys.run, Option.some.injEq, Prod.mk.injEq] at hr
    obtain ⟨_, rfl⟩ := hr
    exact h
  | op :: ops, s, s2, rets, h, hops, hr => by
    obtain ⟨ret, s1, rest, hcall, hrest, _⟩ := run_cons hr
    exact permit_run ops s1 s2 rest
      (permit_call h (hops op (List.mem_cons_self _ _)) hcall)
      (fun o ho => hops o (List.mem_cons_of_mem _ ho)) hrest

theorem permit_created {W : Nat} {v : vblock_t (SemEnv × M)} {size align ptr ms : Nat}
    {mem : Mem} {get : Option (Nat → M → Int × M)} {put : Option (M → M)} {m0 : M}
    {s0 : Sys (SemEnv × M)}
    (hc : created_sem W v size align ptr ms mem get put m0 = some s0) : PermitInv s0 := by
  unfold created_sem at hc
  split at hc
  · rename_i r v1 mem1 heq
    split_ifs at hc with hr
    subst hr
    obtain ⟨hf, _, hlt⟩ := create_counters heq
    simp only [Option.some.injEq] at hc
    subst hc
    have hsem : (vblock_add_sem v1 (some sem_get_host) (some (sem_put_host : SemEnv × M → _))).2
        = { v1 with sem_get := some sem_get_host, sem_put := some sem_put_host } := rfl
    rw [hsem]
    cases get with
    | none =>
      exact ⟨rfl, rfl, fun _ _ => rfl, fun _ => rfl, hf.symm, rfl, by simp [vblock_add_mtx, hf],
        by simpa [vblock_add_mtx] using hlt⟩
    | some g =>
      cases put with
      | none =>
        exact ⟨rfl, rfl, fun _ _ => rfl, fun _ => rfl, hf.symm, rfl,
          by simp [vblock_add_mtx, hf], by simpa [vblock_add_mtx] using hlt⟩
      | some p =>
        exact ⟨rfl, rfl, fun _ _ => rfl, fun _ => rfl, hf.symm, rfl,
          by simp [vblock_add_mtx, hf], by simpa [vblock_add_mtx] using hlt⟩
  · exact absurd hc (by simp)

/-! ## Every call returns -/

theorem iterate_store (mem : Mem) (node head : Nat) :
    ∀ k, ∃ j, j ≤ k ∧ Nat.iterate (store mem node head) k head = Nat.iterate mem j head
  | 0 => ⟨0, le_refl _, rfl⟩
  | k + 1 => by
    obtain ⟨j, hj, he⟩ := iterate_store mem node head k
    rw [Function.iterate_succ_apply', he]
    by_cases hn : Nat.iterate mem j head = node
    · exact ⟨0, Nat.zero_le _, by rw [hn, store_same]; rfl⟩
    · exact ⟨j + 1, by omega, by rw [store_other _ _ hn, Function.iterate_succ_apply']⟩

theorem chain_iterate {W ptr : Nat} {mem : Mem} (hptr : 0 < ptr) :
    ∀ (fl : List Nat) (head : Nat), Chain W ptr mem head fl →
      ∀ k, k < fl.length → Nat.iterate mem k head ≠ 0
  | [], _, _, k, hk => by simp at hk
  | i :: t, head, h, k, hk => by
    obtain ⟨h1, h2⟩ := h
    cases k with
    | zero =>
      simp only [Function.iterate_zero, id_eq]
      omega
    | succ k =>
      rw [Function.iterate_succ_apply]
      exact chain_iterate hptr t _ h2 k (by simpa using hk)

theorem live_alloc {W ptr : Nat} {v : vblock_t E} {mem : Mem} {env : E} {out : List Nat}
    (h : LiveInv W ptr { v := v, mem := mem, env := env, out := out })
    (hsp : v.sem_put ≠ none) (wait : Nat) :
    ∃ ret a v1 env1, vblock_alloc W v mem env wait = some (ret, a, v1, env1) ∧
      ∀ out1, LiveInv W ptr { v := v1, mem := mem, env := env1, out := out1 } := by
  obtain ⟨hptr, hnode, hslots, hsize, hheads⟩ := h
  simp only at hnode hslots hsize hheads
  unfold vblock_alloc
  simp only []
  split_ifs with h1 h2 h3 h4
  · exact ⟨_, _, _, _, rfl, fun _ => ⟨hptr, hnode, hslots, hsize, hheads⟩⟩
  · exact ⟨_, _, _, _, rfl, fun _ => ⟨hptr, hnode, hslots, hsize, hheads⟩⟩
  · cases hput : v.sem_put with
    | none => exact absurd hput hsp
    | some put => exact ⟨_, _, _, _, rfl, fun _ => ⟨hptr, hnode, hslots, hsize, hheads⟩⟩
  · exact absurd h4 (hheads 0 (by omega))
  · refine ⟨_, _, _, _, rfl, fun _ => ⟨hptr, hnode, hslots, hsize, ?_⟩⟩
    intro k hk
    simp only at hk ⊢
    rw [← Function.iterate_succ_apply]
    exact hheads (k + 1) (by omega)

theorem live_free {W ptr : Nat} {v : vblock_t E} {mem : Mem} {env : E} {out : List Nat}
    (h : LiveInv W ptr { v := v, mem := mem, env := env, out := out })
    (hle : v.free ≤ v.total) (htot : v.total < U32) (addr : Nat) :
    ∃ ret v1 mem1 env1, vblock_free W v mem env addr = some (ret, v1, mem1, env1) ∧
      ∀ out1, LiveInv W ptr { v := v1, mem := mem1, env := env1, out := out1 } := by
  obtain ⟨hptr, hnode, hslots, hsize, hheads⟩ := h
  simp only at hnode hslots hsize hheads
  unfold vblock_free
  simp only []
  split_ifs with h1 h2 h3
  · exact ⟨_, _, _, _, rfl, fun _ => ⟨hptr, hnode, hslots, hsize, hheads⟩⟩
  · exact ⟨_, _, _, _, rfl, fun _ => ⟨hptr, hnode, hslots, hsize, hheads⟩⟩
  · exact ⟨_, _, _, _, rfl, fun _ => ⟨hptr, hnode, hslots, hsize, hheads⟩⟩
  · refine ⟨_, _, _, _, rfl, fun _ => ⟨hptr, hnode, hslots, hsize, ?_⟩⟩
    generalize hidx : subPtr W addr v.area / v.size % U32 = index at h3 ⊢
    have hmul : index * W ≤ v.total * W := Nat.mul_le_mul_right _ (by omega)
    have hcomm : W * v.total = v.total * W := Nat.mul_comm _ _
    have hm : index * W % PTR W = index * W := Nat.mod_eq_of_lt (by omega)
    have hnd : (v.node + index * W % PTR W) % PTR W = ptr + index * W := by
      rw [hnode, hm]
      exact Nat.mod_eq_of_lt (by omega)
    intro k hk
    simp only at hk ⊢
    rw [hnd]
    have hf : (v.free + 1) % U32 = v.free + 1 := Nat.mod_eq_of_lt (by omega)
    rw [hf] at hk
    cases k with
    | zero =>
      simp only [Function.iterate_zero, id_eq]
      omega
    | succ k =>
      rw [Function.iterate_succ_apply, store_same]
      obtain ⟨j, hj, he⟩ := iterate_store mem (ptr + index * W) v.list k
      rw [he]
      exact hheads j (by omega)

theorem live_call {W ptr : Nat} {s : Sys (SemEnv × M)} {op : Op (SemEnv × M)}
    (hp : PermitInv s) (hl : LiveInv W ptr s) (hop : op.is_call = true) :
    ∃ ret s1, s.call W op = some (ret, s1) ∧ LiveInv W ptr s1 := by
  cases op with
  | alloc wait =>
    have hsp : s.v.sem_put ≠ none := by rw [hp.hsp]; simp
    obtain ⟨ret, a, v1, env1, hres, hlive⟩ :=
      @live_alloc _ W ptr s.v s.mem s.env s.out hl hsp wait
    cases a with
    | none =>
      exact ⟨ret, { v := v1, mem := s.mem, env := env1, out := s.out },
        by simp only [Sys.call, hres], hlive _⟩
    | some x =>
      exact ⟨ret, { v := v1, mem := s.mem, env := env1, out := x :: s.out },
        by simp only [Sys.call, hres], hlive _⟩
  | free addr =>
    obtain ⟨ret, v1, mem1, env1, hres, hlive⟩ :=
      @live_free _ W ptr s.v s.mem s.env s.out hl hp.hle hp.htot addr
    exact ⟨ret, { v := v1, mem := mem1, env := env1,
                  out := if ret = VBLOCK_RET_SUCCESS then s.out.erase addr else s.out },
      by simp only [Sys.call, hres], hlive _⟩
  | add_mtx get put => simp [Op.is_call] at hop
  | add_sem get put => simp [Op.is_call] at hop

theorem live_run {W ptr : Nat} :
    ∀ (ops : List (Op (SemEnv × M))) (s : Sys (SemEnv × M)),
      PermitInv s → LiveInv W ptr s → (∀ op ∈ ops, op.is_call = true) →
      ∃ rets s2, Sys.run W s ops = some (rets, s2)
  | [], s, _, _, _ => ⟨[], s, rfl⟩
  | op :: ops, s, hp, hl, hops => by
    have hop := hops op (List.mem_cons_self _ _)
    obtain ⟨ret, s1, hcall, hl1⟩ := live_call hp hl hop
    obtain ⟨rets, s2, hrest⟩ := live_run ops s1 (permit_call hp hop hcall) hl1
      (fun o ho => hops o (List.mem_cons_of_mem _ ho))
    exact ⟨ret :: rets, s2, by simp only [Sys.run, hcall, hrest]⟩

theorem add_mtx_fields (v : vblock_t E) (get : Option (Nat → E → Int × E))
    (put : Option (E → E)) :
    (vblock_add_mtx v get put).2.list = v.list ∧ (vblock_add_mtx v get put).2.node = v.node ∧
    (vblock_add_mtx v get put).2.size = v.size ∧ (vblock_add_mtx v get put).2.total = v.total ∧
    (vblock_add_mtx v get put).2.free = v.free := by
  unfold vblock_add_mtx
  split <;> exact ⟨rfl, rfl, rfl, rfl, rfl⟩

theorem live_created {W : Nat} {v : vblock_t (SemEnv × M)} {size align ptr ms : Nat}
    {mem : Mem} {get : Option (Nat → M → Int × M)} {put : Option (M → M)} {m0 : M}
    {s0 : Sys (SemEnv × M)} (hW : 4 ≤ W) (hptr : 0 < ptr) (hbuf : ptr + ms < PTR W)
    (hms : ms < U32)
    (hc : created_sem W v size align ptr ms mem get put m0 = some s0)
    (hsize : s0.v.size ≠ 0) (hword : W + s0.v.size < PTR W) : LiveInv W ptr s0 := by
  unfold created_sem at hc
  split at hc
  · rename_i r v1 mem1 heq
    split_ifs at hc with hr
    subst hr
    simp only [Option.some.injEq] at hc
    subst hc
    obtain ⟨h1, h2, h3, h4, h5⟩ := add_mtx_fields
      (vblock_add_sem v1 (some sem_get_host) (some (sem_put_host : SemEnv × M → _))).2
      (get.map mtx_get_host) (put.map mtx_put_host)
    have hsize1 : v1.size ≠ 0 := fun h0 => hsize (h3.trans h0)
    have hword1 : W + v1.size < PTR W := by
      have e : v1.size = (vblock_add_mtx
          (vblock_add_sem v1 (some sem_get_host) (some (sem_put_host : SemEnv × M → _))).2
          (get.map mtx_get_host) (put.map mtx_put_host)).2.size := h3.symm
      rw [e]
      exact hword
    obtain ⟨hok, hf, hpos⟩ := create_facts W v size align ptr ms mem v1 mem1 hW hptr hbuf hms
      heq hword1
    have hfit := hok.hfit
    have hmul : v1.total * (W + v1.size) = W * v1.total + v1.total * v1.size := by ring
    refine ⟨hptr, h2.trans hok.hnode, ?_, fun h0 => hsize1 (h3.symm.trans h0), ?_⟩
    · have e : (vblock_add_mtx
          (vblock_add_sem v1 (some sem_get_host) (some (sem_put_host : SemEnv × M → _))).2
          (get.map mtx_get_host) (put.map mtx_put_host)).2.total = v1.total := h4
      simp only [e]
      omega
    · intro k hk
      have e5 : (vblock_add_mtx
          (vblock_add_sem v1 (some sem_get_host) (some (sem_put_host : SemEnv × M → _))).2
          (get.map mtx_get_host) (put.map mtx_put_host)).2.free = v1.free := h5
      have e1 : (vblock_add_mtx
          (vblock_add_sem v1 (some sem_get_host) (some (sem_put_host : SemEnv × M → _))).2
          (get.map mtx_get_host) (put.map mtx_put_host)).2.list = v1.list := h1
      simp only [e5, e1] at hk ⊢
      exact chain_iterate hptr _ _ hok.hchain k (by rw [List.length_range]; omega)
  · exact absurd hc (by simp)

/-- C24 (permits and free blocks agree).  The pool after a successful `vblock_create`, with a
counting semaphore of `total` permits attached at once, and with any mutex (or none), whatever
its acquires return.  After every sequence of `vblock_alloc` and `vblock_free` calls, with any
arguments, the number of permits available is `free`; so whenever the `sem_get` of
`vblock_alloc` succeeds in that state, `free` is not `0` and the test `free == 0` of
`vblock_alloc` is false.  And with a valid buffer and a stored block size that is not `0` and
for which `sizeof(void *) + size` does not wrap, every such sequence runs to its end: no call
divides by zero or reads through `NULL`. -/
theorem permits_eq_free (W : Nat) (v : vblock_t (SemEnv × M))
    (size align memory_ptr memory_size : Nat) (mem : Mem) (get : Option (Nat → M → Int × M))
    (put : Option (M → M)) (m0 : M) (s0 : Sys (SemEnv × M)) (ops : List (Op (SemEnv × M)))
    (hc : created_sem W v size align memory_ptr memory_size mem get put m0 = some s0)
    (hops : ∀ op ∈ ops, op.is_call = true) :
    (∀ rets s, Sys.run W s0 ops = some (rets, s) →
      s.env.1.permits = s.v.free ∧
      ∀ wait, (call_get s.v.sem_get wait s.env).1 = 0 → s.v.free ≠ 0) ∧
    (4 ≤ W → 0 < memory_ptr → memory_ptr + memory_size < PTR W → memory_size < U32 →
      s0.v.size ≠ 0 → W + s0.v.size < PTR W →
      ∃ rets s, Sys.run W s0 ops = some (rets, s)) := by
  refine ⟨fun rets s hr => ?_, fun hW hptr hbuf hms hsize hword =>
    live_run ops s0 (permit_created hc) (live_created hW hptr hbuf hms hc hsize hword) hops⟩
  have h := permit_run ops s0 s rets (permit_created hc) hops hr
  refine ⟨h.hperm, fun wait hw => ?_⟩
  have hs : call_get s.v.sem_get wait s.env = sem_get_host wait s.env := by rw [h.hsg]; rfl
  rw [hs] at hw
  have := (sem_get_host_ok (by simpa using hw)).1
  rw [h.hperm] at this
  exact this

/-- Witness of C24: the sizing-example pool with the semaphore and a mutex that acquires, times
out, and acquires again; two allocs (the second one times out), the free of the block, one more
alloc and a free of an address out of range. -/
theorem permits_eq_free_witness :
    ∃ s0 rets s,
      created_sem 8 zero_pool_host 16 3 4096 128 zero_mem (some mtx_get_script)
        (some mtx_put_script) [true, false, true] = some s0 ∧
      Sys.run 8 s0 [Op.alloc 0, Op.alloc 0, Op.free 4136, Op.alloc 0, Op.free 9999]
        = some (rets, s) ∧
      (s.env.1.permits = s.v.free ∧
        ∀ wait, (call_get s.v.sem_get wait s.env).1 = 0 → s.v.free ≠ 0) := by
  have h : (created_sem 8 zero_pool_host 16 3 4096 128 zero_mem (some mtx_get_script)
      (some mtx_put_script) [true, false, true]).isSome = true := by
    decide
  obtain ⟨s0, h0⟩ := Option.isSome_iff_exists.mp h
  have hsz : s0.v.size = 16 := by
    have hm : (created_sem 8 zero_pool_host 16 3 4096 128 zero_mem (some mtx_get_script)
        (some mtx_put_script) [true, false, true]).map (fun s => s.v.size) = some 16 := by
      decide
    rw [h0] at hm
    simpa using hm
  have T := permits_eq_free 8 zero_pool_host 16 3 4096 128 zero_mem (some mtx_get_script)
    (some mtx_put_script) [true, false, true] s0
    [Op.alloc 0, Op.alloc 0, Op.free 4136, Op.alloc 0, Op.free 9999] h0 (by simp [Op.is_call])
  obtain ⟨rets, s, hr⟩ := T.2 (by decide) (by decide) (by decide) (by decide)
    (by rw [hsz]; decide) (by rw [hsz]; decide)
  exact ⟨s0, rets, s, h0, hr, T.1 rets s hr⟩

/-- The sizing-example pool with the semaphore and the scripted mutex: the results of two
allocs (the second one times out), the free of the block, one more alloc and a free out of range,
and four permits and four free blocks at the end. -/
theorem permits_run_eval :
    ((created_sem 8 zero_pool_host 16 3 4096 128 zero_mem (some mtx_get_script)
        (some mtx_put_script) [true, false, true]).bind fun s0 =>
      (Sys.run 8 s0 [Op.alloc 0, Op.alloc 0, Op.free 4136, Op.alloc 0, Op.free 9999]).map
        fun r => (r.1, r.2.env.1.permits, r.2.v.free, r.2.v.total))
      = some ([0, -4, 0, 0, -1], 4, 4, 5) := by
  decide

/-! ## Rollback on a mutex timeout -/

theorem alloc_hooks {W : Nat} {v v1 : vblock_t E} {mem : Mem} {env env1 : E} {wait : Nat}
    {ret : Int} {a : Option Nat}
    (h : vblock_alloc W v mem env wait = some (ret, a, v1, env1)) :
    v1.mtx_get = v.mtx_get := by
  unfold vblock_alloc at h
  simp only [] at h
  split_ifs at h with h1 h2 h3 h4
  · simp only [Option.some.injEq, Prod.mk.injEq] at h
    obtain ⟨_, _, rfl, _⟩ := h
    rfl
  · simp only [Option.some.injEq, Prod.mk.injEq] at h
    obtain ⟨_, _, rfl, _⟩ := h
    rfl
  · split at h
    · exact absurd h (by simp)
    · simp only [Option.some.injEq, Prod.mk.injEq] at h
      obtain ⟨_, _, rfl, _⟩ := h
      rfl
  · simp only [Option.some.injEq, Prod.mk.injEq] at h
    obtain ⟨_, _, rfl, _⟩ := h
    rfl

theorem free_hooks {W : Nat} {v v1 : vblock_t E} {mem mem1 : Mem} {env env1 : E} {addr : Nat}
    {ret : Int}
    (h : vblock_free W v mem env addr = some (ret, v1, mem1, env1)) :
    v1.mtx_get = v.mtx_get := by
  unfold vblock_free at h
  simp only [] at h
  split_ifs at h with h1 h2 h3 h4
  all_goals
    simp only [Option.some.injEq, Prod.mk.injEq] at h
    obtain ⟨_, rfl, _, _⟩ := h
    rfl

theorem call_hooks {W : Nat} {s s1 : Sys E} {op : Op E} {ret : Int}
    (hop : op.is_call = true) (h : s.call W op = some (ret, s1)) :
    s1.v.mtx_get = s.v.mtx_get := by
  cases op with
  | alloc wait =>
    simp only [Sys.call] at h
    split at h
    · exact absurd h (by simp)
    · rename_i r a v1 env1 heq
      simp only [Option.some.injEq, Prod.mk.injEq] at h
      obtain ⟨_, rfl⟩ := h
      exact alloc_hooks heq
    · rename_i r v1 env1 heq
      simp only [Option.some.injEq, Prod.mk.injEq] at h
      obtain ⟨_, rfl⟩ := h
      exact alloc_hooks heq
  | free addr =>
    simp only [Sys.call] at h
    split at h
    · exact absurd h (by simp)
    · rename_i r v1 mem1 env1 heq
      simp only [Option.some.injEq, Prod.mk.injEq] at h
      obtain ⟨_, rfl⟩ := h
      exact free_hooks heq
  | add_mtx get put => simp [Op.is_call] at hop
  | add_sem get put => simp [Op.is_call] at hop

theorem run_hooks {W : Nat} :
    ∀ (ops : List (Op E)) (s s2 : Sys E) (rets : List Int),
      (∀ op ∈ ops, op.is_call = true) → Sys.run W s ops = some (rets, s2) →
      s2.v.mtx_get = s.v.mtx_get
  | [], s, s2, rets, _, hr => by
    simp only [Sys.run, Option.some.injEq, Prod.mk.injEq] at hr
    obtain ⟨_, rfl⟩ := hr
    rfl
  | op :: ops, s, s2, rets, hops, hr => by
    obtain ⟨ret, s1, rest, hcall, hrest, _⟩ := run_cons hr
    exact (run_hooks ops s1 s2 rest (fun o ho => hops o (List.mem_cons_of_mem _ ho)) hrest).trans
      (call_hooks (hops op (List.mem_cons_self _ _)) hcall)

theorem run_append {W : Nat} :
    ∀ (a b : List (Op E)) (s s2 : Sys E) (rets : List Int),
      Sys.run W s (a ++ b) = some (rets, s2) →
      ∃ r1 s1 r2, Sys.run W s a = some (r1, s1) ∧ Sys.run W s1 b = some (r2, s2)
  | [], b, s, s2, rets, hr => ⟨[], s, rets, rfl, hr⟩
  | op :: a, b, s, s2, rets, hr => by
    rw [List.cons_append] at hr
    obtain ⟨ret, s1, rest, hcall, hrest, _⟩ := run_cons hr
    obtain ⟨r1, s3, r2, h1, h2⟩ := run_append a b s1 s2 rest hrest
    exact ⟨ret :: r1, s3, r2, by simp only [Sys.run, hcall, h1], h2⟩

theorem permit_add_mtx {s : Sys (SemEnv × M)} (h : PermitInv s) (tget : Nat → M → Int × M)
    (tput : M → M) :
    PermitInv { v := (vblock_add_mtx s.v (some (mtx_get_host tget)) (some (mtx_put_host tput))).2,
                mem := s.mem, env := s.env, out := s.out } :=
  ⟨h.hsg, h.hsp, fun _ _ => rfl, fun _ => rfl, h.hperm, h.hcap, h.hle, h.htot⟩

/-- C7 (timeout rollback).  Take a pool with a counting semaphore of `total` permits attached
right after `vblock_create`, in any state reached as follows: `vblock_alloc` / `vblock_free`
calls with any arguments (under any mutex, or none), then `vblock_add_mtx` with a mutex whose
acquire always reports a timeout, then more `vblock_alloc` / `vblock_free` calls.  When that
state has a free block, `vblock_alloc` returns `VBLOCK_RET_TIMEOUT`, stores no address, advances
`perf_timeout` (and `perf_alloc`) by one in `uint32_t` arithmetic, and leaves every other field
of the descriptor (`free`, the list head) and the semaphore (the available permits) as before
the call; it does not write to the memory.  The state need not be idle: blocks may be out. -/
theorem timeout_rollback (W : Nat) (v : vblock_t (SemEnv × M))
    (size align memory_ptr memory_size : Nat) (mem : Mem) (get : Option (Nat → M → Int × M))
    (put : Option (M → M)) (m0 : M) (tget : Nat → M → Int × M) (tput : M → M)
    (s0 s : Sys (SemEnv × M)) (ops1 ops2 : List (Op (SemEnv × M))) (rets : List Int)
    (wait : Nat)
    (hc : created_sem W v size align memory_ptr memory_size mem get put m0 = some s0)
    (htime : ∀ w m, (tget w m).1 ≠ 0)
    (hops1 : ∀ op ∈ ops1, op.is_call = true) (hops2 : ∀ op ∈ ops2, op.is_call = true)
    (hr : Sys.run W s0
        (ops1 ++ Op.add_mtx (some (mtx_get_host tget)) (some (mtx_put_host tput)) :: ops2)
      = some (rets, s))
    (hfree : 0 < s.v.free) :
    vblock_alloc W s.v s.mem s.env wait
      = some (VBLOCK_RET_TIMEOUT, none,
          { s.v with perf_alloc := (s.v.perf_alloc + 1) % U32,
                     perf_timeout := (s.v.perf_timeout + 1) % U32 },
          (s.env.1, (tget CONFIG_VBLOCK_TIMEOUT s.env.2).2)) := by
  obtain ⟨r1, s1, r2, h1, h2⟩ := run_append _ _ _ _ _ hr
  obtain ⟨ret, s2, rest, hcall, hrest, _⟩ := run_cons h2
  simp only [Sys.call, Option.some.injEq, Prod.mk.injEq] at hcall
  obtain ⟨_, rfl⟩ := hcall
  have hp1 := permit_run ops1 s0 s1 r1 (permit_created hc) hops1 h1
  have hp := permit_run ops2 _ s rest (permit_add_mtx hp1 tget tput) hops2 hrest
  have hm : s.v.mtx_get = some (mtx_get_host tget) := run_hooks ops2 _ s rest hops2 hrest
  obtain ⟨hsg, hsp, _, _, hperm, hcap, hle, _⟩ := hp
  have hpos : s.env.1.permits ≠ 0 := by omega
  have hlt : s.env.1.permits - 1 < s.env.1.capacity := by omega
  have hf : s.v.free ≠ 0 := by omega
  have ht := htime CONFIG_VBLOCK_TIMEOUT s.env.2
  have he : ({ permits := s.env.1.permits - 1 + 1, capacity := s.env.1.capacity } : SemEnv)
      = s.env.1 := by
    have : s.env.1.permits - 1 + 1 = s.env.1.permits := by omega
    rw [this]
  simp [vblock_alloc, call_get, hsg, hsp, hm, sem_get_host, sem_get_permit, sem_put_host,
    sem_put_permit, mtx_get_host, hpos, hf, hlt, ht, he]

/-- Witness of C7: the sizing-example pool with the semaphore; two allocs under a mutex that
acquires, then the mutex that always times out is attached, an alloc and a free time out, and
with two blocks out (three free blocks, three permits) the next alloc times out as stated. -/
theorem timeout_rollback_witness :
    ∃ s0 rets s,
      created_sem 8 zero_pool_host 16 3 4096 128 zero_mem (some mtx_get_script)
        (some mtx_put_script) [] = some s0 ∧
      Sys.run 8 s0 ([Op.alloc 0, Op.alloc 0] ++
          Op.add_mtx (some (mtx_get_host mtx_get_busy)) (some (mtx_put_host mtx_put_script)) ::
          [Op.alloc 0, Op.free 4136]) = some (rets, s) ∧
      s.v.free = 3 ∧ s.v.total = 5 ∧ s.env.1.permits = 3 ∧
      vblock_alloc 8 s.v s.mem s.env 9
        = some (VBLOCK_RET_TIMEOUT, none,
            { s.v with perf_alloc := (s.v.perf_alloc + 1) % U32,
                       perf_timeout := (s.v.perf_timeout + 1) % U32 },
            (s.env.1, (mtx_get_busy CONFIG_VBLOCK_TIMEOUT s.env.2).2)) := by
  have h : ((created_sem 8 zero_pool_host 16 3 4096 128 zero_mem (some mtx_get_script)
      (some mtx_put_script) []).bind (fun s0 =>
      Sys.run 8 s0 ([Op.alloc 0, Op.alloc 0] ++
        Op.add_mtx (some (mtx_get_host mtx_get_busy)) (some (mtx_put_host mtx_put_script)) ::
        [Op.alloc 0, Op.free 4136]))).map
        (fun r => (r.2.v.free, r.2.v.total, r.2.env.1.permits)) = some (3, 5, 3) := by
    decide
  obtain ⟨⟨rets, s⟩, hs, he⟩ := Option.map_eq_some'.mp h
  obtain ⟨s0, h0, h1⟩ := Option.bind_eq_some.mp hs
  simp only [Prod.mk.injEq] at he
  obtain ⟨hf, ht, hp⟩ := he
  exact ⟨s0, rets, s, h0, h1, hf, ht, hp,
    timeout_rollback 8 zero_pool_host 16 3 4096 128 zero_mem _ _ [] mtx_get_busy mtx_put_script
      s0 s [Op.alloc 0, Op.alloc 0] [Op.alloc 0, Op.free 4136] rets 9 h0
      (fun _ _ => by simp [mtx_get_busy]) (by simp [Op.is_call]) (by simp [Op.is_call]) h1
      (by rw [hf]; decide)⟩

end VBlock

namespace VtBlockPool

open VBlock (U32 PTR)

/-! ## Stores and lists -/

theorem set_next_same (m : NodeMem) (a x : Nat) : (set_next m a x a).next = x := by
  simp [set_next]

theorem set_next_other (m : NodeMem) {a p : Nat} (x : Nat) (h : p ≠ a) :
    set_next m a x p = m p := by
  simp [set_next, h]

theorem set_next_pool (m : NodeMem) (a x p : Nat) : (set_next m a x p).pool = (m p).pool := by
  unfold set_next
  split
  · rename_i h
    rw [h]
  · rfl

theorem listAt_congr {m m1 : NodeMem} :
    ∀ (l : List Nat) (h : Nat), (∀ a ∈ l, (m1 a).next = (m a).next) → ListAt m h l →
      ListAt m1 h l
  | [], _, _, hl => hl
  | a :: t, h, hc, hl => by
    refine ⟨hl.1, hl.2.1, ?_⟩
    rw [hc a (List.mem_cons_self _ _)]
    exact listAt_congr t _ (fun b hb => hc b (List.mem_cons_of_mem _ hb)) hl.2.2

theorem listAt_set_next {m : NodeMem} {l : List Nat} {h : Nat} (a x : Nat) (ha : a ∉ l)
    (hl : ListAt m h l) : ListAt (set_next m a x) h l :=
  listAt_congr l h (fun b hb => by
    have hne : b ≠ a := fun e => ha (by rw [← e]; exact hb)
    rw [set_next_other m x hne]) hl

theorem listAt_ne_zero {m : NodeMem} :
    ∀ (l : List Nat) (h : Nat), ListAt m h l → ∀ a ∈ l, a ≠ 0
  | [], _, _, _, ha => by simp at ha
  | b :: t, h, hl, a, ha => by
    rcases List.mem_cons.mp ha with rfl | ha
    · exact hl.2.1
    · exact listAt_ne_zero t _ hl.2.2 a ha

theorem listAt_tail {m : NodeMem} {node : Nat} {rest : List Nat} :
    ∀ (A : List Nat) (h : Nat), ListAt m h (A ++ node :: rest) →
      node ≠ 0 ∧ ListAt m (m node).next rest
  | [], _, hl => ⟨hl.2.1, hl.2.2⟩
  | _ :: A, _, hl => listAt_tail A _ hl.2.2

/-- Unlinking the successor `y` of `node` from a list. -/
theorem listAt_unlink {m : NodeMem} {node y : Nat} {B : List Nat} :
    ∀ (A : List Nat) (h : Nat), ListAt m h (A ++ node :: y :: B) →
      (A ++ node :: y :: B).Nodup →
      ListAt (set_next m node (m y).next) h (A ++ node :: B)
  | [], h, hl, hnd => by
    simp only [List.nil_append] at hl hnd ⊢
    obtain ⟨h1, h2, h3, h4, h5⟩ := hl
    have hnB : node ∉ B := fun hm =>
      (List.nodup_cons.mp hnd).1 (List.mem_cons_of_mem _ hm)
    refine ⟨h1, h2, ?_⟩
    rw [set_next_same]
    exact listAt_set_next node _ hnB h5
  | a :: A, h, hl, hnd => by
    simp only [List.cons_append] at hl hnd ⊢
    have hne : a ≠ node := by
      intro e
      exact (List.nodup_cons.mp hnd).1 (e ▸ List.mem_append_right _ (List.mem_cons_self _ _))
    refine ⟨hl.1, hl.2.1, ?_⟩
    rw [set_next_other m _ hne]
    exact listAt_unlink A _ hl.2.2 (List.nodup_cons.mp hnd).2

/-! ## The scan of `vt_block_pool_free` -/

/-- What the scan of the busy list does, started at `node` with the nodes `A` before it and the
nodes `rest` after it: it ends within `rest.length + 1` tests, and either changes nothing, or
moves one node `x` of `rest` to the head of the free list. -/
theorem free_scan_spec (heap : vt_block_pool_t) (m : NodeMem) (blk_ptr h : Nat) :
    ∀ (rest A : List Nat) (node fuel : Nat), rest.length < fuel →
      ListAt m h (A ++ node :: rest) → (A ++ node :: rest).Nodup →
      ∃ flag heap1 m1,
        free_scan fuel heap m node (m node).next blk_ptr = some (flag, heap1, m1) ∧
        ((flag = false ∧ heap1 = heap ∧ m1 = m) ∨
         (flag = true ∧ ∃ x L, heap1 = { heap with free_list := x } ∧
            (A ++ node :: rest).Perm (x :: L) ∧ ListAt m1 h L ∧
            (m1 x).next = heap.free_list ∧
            (∀ a, a ∉ A ++ node :: rest → m1 a = m a) ∧ ∀ a, (m1 a).pool = (m a).pool))
  | [], A, node, fuel, hf, hl, _ => by
    obtain ⟨k, rfl⟩ : ∃ k, fuel = k + 1 := ⟨fuel - 1, by simp at hf; omega⟩
    have hnext : (m node).next = 0 := (listAt_tail A h hl).2
    exact ⟨false, heap, m, by simp [free_scan, hnext], Or.inl ⟨rfl, rfl, rfl⟩⟩
  | y :: rest, A, node, fuel, hf, hl, hnd => by
    obtain ⟨k, rfl⟩ : ∃ k, fuel = k + 1 := ⟨fuel - 1, by simp at hf; omega⟩
    have ht := listAt_tail A h hl
    have hnext : (m node).next = y := ht.2.1
    have hy0 : y ≠ 0 := ht.2.2.1
    by_cases hp : (m y).pool = blk_ptr
    · refine ⟨true, { heap with free_list := y },
        set_next (set_next m node (m y).next) y heap.free_list,
        by simp [free_scan, hnext, hy0, hp], Or.inr ⟨rfl, y, A ++ node :: rest, rfl, ?_, ?_, ?_, ?_, ?_⟩⟩
      · have e : A ++ node :: y :: rest = (A ++ [node]) ++ y :: rest := by simp
        rw [e]
        refine (List.perm_middle).trans ?_
        simp
      · have hy : y ∉ A ++ node :: rest := by
          intro hm
          have e : A ++ node :: y :: rest = (A ++ [node]) ++ y :: rest := by simp
          rw [e] at hnd
          have := (List.nodup_cons.mp (List.nodup_middle.mp hnd)).1
          apply this
          simpa using hm
        exact listAt_set_next y _ hy (listAt_unlink A h hl hnd)
      · exact set_next_same _ _ _
      · intro a ha
        have h1 : a ≠ y := fun e => ha (e ▸ by simp)
        have h2 : a ≠ node := fun e => ha (e ▸ by simp)
        rw [set_next_other _ _ h1, set_next_other _ _ h2]
      · intro a
        rw [set_next_pool, set_next_pool]
    · have e : A ++ node :: y :: rest = (A ++ [node]) ++ y :: rest := by simp
      have hf2 : rest.length < k := by simp at hf; omega
      obtain ⟨flag, heap1, m1, hs, hres⟩ :=
        free_scan_spec heap m blk_ptr h rest (A ++ [node]) y k hf2 (e ▸ hl) (e ▸ hnd)
      refine ⟨flag, heap1, m1, by simp [free_scan, hnext, hy0, hp, hs], ?_⟩
      rw [e]
      exact hres


/-! ## The invariant of the node pool -/

theorem alloc_inv {W nodes pool_ptr blk_count blk_size : Nat} {p : Pool} {fl bl : List Nat}
    (fuel : Nat) (hinv : PoolInv W nodes pool_ptr blk_count blk_size p fl bl) :
    ∃ ret p1 fl1 bl1, p.call fuel Call.alloc = some (ret, p1) ∧
      PoolInv W nodes pool_ptr blk_count blk_size p1 fl1 bl1 := by
  cases fl with
  | nil =>
    have h0 : p.heap.free_list = 0 := hinv.hfree
    refine ⟨-1, p, [], bl, ?_, hinv⟩
    simp [Pool.call, vt_block_pool_alloc, vt_block_pool_alloc_wait, h0]
  | cons a t =>
    obtain ⟨h1, h2, h3⟩ := hinv.hfree
    have hnd := hinv.hnd
    simp only [List.cons_append] at hnd
    have hat : a ∉ t ++ bl := (List.nodup_cons.mp hnd).1
    have hne : p.heap.free_list ≠ 0 := by rw [h1]; exact h2
    refine ⟨0, { heap := { free_list := (p.nmem a).next, busy_list := a },
                 nmem := set_next p.nmem a p.heap.busy_list }, t, a :: bl, ?_, ?_⟩
    · simp [Pool.call, vt_block_pool_alloc, vt_block_pool_alloc_wait, h1, h2]
    · have hp : (t ++ a :: bl).Perm (a :: t ++ bl) := List.perm_middle
      exact
        { hfree := listAt_set_next a _ (fun hm => hat (List.mem_append_left _ hm)) h3
          hbusy := ⟨rfl, h2, by
            rw [set_next_same]
            exact listAt_set_next a _ (fun hm => hat (List.mem_append_right _ hm)) hinv.hbusy⟩
          hperm := hp.trans hinv.hperm
          hnd := hp.nodup_iff.mpr hinv.hnd
          hpool := fun i hi => by rw [set_next_pool]; exact hinv.hpool i hi }

theorem inv_length {W nodes pool_ptr blk_count blk_size : Nat} {p : Pool} {fl bl : List Nat}
    (hinv : PoolInv W nodes pool_ptr blk_count blk_size p fl bl) :
    fl.length + bl.length = blk_count := by
  have := hinv.hperm.length_eq
  simpa using this

theorem free_inv {W nodes pool_ptr blk_count blk_size : Nat} {p : Pool} {fl bl : List Nat}
    {fuel : Nat} (hfuel : blk_count ≤ fuel) (blk_ptr : Nat)
    (hinv : PoolInv W nodes pool_ptr blk_count blk_size p fl bl) :
    ∃ ret p1 fl1 bl1, p.call fuel (Call.free blk_ptr) = some (ret, p1) ∧
      PoolInv W nodes pool_ptr blk_count blk_size p1 fl1 bl1 := by
  cases bl with
  | nil =>
    have h0 : p.heap.busy_list = 0 := hinv.hbusy
    refine ⟨-1, p, fl, [], ?_, hinv⟩
    simp [Pool.call, vt_block_pool_free, h0]
  | cons b t =>
    obtain ⟨h1, h2, h3⟩ := hinv.hbusy
    have hne : p.heap.busy_list ≠ 0 := by rw [h1]; exact h2
    have hnd := hinv.hnd
    have hndb : (b :: t).Nodup := (List.nodup_append.mp hnd).2.1
    have hdis : ∀ a ∈ fl, a ∉ b :: t := fun a ha hb =>
      (List.nodup_append.mp hnd).2.2 ha hb
    by_cases hp : (p.nmem b).pool = blk_ptr
    · refine ⟨0, { heap := { busy_list := (p.nmem b).next, free_list := b },
                   nmem := set_next p.nmem b p.heap.free_list }, b :: fl, t, ?_, ?_⟩
      · simp [Pool.call, vt_block_pool_free, h1, h2, hp]
      · have hbf : b ∉ fl := fun hm => hdis b hm (List.mem_cons_self _ _)
        have hbt : b ∉ t := (List.nodup_cons.mp hndb).1
        have hperm : (b :: fl ++ t).Perm (fl ++ b :: t) := List.perm_middle.symm
        exact
          { hfree := ⟨rfl, h2, by
              rw [set_next_same]
              exact listAt_set_next b _ hbf hinv.hfree⟩
            hbusy := listAt_set_next b _ hbt h3
            hperm := hperm.trans hinv.hperm
            hnd := hperm.nodup_iff.mpr hnd
            hpool := fun i hi => by rw [set_next_pool]; exact hinv.hpool i hi }
    · have hlen := inv_length hinv
      simp only [List.length_cons] at hlen
      obtain ⟨flag, heap1, m1, hs, hres⟩ :=
        free_scan_spec p.heap p.nmem blk_ptr b t [] b fuel (by omega)
          (⟨rfl, h2, h3⟩ : ListAt p.nmem b (b :: t)) hndb
      have hcall : p.call fuel (Call.free blk_ptr)
          = some (if flag then 0 else -1, { heap := heap1, nmem := m1 }) := by
        simp [Pool.call, vt_block_pool_free, h1, h2, hp, hs]
      rcases hres with ⟨_, rfl, rfl⟩ | ⟨_, x, L, rfl, hpm, hL, hx, hframe, hpool⟩
      · exact ⟨_, _, fl, b :: t, hcall, hinv⟩
      · simp only [List.nil_append] at hpm hframe
        have hxm : x ∈ b :: t := hpm.mem_iff.mpr (List.mem_cons_self _ _)
        have hx0 : x ≠ 0 := listAt_ne_zero (b :: t) b ⟨rfl, h2, h3⟩ x hxm
        have hperm : (x :: fl ++ L).Perm (fl ++ b :: t) :=
          (List.perm_middle.symm).trans (List.Perm.append_left fl hpm.symm)
        refine ⟨_, _, x :: fl, L, hcall, ?_⟩
        exact
          { hfree := ⟨rfl, hx0, by
              rw [hx]
              exact listAt_congr fl _
                (fun a ha => congrArg vt_block_pool_node_t.next (hframe a (hdis a ha)))
                hinv.hfree⟩
            hbusy := by
              simp only
              rw [h1]
              exact hL
            hperm := hperm.trans hinv.hperm
            hnd := hperm.nodup_iff.mpr hnd
            hpool := fun i hi => (hpool _).trans (hinv.hpool i hi) }

theorem run_inv {W nodes pool_ptr blk_count blk_size fuel : Nat} (hfuel : blk_count ≤ fuel) :
    ∀ (calls : List Call) (p : Pool) (fl bl : List Nat),
      PoolInv W nodes pool_ptr blk_count blk_size p fl bl →
      ∃ rets p1 fl1 bl1, Pool.run fuel p calls = some (rets, p1) ∧
        PoolInv W nodes pool_ptr blk_count blk_size p1 fl1 bl1
  | [], p, fl, bl, h => ⟨[], p, fl, bl, rfl, h⟩
  | c :: cs, p, fl, bl, h => by
    have hstep : ∃ ret p1 fl1 bl1, p.call fuel c = some (ret, p1) ∧
        PoolInv W nodes pool_ptr blk_count blk_size p1 fl1 bl1 := by
      cases c with
      | alloc => exact alloc_inv fuel h
      | free x => exact free_inv hfuel x h
    obtain ⟨ret, p1, fl1, bl1, hc, h1⟩ := hstep
    obtain ⟨rets, p2, fl2, bl2, hr, h2⟩ := run_inv hfuel cs p1 fl1 bl1 h1
    exact ⟨ret :: rets, p2, fl2, bl2, by simp [Pool.run, hc, hr], h2⟩


/-! ## `vt_block_pool_create` establishes the invariant -/

theorem set_pool_same (m : NodeMem) (a x : Nat) : set_pool m a x a = { m a with pool := x } := by
  simp [set_pool]

theorem set_pool_other (m : NodeMem) {a p : Nat} (x : Nat) (h : p ≠ a) :
    set_pool m a x p = m p := by
  simp [set_pool, h]

theorem node_addr_eq {W nodes n : Nat} (harr : nodes + 2 * W * n < PTR W) {i : Nat}
    (hi : i ≤ n) : node_addr W nodes i = nodes + 2 * W * i := by
  have h1 : 2 * W * i ≤ 2 * W * n := Nat.mul_le_mul_left _ hi
  unfold node_addr
  rw [Nat.mod_eq_of_lt (by omega : 2 * W * i < PTR W), Nat.mod_eq_of_lt (by omega)]

theorem node_addr_inj {W nodes n : Nat} (hW : 0 < W) (harr : nodes + 2 * W * n < PTR W)
    {i j : Nat} (hi : i ≤ n) (hj : j ≤ n) (h : node_addr W nodes i = node_addr W nodes j) :
    i = j := by
  rw [node_addr_eq harr hi, node_addr_eq harr hj] at h
  have : 2 * W * i = 2 * W * j := by omega
  exact Nat.eq_of_mul_eq_mul_left (by omega) this

theorem init_nodes_at {W nodes pool_ptr blk_size : Nat} (m : NodeMem) (hW : 0 < W) :
    ∀ (n : Nat), nodes + 2 * W * n < PTR W → n < U32 → ∀ i, i < n →
      init_nodes W nodes pool_ptr blk_size n m (node_addr W nodes i)
        = { next := node_addr W nodes (i + 1), pool := blk_addr W pool_ptr blk_size i }
  | 0, _, _, i, hi => by omega
  | n + 1, harr, hn, i, hi => by
    have hle : 2 * W * n ≤ 2 * W * (n + 1) := Nat.mul_le_mul_left _ (by omega)
    have harr1 : nodes + 2 * W * n < PTR W := by omega
    simp only [init_nodes]
    rcases Nat.lt_or_ge i n with h | h
    · have hne : node_addr W nodes i ≠ node_addr W nodes n := fun e => by
        have := node_addr_inj hW harr (by omega) (by omega) e
        omega
      rw [set_pool_other _ _ hne, set_next_other _ _ hne]
      exact init_nodes_at m hW n harr1 (by omega) i h
    · have : i = n := by omega
      subst this
      rw [set_pool_same]
      simp only [set_next_same, Nat.mod_eq_of_lt hn]

theorem listAt_created_aux {W nodes : Nat} (pool_ptr blk_size : Nat) (m : NodeMem) (hW : 0 < W)
    (hnodes : 0 < nodes) (n : Nat) (harr : nodes + 2 * W * n < PTR W) (hn : n < U32) :
    ∀ (k j : Nat), j + k + 1 = n →
      ListAt (set_next (init_nodes W nodes pool_ptr blk_size n m) (node_addr W nodes (n - 1)) 0)
        (node_addr W nodes j) ((List.range' j (k + 1)).map (node_addr W nodes))
  | 0, j, hj => by
    have : j = n - 1 := by omega
    subst this
    have h0 : node_addr W nodes (n - 1) ≠ 0 := by
      rw [node_addr_eq harr (by omega)]
      omega
    simp only [List.range', List.map_cons, List.map_nil]
    exact ⟨rfl, h0, by rw [set_next_same]; rfl⟩
  | k + 1, j, hj => by
    have h0 : node_addr W nodes j ≠ 0 := by
      rw [node_addr_eq harr (by omega)]
      omega
    have hne : node_addr W nodes j ≠ node_addr W nodes (n - 1) := fun e => by
      have := node_addr_inj hW harr (by omega) (by omega) e
      omega
    rw [List.range'_succ, List.map_cons]
    refine ⟨rfl, h0, ?_⟩
    rw [set_next_other _ _ hne, init_nodes_at m hW n harr hn j (by omega)]
    exact listAt_created_aux pool_ptr blk_size m hW hnodes n harr hn k (j + 1) (by omega)

theorem created_inv {W nodes blk_count : Nat} (pool_ptr blk_size : Nat) (heap : vt_block_pool_t)
    (m : NodeMem) (hW : 0 < W) (hnodes : 0 < nodes)
    (harr : nodes + 2 * W * blk_count < PTR W) (hcount : 1 ≤ blk_count)
    (hc32 : blk_count < U32) :
    PoolInv W nodes pool_ptr blk_count blk_size
      (created W heap nodes pool_ptr blk_count blk_size m)
      ((List.range blk_count).map (node_addr W nodes)) [] := by
  have hlast : (blk_count + U32 - 1) % U32 = blk_count - 1 := by
    have : blk_count + U32 - 1 = blk_count - 1 + U32 := by omega
    rw [this, Nat.add_mod_right, Nat.mod_eq_of_lt (by omega)]
  have hnd : ((List.range blk_count).map (node_addr W nodes)).Nodup :=
    List.Nodup.map_on
      (fun i hi j hj e =>
        node_addr_inj hW harr (le_of_lt (List.mem_range.mp hi)) (le_of_lt (List.mem_range.mp hj)) e)
      (List.nodup_range blk_count)
  have hl := listAt_created_aux pool_ptr blk_size m hW hnodes blk_count harr hc32
    (blk_count - 1) 0 (by omega)
  have e : blk_count - 1 + 1 = blk_count := by omega
  rw [e, ← List.range_eq_range'] at hl
  exact
    { hfree := by
        simp only [created, vt_block_pool_create, hlast]
        exact hl
      hbusy := rfl
      hperm := by simp
      hnd := by simpa using hnd
      hpool := fun i hi => by
        simp only [created, vt_block_pool_create, hlast]
        rw [set_next_pool, init_nodes_at m hW blk_count harr hc32 i hi] }

/-- C9 as stated fails.  With 8-byte pointers, `blk_count = 3` and `blk_size = 0x80000000`
(both at least `1`), the `uint32_t` product `blk_size * i` of line 89 wraps for `i = 2`:
`vt_block_pool_create` gives the nodes the block addresses `12288`, `2147495936` and `12288`,
so node `2` has the address of block `0` and not `pool_ptr + 2 * blk_size = 4294979584`. -/
theorem pool_address_wraps_for_large_blocks :
    (1 ≤ 3 ∧ 1 ≤ 0x80000000) ∧
    ((List.range 3).map fun i =>
        ((created 8 zero_heap 8192 12288 3 0x80000000 zero_nodes).nmem (node_addr 8 8192 i)).pool)
      = [12288, 2147495936, 12288] ∧
    12288 + 2 * 0x80000000 = 4294979584 ∧ 4294979584 ≠ 12288 := by
  decide

/-- C9, amended (the two lists partition the nodes).  After `vt_block_pool_create` over a valid
node array of `blk_count ≥ 1` nodes and any sequence of `vt_block_pool_alloc` /
`vt_block_pool_free` calls with arbitrary addresses (unowned addresses and double frees
included), every call returns (the scan of `vt_block_pool_free` ends within `blk_count` tests),
and then: the free list and the busy list are `NULL`-terminated chains `fl` and `bl` of nodes;
together they hold every node of the array exactly once, so their lengths add up to
`blk_count`; and every node `i` has `pool = &pool_ptr[blk_size * i]`, the address given by
`vt_block_pool_create` with the product taken in `uint32_t`, which is `pool_ptr + i * blk_size`
when the block buffer `blk_count * blk_size` neither exceeds 32 bits nor the address space. -/
theorem node_lists_partition (W nodes pool_ptr blk_count blk_size : Nat)
    (heap : vt_block_pool_t) (m : NodeMem) (fuel : Nat) (calls : List Call)
    (hW : 0 < W) (hnodes : 0 < nodes) (harr : nodes + 2 * W * blk_count < PTR W)
    (hcount : 1 ≤ blk_count) (hc32 : blk_count < U32) (hfuel : blk_count ≤ fuel) :
    ∃ rets p fl bl,
      Pool.run fuel (created W heap nodes pool_ptr blk_count blk_size m) calls
        = some (rets, p) ∧
      ListAt p.nmem p.heap.free_list fl ∧ ListAt p.nmem p.heap.busy_list bl ∧
      (fl ++ bl).Perm ((List.range blk_count).map (node_addr W nodes)) ∧
      (fl ++ bl).Nodup ∧ fl.length + bl.length = blk_count ∧
      (∀ i, i < blk_count →
        (p.nmem (node_addr W nodes i)).pool = blk_addr W pool_ptr blk_size i) ∧
      (blk_count * blk_size < U32 → pool_ptr + blk_count * blk_size < PTR W →
        ∀ i, i < blk_count → (p.nmem (node_addr W nodes i)).pool = pool_ptr + i * blk_size) := by
  obtain ⟨rets, p, fl, bl, hr, hinv⟩ :=
    run_inv hfuel calls _ _ _ (created_inv pool_ptr blk_size heap m hW hnodes harr hcount hc32)
  refine ⟨rets, p, fl, bl, hr, hinv.hfree, hinv.hbusy, hinv.hperm, hinv.hnd, inv_length hinv,
    hinv.hpool, ?_⟩
  intro h32 hbuf i hi
  rw [hinv.hpool i hi]
  have h1 : i * blk_size ≤ blk_count * blk_size := Nat.mul_le_mul_right _ (le_of_lt hi)
  unfold blk_addr
  rw [Nat.mul_comm blk_size i, Nat.mod_eq_of_lt (by omega : i * blk_size < U32),
    Nat.mod_eq_of_lt (by omega)]

/-- Witness of C9 (amended): three nodes of 32-byte blocks, with a double free and an unowned address. -/
theorem node_lists_partition_witness :
    ∃ rets p fl bl,
      Pool.run 3 (created 8 zero_heap 8192 12288 3 32 zero_nodes)
          [Call.alloc, Call.alloc, Call.free 12288, Call.free 12288, Call.free 999, Call.alloc,
           Call.free 12320]
        = some (rets, p) ∧
      ListAt p.nmem p.heap.free_list fl ∧ ListAt p.nmem p.heap.busy_list bl ∧
      (fl ++ bl).Perm ((List.range 3).map (node_addr 8 8192)) ∧
      (fl ++ bl).Nodup ∧ fl.length + bl.length = 3 ∧
      (∀ i, i < 3 → (p.nmem (node_addr 8 8192 i)).pool = blk_addr 8 12288 32 i) ∧
      ∀ i, i < 3 → (p.nmem (node_addr 8 8192 i)).pool = 12288 + i * 32 := by
  obtain ⟨rets, p, fl, bl, h1, h2, h3, h4, h5, h6, h7, h8⟩ :=
    node_lists_partition 8 8192 12288 3 32 zero_heap zero_nodes 3
      [Call.alloc, Call.alloc, Call.free 12288, Call.free 12288, Call.free 999, Call.alloc,
        Call.free 12320]
      (by decide) (by decide) (by decide) (by decide) (by decide) (by decide)
  exact ⟨rets, p, fl, bl, h1, h2, h3, h4, h5, h6, h7, h8 (by decide) (by decide)⟩

/-! ## One call on the node pool, in detail -/

/-- C17 (alloc moves the head of the free list).  In a state where the free list is the chain
`fl`, the busy list is the chain `bl` and no node is on both or twice on one:
`vt_block_pool_alloc` returns `-1`, stores nothing and changes nothing when the free list is
empty, and only then; otherwise it returns `0`, stores the `pool` pointer of the head node `a`
of the free list to `*blk_ptr`, and afterwards the free list is the rest `t` of `fl`, the busy
list is `a` followed by `bl`, and every node has its `pool` pointer as before. -/
theorem alloc_moves_head (heap : vt_block_pool_t) (m : NodeMem) (fl bl : List Nat)
    (hfree : ListAt m heap.free_list fl) (hbusy : ListAt m heap.busy_list bl)
    (hnd : (fl ++ bl).Nodup) :
    (fl = [] ∧ heap.free_list = 0 ∧ vt_block_pool_alloc heap m = (-1, none, heap, m)) ∨
    (∃ a t heap1 m1, fl = a :: t ∧ heap.free_list ≠ 0 ∧
      vt_block_pool_alloc heap m = (0, some (m a).pool, heap1, m1) ∧
      ListAt m1 heap1.free_list t ∧ ListAt m1 heap1.busy_list (a :: bl) ∧
      (t ++ a :: bl).Nodup ∧ ∀ x, (m1 x).pool = (m x).pool) := by
  cases fl with
  | nil =>
    have h0 : heap.free_list = 0 := hfree
    exact Or.inl ⟨rfl, h0, by simp [vt_block_pool_alloc, vt_block_pool_alloc_wait, h0]⟩
  | cons a t =>
    obtain ⟨h1, h2, h3⟩ := hfree
    simp only [List.cons_append] at hnd
    have hat : a ∉ t ++ bl := (List.nodup_cons.mp hnd).1
    have hp : (t ++ a :: bl).Perm (a :: (t ++ bl)) := List.perm_middle
    refine Or.inr ⟨a, t, { free_list := (m a).next, busy_list := a },
      set_next m a heap.busy_list, rfl, by rw [h1]; exact h2, ?_, ?_, ?_, hp.nodup_iff.mpr hnd,
      fun x => set_next_pool _ _ _ _⟩
    · simp [vt_block_pool_alloc, vt_block_pool_alloc_wait, h1, h2, set_next_pool]
    · exact listAt_set_next a _ (fun hm => hat (List.mem_append_left _ hm)) h3
    · exact ⟨rfl, h2, by
        rw [set_next_same]
        exact listAt_set_next a _ (fun hm => hat (List.mem_append_right _ hm)) hbusy⟩

/-- Witness of C17: the sample pool, free list `[8192]`, busy list `[8224, 8208]`. -/
theorem alloc_moves_head_witness :
    (([8192] : List Nat) = [] ∧ sample_heap.free_list = 0 ∧
      vt_block_pool_alloc sample_heap sample_nodes = (-1, none, sample_heap, sample_nodes)) ∨
    (∃ a t heap1 m1, ([8192] : List Nat) = a :: t ∧ sample_heap.free_list ≠ 0 ∧
      vt_block_pool_alloc sample_heap sample_nodes = (0, some (sample_nodes a).pool, heap1, m1) ∧
      ListAt m1 heap1.free_list t ∧ ListAt m1 heap1.busy_list (a :: [8224, 8208]) ∧
      (t ++ a :: [8224, 8208]).Nodup ∧ ∀ x, (m1 x).pool = (sample_nodes x).pool) :=
  alloc_moves_head sample_heap sample_nodes [8192] [8224, 8208]
    ⟨rfl, by decide, rfl⟩ ⟨rfl, by decide, rfl, by decide, rfl⟩ (by decide)

theorem first_match_split (P : Nat → Prop) [DecidablePred P] :
    ∀ l : List Nat, (∀ a ∈ l, ¬ P a) ∨
      ∃ pre x post, l = pre ++ x :: post ∧ (∀ a ∈ pre, ¬ P a) ∧ P x
  | [] => Or.inl (fun a ha => by simp at ha)
  | b :: t => by
    by_cases hb : P b
    · exact Or.inr ⟨[], b, t, rfl, fun a ha => by simp at ha, hb⟩
    · rcases first_match_split P t with h | ⟨pre, x, post, rfl, hpre, hx⟩
      · refine Or.inl (fun a ha => ?_)
        rcases List.mem_cons.mp ha with rfl | ha
        · exact hb
        · exact h a ha
      · refine Or.inr ⟨b :: pre, x, post, rfl, fun a ha => ?_, hx⟩
        rcases List.mem_cons.mp ha with rfl | ha
        · exact hb
        · exact hpre a ha

/-- The scan finds nothing when no node after `node` matches. -/
theorem free_scan_none (heap : vt_block_pool_t) (m : NodeMem) (blk_ptr h : Nat) :
    ∀ (rest A : List Nat) (node fuel : Nat), rest.length < fuel →
      ListAt m h (A ++ node :: rest) → (∀ a ∈ rest, (m a).pool ≠ blk_ptr) →
      free_scan fuel heap m node (m node).next blk_ptr = some (false, heap, m)
  | [], A, node, fuel, hf, hl, _ => by
    obtain ⟨k, rfl⟩ : ∃ k, fuel = k + 1 := ⟨fuel - 1, by simp at hf; omega⟩
    have hnext : (m node).next = 0 := (listAt_tail A h hl).2
    simp [free_scan, hnext]
  | y :: rest, A, node, fuel, hf, hl, hno => by
    obtain ⟨k, rfl⟩ : ∃ k, fuel = k + 1 := ⟨fuel - 1, by simp at hf; omega⟩
    have ht := listAt_tail A h hl
    have hnext : (m node).next = y := ht.2.1
    have hy0 : y ≠ 0 := ht.2.2.1
    have hp : (m y).pool ≠ blk_ptr := hno y (List.mem_cons_self _ _)
    have e : A ++ node :: y :: rest = (A ++ [node]) ++ y :: rest := by simp
    have hf2 : rest.length < k := by simp at hf; omega
    have := free_scan_none heap m blk_ptr h rest (A ++ [node]) y k hf2 (e ▸ hl)
      (fun a ha => hno a (List.mem_cons_of_mem _ ha))
    simp [free_scan, hnext, hy0, hp, this]

/-- The scan unlinks the first matching node after `node` and puts it at the head of the free
list. -/
theorem free_scan_first (heap : vt_block_pool_t) (m : NodeMem) (blk_ptr h x : Nat)
    (post : List Nat) :
    ∀ (pre A : List Nat) (node fuel : Nat), pre.length + post.length + 1 < fuel →
      ListAt m h (A ++ node :: (pre ++ x :: post)) → (A ++ node :: (pre ++ x :: post)).Nodup →
      (∀ a ∈ pre, (m a).pool ≠ blk_ptr) → (m x).pool = blk_ptr →
      ∃ m1, free_scan fuel heap m node (m node).next blk_ptr
            = some (true, { heap with free_list := x }, m1) ∧
        ListAt m1 h (A ++ node :: (pre ++ post)) ∧ (m1 x).next = heap.free_list ∧
        (∀ a, a ∉ A ++ node :: (pre ++ x :: post) → m1 a = m a) ∧
        ∀ a, (m1 a).pool = (m a).pool
  | [], A, node, fuel, hf, hl, hnd, _, hx => by
    obtain ⟨k, rfl⟩ : ∃ k, fuel = k + 1 := ⟨fuel - 1, by omega⟩
    simp only [List.nil_append] at hl hnd ⊢
    have ht := listAt_tail A h hl
    have hnext : (m node).next = x := ht.2.1
    have hx0 : x ≠ 0 := ht.2.2.1
    have hxn : x ∉ A ++ node :: post := by
      intro hm
      have e : A ++ node :: x :: post = (A ++ [node]) ++ x :: post := by simp
      rw [e] at hnd
      exact (List.nodup_cons.mp (List.nodup_middle.mp hnd)).1 (by simpa using hm)
    refine ⟨set_next (set_next m node (m x).next) x heap.free_list,
      by simp [free_scan, hnext, hx0, hx], ?_, set_next_same _ _ _, ?_, ?_⟩
    · exact listAt_set_next x _ hxn (listAt_unlink A h hl hnd)
    · intro a ha
      have h1 : a ≠ x := fun e => ha (e ▸ by simp)
      have h2 : a ≠ node := fun e => ha (e ▸ by simp)
      rw [set_next_other _ _ h1, set_next_other _ _ h2]
    · intro a
      rw [set_next_pool, set_next_pool]
  | y :: pre, A, node, fuel, hf, hl, hnd, hpre, hx => by
    obtain ⟨k, rfl⟩ : ∃ k, fuel = k + 1 := ⟨fuel - 1, by omega⟩
    simp only [List.cons_append] at hl hnd ⊢
    have ht := listAt_tail A h hl
    have hnext : (m node).next = y := ht.2.1
    have hy0 : y ≠ 0 := ht.2.2.1
    have hp : (m y).pool ≠ blk_ptr := hpre y (List.mem_cons_self _ _)
    have e : ∀ l : List Nat, A ++ node :: y :: l = (A ++ [node]) ++ y :: l := by simp
    obtain ⟨m1, hs, h1, h2, h3, h4⟩ :=
      free_scan_first heap m blk_ptr h x post pre (A ++ [node]) y k
        (by simp only [List.length_cons] at hf; omega) (e _ ▸ hl) (e _ ▸ hnd)
        (fun a ha => hpre a (List.mem_cons_of_mem _ ha)) hx
    refine ⟨m1, by simp [free_scan, hnext, hy0, hp, hs], ?_, h2, ?_, h4⟩
    · rw [e]
      exact h1
    · rw [e]
      exact h3

/-- C18 (free unlinks the first match).  In a state where the free list is the chain `fl`, the
busy list is the chain `bl` and no node is on both or twice on one, `vt_block_pool_free(p)`
returns (the scan ends within `bl.length` tests) and: when no node of the busy list has
`pool = p` (an empty busy list included) it returns `-1` and changes nothing; otherwise it
returns `0`, and with `x` the first node of the busy list that has `pool = p`, `pre` the nodes
before it and `post` the nodes after it, the busy list is `pre` followed by `post`, the free
list is `x` followed by `fl`, and every node has its `pool` pointer as before. -/
theorem free_first_match (fuel : Nat) (heap : vt_block_pool_t) (m : NodeMem)
    (fl bl : List Nat) (p : Nat)
    (hfree : ListAt m heap.free_list fl) (hbusy : ListAt m heap.busy_list bl)
    (hnd : (fl ++ bl).Nodup) (hfuel : bl.length ≤ fuel) :
    ((∀ a ∈ bl, (m a).pool ≠ p) ∧ vt_block_pool_free fuel heap m p = some (-1, heap, m)) ∨
    (∃ pre x post heap1 m1, bl = pre ++ x :: post ∧ (∀ a ∈ pre, (m a).pool ≠ p) ∧
      (m x).pool = p ∧ vt_block_pool_free fuel heap m p = some (0, heap1, m1) ∧
      ListAt m1 heap1.busy_list (pre ++ post) ∧ ListAt m1 heap1.free_list (x :: fl) ∧
      ((x :: fl) ++ (pre ++ post)).Nodup ∧ ∀ a, (m1 a).pool = (m a).pool) := by
  have hndb : bl.Nodup := (List.nodup_append.mp hnd).2.1
  have hdis : ∀ a ∈ fl, a ∉ bl := fun a ha hb => (List.nodup_append.mp hnd).2.2 ha hb
  rcases first_match_split (fun a => (m a).pool = p) bl with hno | ⟨pre, x, post, rfl, hpre, hx⟩
  · refine Or.inl ⟨hno, ?_⟩
    cases bl with
    | nil =>
      have h0 : heap.busy_list = 0 := hbusy
      simp [vt_block_pool_free, h0]
    | cons b t =>
      obtain ⟨h1, h2, h3⟩ := hbusy
      have hb : (m b).pool ≠ p := hno b (List.mem_cons_self _ _)
      have hs := free_scan_none heap m p b t [] b fuel
        (by simp only [List.length_cons] at hfuel; omega)
        (⟨rfl, h2, h3⟩ : ListAt m b (b :: t)) (fun a ha => hno a (List.mem_cons_of_mem _ ha))
      simp [vt_block_pool_free, h1, h2, hb, hs]
  · have hperm : ((x :: fl) ++ (pre ++ post)).Perm (fl ++ (pre ++ x :: post)) :=
      (List.perm_middle.symm).trans (List.Perm.append_left fl List.perm_middle.symm)
    have hx0 : x ≠ 0 := listAt_ne_zero _ _ hbusy x (by simp)
    cases pre with
    | nil =>
      simp only [List.nil_append] at hbusy hndb hdis ⊢
      obtain ⟨h1, h2, h3⟩ := hbusy
      have hxp : x ∉ post := (List.nodup_cons.mp hndb).1
      have hxf : x ∉ fl := fun hm => hdis x hm (List.mem_cons_self _ _)
      refine Or.inr ⟨[], x, post, { busy_list := (m x).next, free_list := x },
        set_next m x heap.free_list, rfl, hpre, hx, ?_, ?_, ?_, hperm.nodup_iff.mpr hnd,
        fun a => set_next_pool _ _ _ _⟩
      · simp [vt_block_pool_free, h1, h2, hx]
      · exact listAt_set_next x _ hxp h3
      · exact ⟨rfl, h2, by
          rw [set_next_same]
          exact listAt_set_next x _ hxf hfree⟩
    | cons b pre =>
      simp only [List.cons_append] at hbusy hndb hdis hfuel
      have hb : (m b).pool ≠ p := hpre b (List.mem_cons_self _ _)
      have hb1 := hbusy.1
      have hb2 := hbusy.2.1
      obtain ⟨m1, hs, h1, h2, h3, h4⟩ :=
        free_scan_first heap m p b x post pre [] b fuel
          (by simp only [List.length_cons, List.length_append] at hfuel; omega)
          (⟨rfl, hb2, hbusy.2.2⟩ : ListAt m b (b :: (pre ++ x :: post))) hndb
          (fun a ha => hpre a (List.mem_cons_of_mem _ ha)) hx
      refine Or.inr ⟨b :: pre, x, post, { heap with free_list := x }, m1, rfl, hpre, hx, ?_, ?_,
        ?_, hperm.nodup_iff.mpr hnd, h4⟩
      · simp [vt_block_pool_free, hb1, hb2, hb, hs]
      · simp only [List.nil_append] at h1
        simp only [List.cons_append]
        rw [hb1]
        exact h1
      · refine ⟨rfl, hx0, ?_⟩
        rw [h2]
        exact listAt_congr fl _
          (fun a ha => congrArg vt_block_pool_node_t.next (h3 a (hdis a ha))) hfree

/-- Witness of C18: the sample pool, free list `[8192]`, busy list `[8224, 8208]`, and the free
of the block `12320` of the second busy node. -/
theorem free_first_match_witness :
    ((∀ a ∈ ([8224, 8208] : List Nat), (sample_nodes a).pool ≠ 12320) ∧
      vt_block_pool_free 2 sample_heap sample_nodes 12320
        = some (-1, sample_heap, sample_nodes)) ∨
    (∃ pre x post heap1 m1, ([8224, 8208] : List Nat) = pre ++ x :: post ∧
      (∀ a ∈ pre, (sample_nodes a).pool ≠ 12320) ∧ (sample_nodes x).pool = 12320 ∧
      vt_block_pool_free 2 sample_heap sample_nodes 12320 = some (0, heap1, m1) ∧
      ListAt m1 heap1.busy_list (pre ++ post) ∧ ListAt m1 heap1.free_list (x :: [8192]) ∧
      ((x :: [8192]) ++ (pre ++ post)).Nodup ∧ ∀ a, (m1 a).pool = (sample_nodes a).pool) :=
  free_first_match 2 sample_heap sample_nodes [8192] [8224, 8208] 12320
    ⟨rfl, by decide, rfl⟩ ⟨rfl, by decide, rfl, by decide, rfl⟩ (by decide) (by decide)

/-! ## The synchronized `vt_block_pool_free` -/

/-- Where the synchronized build does what C19 states: with the mutex free, a busy list that
is not empty and holds no node with `pool = p`, the call returns `-1`, changes neither list,
and leaves the host as it was (mutex released, permits untouched). -/
theorem free_multithread_no_match (fuel : Nat) (heap : vt_block_pool_t) (m : NodeMem)
    (e : PortEnv) (b : Nat) (t : List Nat) (p : Nat)
    (hbusy : ListAt m heap.busy_list (b :: t)) (hfuel : t.length < fuel)
    (hmtx : e.mtx_held = false) (hno : ∀ a ∈ b :: t, (m a).pool ≠ p) :
    vt_block_pool_free_multithread fuel heap m e p = some (-1, heap, m, e) := by
  obtain ⟨h1, h2, h3⟩ := hbusy
  have hb : (m b).pool ≠ p := hno b (List.mem_cons_self _ _)
  have hs := free_scan_none heap m p b t [] b fuel hfuel
    (⟨rfl, h2, h3⟩ : ListAt m b (b :: t)) (fun a ha => hno a (List.mem_cons_of_mem _ ha))
  have he : ({ mtx_held := false, permits := e.permits, capacity := e.capacity } : PortEnv)
      = e := by
    rw [← hmtx]
  simp [vt_block_pool_free_multithread, vt_block_pool_mutex_get, vt_block_pool_mutex_put,
    xSemaphoreTake, xSemaphoreGive, hmtx, h1, h2, hb, hs, he]

/-- C19 fails on the code (missing `NULL` test in the synchronized build).  In the pool right
after `vt_block_pool_create` the busy list is empty (`busy_list = NULL`) and the mutex is free,
so the acquire succeeds.  The test `heap->busy_list == NULL` stands in the `#else` branch of
line 200 and is not compiled in this build: `vt_block_pool_free` goes on to read
`heap->busy_list->next` (line 210) through `NULL`, and the call has no defined result. -/
theorem free_multithread_reads_null :
    ((created 8 zero_heap 8192 12288 3 32 zero_nodes).heap.busy_list,
      (vt_block_pool_mutex_get CONFIG_VT_BLOCK_POOL_MUTEX_TIMEOUT
        { mtx_held := false, permits := 3, capacity := 3 }).1,
      (vt_block_pool_free_multithread 3 (created 8 zero_heap 8192 12288 3 32 zero_nodes).heap
        (created 8 zero_heap 8192 12288 3 32 zero_nodes).nmem
        { mtx_held := false, permits := 3, capacity := 3 } 12288).isSome)
      = (0, 0, false) := by
  decide

/-! ## `vt_block_pool_get_info` -/

theorem count_nodes_list (m : NodeMem) :
    ∀ (l : List Nat) (node fuel c : Nat), ListAt m node l → l.length < fuel →
      c + l.length < U32 → count_nodes fuel m node c = some (c + l.length)
  | [], node, fuel, c, hl, hf, _ => by
    obtain ⟨k, rfl⟩ : ∃ k, fuel = k + 1 := ⟨fuel - 1, by simp at hf; omega⟩
    have h0 : node = 0 := hl
    simp [count_nodes, h0]
  | a :: t, node, fuel, c, hl, hf, hc => by
    obtain ⟨k, rfl⟩ : ∃ k, fuel = k + 1 := ⟨fuel - 1, by simp at hf; omega⟩
    obtain ⟨h1, h2, h3⟩ := hl
    simp only [List.length_cons] at hf hc
    have hmod : (c + 1) % U32 = c + 1 := Nat.mod_eq_of_lt (by omega)
    have := count_nodes_list m t (m a).next k (c + 1) h3 (by omega) (by omega)
    simp only [count_nodes, h1, h2, if_false, hmod, this, List.length_cons]
    congr 1
    omega

theorem call_inv_count {W nodes pool_ptr blk_count blk_size : Nat} {p : Pool} {fl bl : List Nat}
    {fuel : Nat} (hfuel : blk_count ≤ fuel) (c : Call)
    (hinv : PoolInv W nodes pool_ptr blk_count blk_size p fl bl) :
    ∃ ret p1 fl1 bl1, p.call fuel c = some (ret, p1) ∧
      PoolInv W nodes pool_ptr blk_count blk_size p1 fl1 bl1 ∧
      (bl1.length : Int) = bl.length + outstanding [c] [ret] := by
  cases c with
  | alloc =>
    rcases alloc_moves_head p.heap p.nmem fl bl hinv.hfree hinv.hbusy hinv.hnd with
      ⟨rfl, _, hr⟩ | ⟨a, t, heap1, m1, rfl, _, hr, hf1, hb1, hnd1, hp1⟩
    · refine ⟨-1, p, [], bl, by simp [Pool.call, hr], hinv, ?_⟩
      simp [outstanding]
    · refine ⟨0, { heap := heap1, nmem := m1 }, t, a :: bl, by simp [Pool.call, hr], ?_, ?_⟩
      · have hp : (t ++ a :: bl).Perm (a :: t ++ bl) := List.perm_middle
        exact
          { hfree := hf1, hbusy := hb1, hperm := hp.trans hinv.hperm, hnd := hnd1
            hpool := fun i hi => (hp1 _).trans (hinv.hpool i hi) }
      · simp [outstanding]
  | free x =>
    have hlen : bl.length ≤ fuel := by
      have := hinv.hperm.length_eq
      simp at this
      omega
    rcases free_first_match fuel p.heap p.nmem fl bl x hinv.hfree hinv.hbusy hinv.hnd hlen with
      ⟨_, hr⟩ | ⟨pre, y, post, heap1, m1, rfl, _, _, hr, hb1, hf1, hnd1, hp1⟩
    · refine ⟨-1, p, fl, bl, by simp [Pool.call, hr], hinv, ?_⟩
      simp [outstanding]
    · refine ⟨0, { heap := heap1, nmem := m1 }, y :: fl, pre ++ post,
        by simp [Pool.call, hr], ?_, ?_⟩
      · have hp : ((y :: fl) ++ (pre ++ post)).Perm (fl ++ (pre ++ y :: post)) :=
          (List.perm_middle.symm).trans (List.Perm.append_left fl List.perm_middle.symm)
        exact
          { hfree := hf1, hbusy := hb1, hperm := hp.trans hinv.hperm, hnd := hnd1
            hpool := fun i hi => (hp1 _).trans (hinv.hpool i hi) }
      · simp [outstanding]
        omega

theorem run_inv_count {W nodes pool_ptr blk_count blk_size fuel : Nat}
    (hfuel : blk_count ≤ fuel) :
    ∀ (calls : List Call) (p : Pool) (fl bl : List Nat),
      PoolInv W nodes pool_ptr blk_count blk_size p fl bl →
      ∃ rets p1 fl1 bl1, Pool.run fuel p calls = some (rets, p1) ∧
        PoolInv W nodes pool_ptr blk_count blk_size p1 fl1 bl1 ∧
        (bl1.length : Int) = bl.length + outstanding calls rets
  | [], p, fl, bl, h => ⟨[], p, fl, bl, rfl, h, by simp [outstanding]⟩
  | c :: cs, p, fl, bl, h => by
    obtain ⟨ret, p1, fl1, bl1, hc, h1, hl1⟩ := call_inv_count hfuel c h
    obtain ⟨rets, p2, fl2, bl2, hr, h2, hl2⟩ := run_inv_count hfuel cs p1 fl1 bl1 h1
    refine ⟨ret :: rets, p2, fl2, bl2, by simp [Pool.run, hc, hr], h2, ?_⟩
    rw [hl2, hl1]
    cases c <;> simp [outstanding] <;> omega

theorem get_info_lengths (fuel : Nat) (heap : vt_block_pool_t) (m : NodeMem) (fl bl : List Nat)
    (hfree : ListAt m heap.free_list fl) (hbusy : ListAt m heap.busy_list bl)
    (hfl : fl.length < fuel) (hbl : bl.length < fuel) (hfl32 : fl.length < U32)
    (hbl32 : bl.length < U32) :
    vt_block_pool_get_info fuel heap m = some (0, bl.length, fl.length) := by
  have h1 := count_nodes_list m bl heap.busy_list fuel 0 hbusy hbl (by omega)
  have h2 := count_nodes_list m fl heap.free_list fuel 0 hfree hfl (by omega)
  simp only [Nat.zero_add] at h1 h2
  simp [vt_block_pool_get_info, h1, h2]

/-- C20 (the counts of `vt_block_pool_get_info`).  In a state where the free list is the chain
`fl` and the busy list is the chain `bl`, both shorter than `2 ^ 32`, `vt_block_pool_get_info`
returns `0` with `*busy_blk = bl.length` and `*free_blk = fl.length` (each loop ends within
`length + 1` tests); it is a function of the state only and writes to neither list.  Hence
after `vt_block_pool_create` over a valid node array of `blk_count ≥ 1` nodes and any sequence of
`vt_block_pool_alloc` / `vt_block_pool_free` calls, the two counts add up to `blk_count`, and the
busy count is the number of outstanding blocks: the successful allocs minus the successful
frees. -/
theorem get_info_counts (fuel : Nat) (heap : vt_block_pool_t) (m : NodeMem) (fl bl : List Nat)
    (W nodes pool_ptr blk_count blk_size : Nat) (heap0 : vt_block_pool_t) (m0 : NodeMem)
    (calls : List Call)
    (hfree : ListAt m heap.free_list fl) (hbusy : ListAt m heap.busy_list bl)
    (hfl : fl.length < fuel) (hbl : bl.length < fuel) (hfl32 : fl.length < U32)
    (hbl32 : bl.length < U32)
    (hW : 0 < W) (hnodes : 0 < nodes) (harr : nodes + 2 * W * blk_count < PTR W)
    (hcount : 1 ≤ blk_count) (hc32 : blk_count < U32) (hfuel : blk_count < fuel) :
    vt_block_pool_get_info fuel heap m = some (0, bl.length, fl.length) ∧
    ∃ rets p busy_blk free_blk,
      Pool.run fuel (created W heap0 nodes pool_ptr blk_count blk_size m0) calls
        = some (rets, p) ∧
      vt_block_pool_get_info fuel p.heap p.nmem = some (0, busy_blk, free_blk) ∧
      busy_blk + free_blk = blk_count ∧ (busy_blk : Int) = outstanding calls rets := by
  refine ⟨get_info_lengths fuel heap m fl bl hfree hbusy hfl hbl hfl32 hbl32, ?_⟩
  obtain ⟨rets, p, fl1, bl1, hr, hinv, hlen⟩ :=
    run_inv_count (le_of_lt hfuel) calls _ _ _
      (created_inv pool_ptr blk_size heap0 m0 hW hnodes harr hcount hc32)
  have hsum := inv_length hinv
  refine ⟨rets, p, bl1.length, fl1.length,
    hr, get_info_lengths fuel p.heap p.nmem fl1 bl1 hinv.hfree hinv.hbusy (by omega) (by omega)
      (by omega) (by omega), by omega, ?_⟩
  simpa using hlen

/-- Witness of C20: the sample pool, and a pool of three nodes after a run with a double free
and an unowned address. -/
theorem get_info_counts_witness :
    vt_block_pool_get_info 4 sample_heap sample_nodes
      = some (0, ([8224, 8208] : List Nat).length, ([8192] : List Nat).length) ∧
    ∃ rets p busy_blk free_blk,
      Pool.run 4 (created 8 zero_heap 8192 12288 3 32 zero_nodes)
          [Call.alloc, Call.alloc, Call.free 12288, Call.free 12288, Call.free 999, Call.alloc]
        = some (rets, p) ∧
      vt_block_pool_get_info 4 p.heap p.nmem = some (0, busy_blk, free_blk) ∧
      busy_blk + free_blk = 3 ∧
      (busy_blk : Int) = outstanding
        [Call.alloc, Call.alloc, Call.free 12288, Call.free 12288, Call.free 999, Call.alloc]
        rets :=
  get_info_counts 4 sample_heap sample_nodes [8192] [8224, 8208] 8 8192 12288 3 32 zero_heap
    zero_nodes _ ⟨rfl, by decide, rfl⟩ ⟨rfl, by decide, rfl, by decide, rfl⟩
    (by decide) (by decide) (by decide) (by decide)
    (by decide) (by decide) (by decide) (by decide) (by decide) (by decide)

/-- On the sample pool `vt_block_pool_get_info` reports two busy nodes and one free node. -/
theorem get_info_sample_eval :
    vt_block_pool_get_info 4 sample_heap sample_nodes = some (0, 2, 1) := by
  decide

/-! ## Reuse order of the node pool -/

theorem free_scan_found (blk_ptr : Nat) :
    ∀ (fuel : Nat) (heap heap1 : vt_block_pool_t) (m m1 : NodeMem) (node next : Nat),
      free_scan fuel heap m node next blk_ptr = some (true, heap1, m1) →
      heap1.free_list ≠ 0 ∧ (m1 heap1.free_list).pool = blk_ptr
  | 0, heap, heap1, m, m1, node, next, h => by simp [free_scan] at h
  | fuel + 1, heap, heap1, m, m1, node, next, h => by
    simp only [free_scan] at h
    split_ifs at h with h0 hp
    · simp at h
    · simp only [Option.some.injEq, Prod.mk.injEq, true_and] at h
      obtain ⟨rfl, rfl⟩ := h
      exact ⟨h0, by simpa [set_next_pool] using hp⟩
    · exact free_scan_found blk_ptr fuel heap heap1 m m1 next (m next).next h

theorem free_then_alloc {fuel : Nat} {heap heap1 : vt_block_pool_t} {m m1 : NodeMem} {p : Nat}
    (h : vt_block_pool_free fuel heap m p = some (0, heap1, m1)) :
    heap1.free_list ≠ 0 ∧ (m1 heap1.free_list).pool = p := by
  unfold vt_block_pool_free at h
  simp only [] at h
  split_ifs at h with h0 hp
  · simp at h
  · simp only [Option.some.injEq, Prod.mk.injEq, true_and] at h
    obtain ⟨rfl, rfl⟩ := h
    exact ⟨h0, by simpa [set_next_pool] using hp⟩
  · split at h
    · simp at h
    · rename_i flag heap2 m2 heq
      simp only [Option.some.injEq, Prod.mk.injEq] at h
      obtain ⟨hf, rfl, rfl⟩ := h
      cases flag with
      | false => simp at hf
      | true => exact free_scan_found p fuel heap _ m _ _ _ heq

theorem set_next_thrice (m : NodeMem) (a x y : Nat) :
    set_next (set_next (set_next m a x) a y) a x = set_next m a x := by
  funext q
  by_cases hq : q = a
  · subst hq
    simp [set_next]
  · simp [set_next, hq]

/-- C25 (LIFO reuse of the node pool).  In a state where the free list is the chain `fl`, the
busy list is the chain `bl` and no node is on them twice: when `vt_block_pool_free` of `p`
returns `0`, the next `vt_block_pool_alloc` returns `0` and stores `p`; and when
`vt_block_pool_alloc` returns `0` and stores `p`, moving the node `a` from the head of `fl` to
the head of the busy list, then `vt_block_pool_free` of `p` returns `0` (for any bound on its
loop) and gives back the lists `fl` and `bl`, and the `vt_block_pool_alloc` after it returns `0`,
stores `p` and ends in the very descriptor and nodes left by the first alloc. -/
theorem lifo_reuse (fuel : Nat) (heap : vt_block_pool_t) (m : NodeMem) (fl bl : List Nat)
    (hfree : ListAt m heap.free_list fl) (hbusy : ListAt m heap.busy_list bl)
    (hnd : (fl ++ bl).Nodup) :
    (∀ p heap1 m1, vt_block_pool_free fuel heap m p = some (0, heap1, m1) →
      ∃ heap2 m2, vt_block_pool_alloc heap1 m1 = (0, some p, heap2, m2)) ∧
    (∀ p heap1 m1, vt_block_pool_alloc heap m = (0, some p, heap1, m1) →
      ∃ a t, fl = a :: t ∧ ListAt m1 heap1.free_list t ∧ ListAt m1 heap1.busy_list (a :: bl) ∧
        ∃ heap2 m2, vt_block_pool_free fuel heap1 m1 p = some (0, heap2, m2) ∧
          ListAt m2 heap2.free_list (a :: t) ∧ ListAt m2 heap2.busy_list bl ∧
          vt_block_pool_alloc heap2 m2 = (0, some p, heap1, m1)) := by
  constructor
  · intro p heap1 m1 h
    obtain ⟨h0, hp⟩ := free_then_alloc h
    exact ⟨{ free_list := (m1 heap1.free_list).next, busy_list := heap1.free_list },
      set_next m1 heap1.free_list heap1.busy_list,
      by simp [vt_block_pool_alloc, vt_block_pool_alloc_wait, h0, set_next_pool, hp]⟩
  · intro p heap1 m1 h
    cases fl with
    | nil =>
      have h0 : heap.free_list = 0 := hfree
      simp [vt_block_pool_alloc, vt_block_pool_alloc_wait, h0] at h
    | cons a t =>
      obtain ⟨h1, h2, h3⟩ := hfree
      simp only [List.cons_append] at hnd
      have hat : a ∉ t ++ bl := (List.nodup_cons.mp hnd).1
      have hfl : heap.free_list ≠ 0 := by rw [h1]; exact h2
      simp only [vt_block_pool_alloc, vt_block_pool_alloc_wait, if_neg hfl, Prod.mk.injEq,
        Option.some.injEq, true_and] at h
      obtain ⟨hp, rfl, rfl⟩ := h
      rw [set_next_pool] at hp
      rw [h1] at hp ⊢
      have ht : ListAt (set_next m a heap.busy_list) (m a).next t :=
        listAt_set_next a _ (fun hm => hat (List.mem_append_left _ hm)) h3
      have hb : ListAt (set_next m a heap.busy_list) heap.busy_list bl :=
        listAt_set_next a _ (fun hm => hat (List.mem_append_right _ hm)) hbusy
      refine ⟨a, t, rfl, ht, ⟨rfl, h2, by rw [set_next_same]; exact hb⟩,
        { busy_list := heap.busy_list, free_list := a },
        set_next (set_next m a heap.busy_list) a (m a).next, ?_, ?_, ?_, ?_⟩
      · simp [vt_block_pool_free, h2, set_next_pool, hp, set_next_same]
      · exact ⟨rfl, h2, by
          rw [set_next_same]
          exact listAt_set_next a _ (fun hm => hat (List.mem_append_left _ hm)) ht⟩
      · exact listAt_set_next a _ (fun hm => hat (List.mem_append_right _ hm)) hb
      · simp [vt_block_pool_alloc, vt_block_pool_alloc_wait, h2, set_next_pool, hp,
          set_next_same, set_next_thrice]

/-- Witness of C25: in the sample pool (free list `[8192]`, busy list `[8224, 8208]`) the free
of the busy block `12320` returns `0` and the next alloc stores `12320`; and the alloc stores
`12288`, after which the free of `12288` and one more alloc end in the state left by the first
alloc. -/
theorem lifo_reuse_witness :
    (∃ heap1 m1 heap2 m2,
      vt_block_pool_free 2 sample_heap sample_nodes 12320 = some (0, heap1, m1) ∧
      vt_block_pool_alloc heap1 m1 = (0, some 12320, heap2, m2)) ∧
    (∃ heap1 m1 heap2 m2,
      vt_block_pool_alloc sample_heap sample_nodes = (0, some 12288, heap1, m1) ∧
      vt_block_pool_free 2 heap1 m1 12288 = some (0, heap2, m2) ∧
      vt_block_pool_alloc heap2 m2 = (0, some 12288, heap1, m1)) := by
  have T := lifo_reuse 2 sample_heap sample_nodes [8192] [8224, 8208]
    ⟨rfl, by decide, rfl⟩ ⟨rfl, by decide, rfl, by decide, rfl⟩ (by decide)
  have hf : (vt_block_pool_free 2 sample_heap sample_nodes 12320).map (fun r => r.1) = some 0 := by
    decide
  obtain ⟨⟨ret, heap1, m1⟩, hr, h0⟩ := Option.map_eq_some'.mp hf
  simp only at h0
  subst h0
  obtain ⟨heap2, m2, h2⟩ := T.1 12320 heap1 m1 hr
  refine ⟨⟨heap1, m1, heap2, m2, hr, h2⟩, ?_⟩
  have ha : vt_block_pool_alloc sample_heap sample_nodes
      = (0, some 12288, (vt_block_pool_alloc sample_heap sample_nodes).2.2.1,
          (vt_block_pool_alloc sample_heap sample_nodes).2.2.2) :=
    Prod.ext (by decide) (Prod.ext (by decide) rfl)
  obtain ⟨a, t, _, _, _, heap3, m3, h3, _, _, h4⟩ := T.2 12288 _ _ ha
  exact ⟨_, _, heap3, m3, ha, h3, h4⟩

end VtBlockPool
